import Mathlib

/-! ColorSwatch: configuration loading and mask segmentation

A shallow embedding of `src/src/ColorSwatch.cpp` (class `ColorSwatch`) and the
properties of `loadSettings`, `loadImages` and `fillPatchesPixelsFromMask`.

* The C++ object state (`ColorSwatch::Private`) is a record that is passed
  explicitly; a member function returns the state it leaves behind together
  with either its return value or the exception it raised.
* The Qt and plugin collaborators whose code is not part of the repository
  sources (file system queries, colour construction, image decoding) are
  fields of the record `World`, so every statement holds for any behaviour of
  theirs. The class `ColorSwatchMask`, whose header is missing, is modelled
  from its description.
* `for` loops over a fixed range are folds over `List.range`; the two `while`
  loops are recursive functions whose bound on the number of reads is shown
  not to restrict them (`growMaxRow_fuel`, `growMaxCol_fuel`). A pixel read
  outside the image ends the run with `Error.pixelOutOfRange`.
* `QRgb`, `int` and `unsigned int` values are natural numbers; image
  dimensions are the non-negative `int` values Qt reports, and the counter
  `i` wraps at 2^32.
-/

namespace ColorSwatchModel

/-! ## Values -/

/-- A pixel value as returned by `QImage::pixel` (an `unsigned int`). -/
abbrev QRgb := Nat

/-- The `double` obtained from a reflectance entry by `QVariant::toDouble`.
Only the identity and the order of these values matter in `loadSettings`, so
they are carried as exact numbers. -/
abbrev Reflectance := Int

/-- A `QColor`, known by what `QColor::rgb()` returns for it. Colours are made
by the Qt constructors, which are fields of `World`. -/
structure QColor where
  rgb : QRgb
  deriving DecidableEq, Repr

/-- The exceptions thrown in `ColorSwatch.cpp`, by kind. The last constructor is
not an exception: it records that a loop called `QImage::pixel` on a coordinate
outside the image, which Qt leaves undefined. -/
inductive Error where
  /-- Thrown as `std::invalid_argument`, "The specified file does not exist : path". -/
  | missingFile (path : String)
  /-- Thrown as `std::invalid_argument`, "The specified color is invalid : str". -/
  | invalidColor (colorStr : String)
  /-- Thrown as `std::invalid_argument`, "strip:i section have not same reflectances and ISCC-NBS number count". -/
  | countMismatch (strip : Nat)
  /-- Thrown as `std::invalid_argument`, "The ColorSwatchPatch with reflectance [r] will not have any MunsellColor". -/
  | missingLabel (reflectance : Reflectance)
  /-- Thrown as `std::length_error`, "Image file and mask image have not the same size". -/
  | sizeMismatch
  /-- Thrown as `std::invalid_argument`, "Mask loaded but not applied as image file not loaded". -/
  | inconsistentState
  /-- Thrown as `std::invalid_argument`, "Mask image cannot be loaded". -/
  | maskDecodeError
  /-- Thrown as `std::domain_error`, "Cannot fill patches without a valid loaded mask". -/
  | preconditionViolation
  /-- A pixel read outside the image (no exception is raised by the code). -/
  | pixelOutOfRange (col row : Nat)
  deriving DecidableEq, Repr

deriving instance DecidableEq for Except

/-! ## Images -/

/-- A `QImage`: its dimensions and its pixels, addressed as `data col row`.
The null image has width and height 0. -/
structure QImage where
  width : Nat
  height : Nat
  data : Nat → Nat → QRgb

namespace QImage

/-- The null image (`QImage()`), also the image of a mask that was never loaded. -/
def null : QImage := ⟨0, 0, fun _ _ => 0⟩

/-- `QImage::valid(col, row)`. -/
def valid (img : QImage) (col row : Nat) : Bool :=
  decide (col < img.width) && decide (row < img.height)

/-- `QImage::pixel(col, row)`; `none` when the coordinate is outside the image. -/
def pixel (img : QImage) (col row : Nat) : Option QRgb :=
  if img.valid col row then some (img.data col row) else none

/-- `QImage::setPixel(col, row, v)`; a coordinate outside the image is ignored. -/
def setPixel (img : QImage) (col row : Nat) (v : QRgb) : QImage :=
  if img.valid col row then
    { img with data := fun x y => if x = col ∧ y = row then v else img.data x y }
  else img

/-- `QImage(w, h, QImage::Format_RGB32)`: a fresh image (its content is not
initialised by Qt; every pixel is written before it is read). -/
def create (w h : Nat) : QImage := ⟨w, h, fun _ _ => 0⟩

end QImage

/-! ## Patches and the mask -/

/-- A `ColorSwatchPatch`: the reflectance given to its constructor and the
`MunsellColor` set by `setMunsellColor` (built from an ISCC-NBS label). -/
structure ColorSwatchPatch where
  reflectance : Reflectance
  munsellColor : Option String
  deriving DecidableEq, Repr

/-- Modelled from the spec: the class `ColorSwatchMask` (its header is not among
the sources). It holds the path of the mask file, an optional background
colour and the decoded image, which is null until `loadImage` succeeds. -/
structure ColorSwatchMask where
  filePath : String
  backgroundColor : Option QColor
  image : QImage

namespace ColorSwatchMask

/-- The constructor `ColorSwatchMask(maskFile)` used by `loadSettings`. -/
def new (maskFile : String) : ColorSwatchMask := ⟨maskFile, none, QImage.null⟩

/-- `haveBackgroundColor()`. -/
def haveBackgroundColor (m : ColorSwatchMask) : Bool := m.backgroundColor.isSome

/-- `setBackgroundColor(c)`. -/
def setBackgroundColor (m : ColorSwatchMask) (c : QColor) : ColorSwatchMask :=
  { m with backgroundColor := some c }

/-- `getImage()`. -/
def getImage (m : ColorSwatchMask) : QImage := m.image

/-- `getBackgroundColor()`; it is only called once a colour is set. -/
def getBackgroundColor (m : ColorSwatchMask) : QColor := m.backgroundColor.getD ⟨0⟩

end ColorSwatchMask

/-- The `ImagePlugin` collaborator as `ColorSwatch` sees it: what `size()` and
`toQImage()` currently return. -/
structure ImagePlugin where
  sizeWidth : Int
  sizeHeight : Int
  image : QImage

/-- The state of a `ColorSwatch` object (`ColorSwatch::Private`). -/
structure ColorSwatch where
  mRawFile : String
  mImgFile : String
  mMask : Option ColorSwatchMask
  mPatchesList : List ColorSwatchPatch
  mImgPlg : ImagePlugin

/-- `ColorSwatch::haveMask()`. -/
def ColorSwatch.haveMask (d : ColorSwatch) : Bool := d.mMask.isSome

/-! ## Settings file and collaborators -/

/-- The keys that `loadSettings` reads inside one group of the settings file;
`none` means that the key is absent. `reflectances` is the result of
`value("reflectances").toList()` with every entry converted by `toDouble`,
`ISCCNBS` the result of `value("ISCCNBS").toStringList()`. -/
structure Group where
  rawfile : Option String
  file : Option String
  backgroundcolor : Option String
  reflectances : Option (List Reflectance)
  ISCCNBS : Option (List String)
  deriving DecidableEq, Repr

/-- A group without any key, which is what reading a missing group gives. -/
def Group.empty : Group := ⟨none, none, none, none, none⟩

/-- The content of the settings file as `QSettings` presents it: the top-level
groups in the order of `childGroups()`, each name listed once. -/
structure QSettings where
  groups : List (String × Group)

namespace QSettings

/-- `settings.childGroups()` at top level. -/
def childGroups (s : QSettings) : List String := s.groups.map Prod.fst

/-- The keys seen after `settings.beginGroup(name)`. -/
def group (s : QSettings) (name : String) : Group :=
  (s.groups.lookup name).getD Group.empty

end QSettings

/-- Whether `pat` occurs in `s` as a contiguous run of characters. -/
def containsChars (pat : List Char) : List Char → Bool
  | [] => pat.isEmpty
  | c :: cs => pat.isPrefixOf (c :: cs) || containsChars pat cs

/-- `QStringList::filter(pat)`: the strings that contain `pat`. -/
def filterContaining (names : List String) (pat : String) : List String :=
  names.filter (fun n => containsChars pat.data n.data)

/-- `QString("strip:%1").arg(i)`. -/
def stripName (i : Nat) : String := "strip:" ++ toString i

/-- The collaborators of `ColorSwatch` outside the repository sources. -/
structure World where
  /-- `QFile::exists(path)`. -/
  fileExists : String → Bool
  /-- `QDir::isRelativePath(path)`. -/
  isRelativePath : String → Bool
  /-- `QDir(dir).absoluteFilePath(path)`. -/
  absoluteFilePath : String → String → String
  /-- `QDir(iniFile)` after `cdUp()`. -/
  cdUp : String → String
  /-- `QColor(str)`, `none` when `isValid()` is false. -/
  parseColor : String → Option QColor
  /-- `QColor(rgb)`, the colour built from a pixel value. -/
  colorOfRgb : QRgb → QColor
  /-- `ImagePlugin::loadImage(path)`: its return value and the plugin afterwards. -/
  loadImage : String → ImagePlugin → Bool × ImagePlugin
  /-- The image that `ColorSwatchMask::loadImage()` decodes from a path, `none` on failure. -/
  decodeMask : String → Option QImage
  /-- `ColorSwatchMask::applyMask(&img)` on the image of the plugin: the plugin afterwards. -/
  applyMask : ColorSwatchMask → ImagePlugin → ImagePlugin

/-- The expression `QDir::isRelativePath(p) ? iniFilePath.absoluteFilePath(p) : p`. -/
def resolvePath (w : World) (iniFilePath p : String) : String :=
  if w.isRelativePath p then w.absoluteFilePath iniFilePath p else p

/-! ## loadSettings -/

/-- The inner loop of `loadSettings` (lines 138-149): one patch is appended per
reflectance, then given the label at index `j`; when no label is left the
exception is raised with the patch already appended. Returns the patch list
and the exception, if any. -/
def appendPatches (isccnbsList : List String) :
    List Reflectance → Nat → List ColorSwatchPatch →
      List ColorSwatchPatch × Option Error
  | [], _, patches => (patches, none)
  | db :: rest, j, patches =>
    if h : j < isccnbsList.length then
      appendPatches isccnbsList rest (j + 1)
        (patches ++ [⟨db, some (isccnbsList.get ⟨j, h⟩)⟩])
    else
      (patches ++ [⟨db, none⟩], some (Error.missingLabel db))

/-- The variables that live across the iterations of the strip loop. -/
structure StripVars where
  reflectanceList : List Reflectance
  isccnbsList : List String
  patches : List ColorSwatchPatch

/-- One iteration of the strip loop (lines 123-149) for index `i`. -/
def loadStrip (settings : QSettings) (i : Nat) (v : StripVars) :
    StripVars × Option Error :=
  let g := settings.group (stripName i)
  let reflectanceList := g.reflectances.getD []
  match g.ISCCNBS with
  | some labels =>
    if reflectanceList.length ≠ labels.length then
      (⟨reflectanceList, labels, v.patches⟩, some (Error.countMismatch i))
    else
      let r := appendPatches labels reflectanceList 0 v.patches
      (⟨reflectanceList, labels, r.1⟩, r.2)
  | none =>
    let r := appendPatches v.isccnbsList reflectanceList 0 v.patches
    (⟨reflectanceList, v.isccnbsList, r.1⟩, r.2)

/-- The strip loop `for (i = 1; i <= count; i++)`, as `n` iterations from `i`. -/
def stripLoop (settings : QSettings) : Nat → Nat → StripVars → StripVars × Option Error
  | 0, _, v => (v, none)
  | n + 1, i, v =>
    match loadStrip settings i v with
    | (v1, some e) => (v1, some e)
    | (v1, none) => stripLoop settings n (i + 1) v1

/-- The loop bound `settings.childGroups().filter("strip").size()`. -/
def stripCount (settings : QSettings) : Nat :=
  (filterContaining settings.childGroups "strip").length

/-- `ColorSwatch::loadSettings(iniFile)`, where `settings` is the content of
`iniFile`. Returns the object state on exit and the returned value or the
exception raised. -/
def loadSettings (w : World) (settings : QSettings) (iniFile : String)
    (d : ColorSwatch) : ColorSwatch × Except Error Bool :=
  let iniFilePath := w.cdUp iniFile
  let cs := settings.group "colorswatch"
  let colorswatchRawfile := cs.rawfile.getD ""
  let d1 : ColorSwatch :=
    { d with mRawFile := resolvePath w iniFilePath colorswatchRawfile, mImgFile := "" }
  if !w.fileExists d1.mRawFile then
    (d1, .error (Error.missingFile d1.mRawFile))
  else
    let result := true
    let d2 : ColorSwatch :=
      match cs.file with
      | some colorswatchFile => { d1 with mImgFile := resolvePath w iniFilePath colorswatchFile }
      | none => d1
    if cs.file.isSome && !w.fileExists d2.mImgFile then
      (d2, .error (Error.missingFile d2.mImgFile))
    else
      let d3 : ColorSwatch := { d2 with mMask := none }
      let maskStep : ColorSwatch × Option Error :=
        if settings.childGroups.contains "mask" then
          let mg := settings.group "mask"
          let maskFile := resolvePath w iniFilePath (mg.file.getD "")
          if !w.fileExists maskFile then
            (d3, some (Error.missingFile maskFile))
          else
            let m := ColorSwatchMask.new maskFile
            match mg.backgroundcolor with
            | some colorStr =>
              match w.parseColor colorStr with
              | none => ({ d3 with mMask := some m }, some (Error.invalidColor colorStr))
              | some bgColor => ({ d3 with mMask := some (m.setBackgroundColor bgColor) }, none)
            | none => ({ d3 with mMask := some m }, none)
        else (d3, none)
      match maskStep with
      | (d4, some e) => (d4, .error e)
      | (d4, none) =>
        let r := stripLoop settings (stripCount settings) 1 ⟨[], [], []⟩
        let d5 : ColorSwatch := { d4 with mPatchesList := r.1.patches }
        match r.2 with
        | some e => (d5, .error e)
        | none => (d5, .ok result)

/-! ## loadImages -/

/-- Modelled from the spec: `ColorSwatchMask::loadImage()` decodes the file at
the path of the mask; the image is kept on success and null on failure, the
path and the background colour are left as they are. -/
def ColorSwatchMask.loadImage (w : World) (m : ColorSwatchMask) : Bool × ColorSwatchMask :=
  match w.decodeMask m.filePath with
  | some img => (true, { m with image := img })
  | none => (false, { m with image := QImage.null })

/-- The first step of `loadImages` (lines 159-163): the value of `result` and
the plugin after `loadImage` was called, or not called when no raw path is set. -/
def rawLoad (w : World) (d : ColorSwatch) : Bool × ImagePlugin :=
  if d.mRawFile ≠ "" then w.loadImage d.mRawFile d.mImgPlg else (false, d.mImgPlg)

/-- `ColorSwatch::loadImages()`. Returns the object state on exit and the
returned value or the exception raised. -/
def loadImages (w : World) (d : ColorSwatch) : ColorSwatch × Except Error Bool :=
  let loaded : Bool × ImagePlugin := rawLoad w d
  let result := loaded.1
  let d1 : ColorSwatch := { d with mImgPlg := loaded.2 }
  match d1.mMask with
  | none => (d1, .ok result)
  | some m =>
    let lm := m.loadImage w
    let d2 : ColorSwatch := { d1 with mMask := some lm.2 }
    if lm.1 then
      if d2.mImgPlg.sizeHeight ≠ (lm.2.getImage.height : Int)
          ∨ d2.mImgPlg.sizeWidth ≠ (lm.2.getImage.width : Int) then
        (d2, .error Error.sizeMismatch)
      else if result then
        let d3 : ColorSwatch := { d2 with mImgPlg := w.applyMask lm.2 d2.mImgPlg }
        let d4 : ColorSwatch := if !result then { d3 with mMask := none } else d3
        (d4, .ok result)
      else
        (d2, .error Error.inconsistentState)
    else
      (d2, .error Error.maskDecodeError)

/-! ## fillPatchesPixelsFromMask: background detection -/

/-- A `QMap<QRgb, int>`: its entries, a pixel value and its count, in ascending
order of the pixel values. -/
abbrev QMap := List (Nat × Nat)

namespace QMap

/-- The statement `clrMap[k]++`: a missing key is inserted with 0, then counted. -/
def incr (k : Nat) : QMap → QMap
  | [] => [(k, 1)]
  | (k1, n) :: rest =>
    if k < k1 then (k, 1) :: (k1, n) :: rest
    else if k = k1 then (k1, n + 1) :: rest
    else (k1, n) :: incr k rest

/-- `clrMap.keys()`, in ascending order. -/
def keys (m : QMap) : List Nat := m.map Prod.fst

/-- `clrMap.value(k)`: 0 for a missing key. -/
def value (m : QMap) (k : Nat) : Nat := (m.lookup k).getD 0

/-- `clrMap.key(v)`: the first key with value `v`, 0 when there is none. -/
def key (m : QMap) (v : Nat) : Nat :=
  match m.find? (fun e => e.2 == v) with
  | some e => e.1
  | none => 0

end QMap

/-- The histogram loops (lines 259-263). -/
def colorHistogram (img : QImage) : QMap :=
  (List.range img.height).foldl
    (fun clrMap row =>
      (List.range img.width).foldl
        (fun clrMap col =>
          if img.valid col row then QMap.incr (img.data col row) clrMap else clrMap)
        clrMap)
    []

/-- The loop computing `maxRgbCount` (lines 265-267). -/
def maxRgbCount (clrMap : QMap) : Nat :=
  clrMap.keys.foldl
    (fun acc rgba => if acc < clrMap.value rgba then clrMap.value rgba else acc) 0

/-- The detected background value `maxRgba` (lines 259-269). -/
def detectBackground (img : QImage) : QRgb :=
  let clrMap := colorHistogram img
  clrMap.key (maxRgbCount clrMap)

/-! ## fillPatchesPixelsFromMask: segmentation -/

/-- The loop `while (mask.pixel(col, maxRow) != bgRgb) maxRow++` (line 290).
It stops with an error at the first read outside the image; `fuel` bounds the
number of reads and `mask.height + 1` is always enough. -/
def growMaxRow (mask : QImage) (bgRgb : QRgb) (col : Nat) : Nat → Nat → Except Error Nat
  | 0, maxRow => .error (Error.pixelOutOfRange col maxRow)
  | fuel + 1, maxRow =>
    match mask.pixel col maxRow with
    | none => .error (Error.pixelOutOfRange col maxRow)
    | some p => if p ≠ bgRgb then growMaxRow mask bgRgb col fuel (maxRow + 1) else .ok maxRow

/-- The loop `while (mask.pixel(maxCol, row) != bgRgb) maxCol++` (line 291). -/
def growMaxCol (mask : QImage) (bgRgb : QRgb) (row : Nat) : Nat → Nat → Except Error Nat
  | 0, maxCol => .error (Error.pixelOutOfRange maxCol row)
  | fuel + 1, maxCol =>
    match mask.pixel maxCol row with
    | none => .error (Error.pixelOutOfRange maxCol row)
    | some p => if p ≠ bgRgb then growMaxCol mask bgRgb row fuel (maxCol + 1) else .ok maxCol

/-- The body of the copy loops (lines 297-299) at offsets `c`, `r`: acts on the
pair of the patch and the working mask. -/
def copyPixel (bgRgb : QRgb) (col row r c : Nat) (pm : QImage × QImage) :
    Except Error (QImage × QImage) :=
  match pm.2.pixel (col + c) (row + r) with
  | none => .error (Error.pixelOutOfRange (col + c) (row + r))
  | some val => .ok (pm.1.setPixel c r val, pm.2.setPixel (col + c) (row + r) bgRgb)

/-- The inner copy loop (line 295), for `localCol` from `col` up to `maxCol`. -/
def copyRow (bgRgb : QRgb) (col row maxCol r : Nat) (pm : QImage × QImage) :
    Except Error (QImage × QImage) :=
  (List.range (maxCol - col)).foldlM (fun acc c => copyPixel bgRgb col row r c acc) pm

/-- The outer copy loop (line 293), for `localRow` from `row` up to `maxRow`. -/
def copyRegion (bgRgb : QRgb) (col row maxCol maxRow : Nat) (pm : QImage × QImage) :
    Except Error (QImage × QImage) :=
  (List.range (maxRow - row)).foldlM (fun acc r => copyRow bgRgb col row maxCol r acc) pm

/-- The local variables of the segmentation loops: the working copy of the
mask, the vector `patches`, the counter `i`, and the files written by
`patch.save` as pairs of a name and an image. -/
structure SegState where
  mask : QImage
  patches : List QImage
  i : Nat
  saved : List (String × QImage)

/-- The name `QString("patch_%1.png").arg(i)`. -/
def patchFileName (i : Nat) : String := "patch_" ++ toString i ++ ".png"

/-- The extraction of one patch at the scan start `(col, row)` (lines 288-304). -/
def extractPatch (bgRgb : QRgb) (col row : Nat) (st : SegState) : Except Error SegState := do
  let maxRow ← growMaxRow st.mask bgRgb col (st.mask.height + 1) row
  let maxCol ← growMaxCol st.mask bgRgb row (st.mask.width + 1) col
  let pm ← copyRegion bgRgb col row maxCol maxRow
    (QImage.create (maxCol - col) (maxRow - row), st.mask)
  pure ⟨pm.2, st.patches ++ [pm.1], (st.i + 1) % 4294967296,
    st.saved ++ [(patchFileName st.i, pm.1)]⟩

/-- The body of the scan loops (lines 282-308) at `(col, row)`. -/
def visit (bgRgb : QRgb) (row col : Nat) (st : SegState) : Except Error SegState :=
  if st.mask.valid col row then
    if st.mask.data col row ≠ bgRgb then extractPatch bgRgb col row st else .ok st
  else .ok st

/-- The scan of one row (line 280). -/
def scanRow (bgRgb : QRgb) (width row : Nat) (st : SegState) : Except Error SegState :=
  (List.range width).foldlM (fun acc col => visit bgRgb row col acc) st

/-- The local variables before the scan (lines 275-277): the copy of the mask
image, no patch, counter 0. -/
def SegState.start (mask : QImage) : SegState := ⟨mask, [], 0, []⟩

/-- The scan of the mask (lines 278-310), row by row from the top. -/
def segment (bgRgb : QRgb) (mask : QImage) : Except Error SegState :=
  (List.range mask.height).foldlM (fun acc row => scanRow bgRgb mask.width row acc)
    (SegState.start mask)

/-- `ColorSwatch::fillPatchesPixelsFromMask()`. Returns the object state on
exit and either the exception, or the returned value together with the final
values of the local variables. -/
def fillPatchesPixelsFromMask (w : World) (d : ColorSwatch) :
    ColorSwatch × Except Error (Bool × SegState) :=
  let result := false
  match d.mMask with
  | none => (d, .error Error.preconditionViolation)
  | some m =>
    let m1 : ColorSwatchMask :=
      if !m.haveBackgroundColor then
        m.setBackgroundColor (w.colorOfRgb (detectBackground m.getImage))
      else m
    let d1 : ColorSwatch := { d with mMask := some m1 }
    let bgRgb := m1.getBackgroundColor.rgb
    match segment bgRgb m1.getImage with
    | .error e => (d1, .error e)
    | .ok st => (d1, .ok (result, st))

/-! ## Reference notions used in the statements -/

/-- The reflectance list that the strip loop reads for index `i`. -/
def stripReflectances (settings : QSettings) (i : Nat) : List Reflectance :=
  (settings.group (stripName i)).reflectances.getD []

/-- The label list of strip `i`, `none` when the strip has no `ISCCNBS` key. -/
def stripLabels (settings : QSettings) (i : Nat) : Option (List String) :=
  (settings.group (stripName i)).ISCCNBS

/-- Strip `i` declares exactly one label per reflectance, or neither labels nor
reflectances. -/
def stripLabelled (settings : QSettings) (i : Nat) : Bool :=
  match stripLabels settings i with
  | some labels => decide ((stripReflectances settings i).length = labels.length)
  | none => (stripReflectances settings i).isEmpty

/-- Strip `i` declares both lists and their lengths differ. -/
def stripMismatched (settings : QSettings) (i : Nat) : Bool :=
  match stripLabels settings i with
  | some labels => decide ((stripReflectances settings i).length ≠ labels.length)
  | none => false

/-- The patches expected from strip `i`: its reflectances in list order, each
with the label of the same index. -/
def stripPatches (settings : QSettings) (i : Nat) : List ColorSwatchPatch :=
  List.zipWith (fun db label => ⟨db, some label⟩) (stripReflectances settings i)
    ((stripLabels settings i).getD [])

/-- The patches expected from the strips `1..n`, in strip order. -/
def patchesOfStrips (settings : QSettings) (n : Nat) : List ColorSwatchPatch :=
  (List.range' 1 n).flatMap (stripPatches settings)

/-- Every path named by the settings exists and the background colour of the
mask section, when given, is a valid colour. -/
def pathsAndColorValid (w : World) (settings : QSettings) (iniFile : String) : Bool :=
  let iniFilePath := w.cdUp iniFile
  let cs := settings.group "colorswatch"
  w.fileExists (resolvePath w iniFilePath (cs.rawfile.getD "")) &&
  (match cs.file with
    | some f => w.fileExists (resolvePath w iniFilePath f)
    | none => true) &&
  (if settings.childGroups.contains "mask" then
    w.fileExists (resolvePath w iniFilePath ((settings.group "mask").file.getD "")) &&
    (match (settings.group "mask").backgroundcolor with
      | some c => (w.parseColor c).isSome
      | none => true)
  else true)

/-! ## Concrete inputs used by the examples -/

/-- A world in which every file but `missing.raw` exists, all paths are
absolute, `black` and `white` are the valid colour names, the raw file
`swatch.raw` loads as a 6 x 4 image and no mask file decodes. -/
def demoWorld : World where
  fileExists := fun p => p != "missing.raw"
  isRelativePath := fun _ => false
  absoluteFilePath := fun dir p => dir ++ "/" ++ p
  cdUp := fun _ => "/data"
  parseColor := fun s =>
    if s = "black" then some ⟨0⟩ else if s = "white" then some ⟨16777215⟩ else none
  colorOfRgb := fun rgb => ⟨rgb⟩
  loadImage := fun path plg =>
    if path = "swatch.raw" then (true, ⟨6, 4, ⟨6, 4, fun _ _ => 7⟩⟩) else (false, plg)
  decodeMask := fun _ => none
  applyMask := fun _ plg => plg

/-- A freshly constructed `ColorSwatch`. -/
def emptySwatch : ColorSwatch := ⟨"", "", none, [], ⟨0, 0, QImage.null⟩⟩

/-- A `ColorSwatch` that already holds paths, a mask and a patch. -/
def usedSwatch : ColorSwatch :=
  ⟨"old.raw", "old.png", some ⟨"old_mask.png", some ⟨0⟩, QImage.null⟩,
    [⟨1, some "vivid red"⟩], ⟨0, 0, QImage.null⟩⟩

/-- The `colorswatch` group naming the raw file `swatch.raw`. -/
def rawGroup : String × Group := ("colorswatch", ⟨some "swatch.raw", none, none, none, none⟩)

/-- One strip with a single reflectance and no `ISCCNBS` key. -/
def cfgUnlabelled : QSettings :=
  ⟨[rawGroup, ("strip:1", ⟨none, none, none, some [5], none⟩)]⟩

/-- Two strips, each with as many labels as reflectances. -/
def cfgLabelled : QSettings :=
  ⟨[rawGroup,
    ("strip:1", ⟨none, none, none, some [5, 6], some ["white", "light gray"]⟩),
    ("strip:2", ⟨none, none, none, some [7], some ["black"]⟩)]⟩

/-- A first strip without labels, then a strip with two reflectances and one label. -/
def cfgLateMismatch : QSettings :=
  ⟨[rawGroup,
    ("strip:1", ⟨none, none, none, some [5], none⟩),
    ("strip:2", ⟨none, none, none, some [1, 2], some ["white"]⟩)]⟩

/-- A labelled first strip, then a strip with two reflectances and one label. -/
def cfgMismatch : QSettings :=
  ⟨[rawGroup,
    ("strip:1", ⟨none, none, none, some [5, 6], some ["white", "light gray"]⟩),
    ("strip:2", ⟨none, none, none, some [1, 2], some ["black"]⟩)]⟩

/-- A configuration whose raw file does not exist. -/
def cfgMissingRaw : QSettings :=
  ⟨[("colorswatch", ⟨some "missing.raw", none, none, none, none⟩),
    ("strip:1", ⟨none, none, none, some [5], some ["white"]⟩)]⟩

/-- A mask of 5 x 2 pixels on background 0: two rectangles of one row that touch,
columns 0-1 with value 1 and columns 2-3 with value 2. -/
def maskTouching : QImage :=
  ⟨5, 2, fun x y => if y = 0 ∧ x < 2 then 1 else if y = 0 ∧ x < 4 then 2 else 0⟩

/-- A mask of 6 x 4 pixels on background 0: a rectangle of value 2 at columns 3-4
of row 0 and a rectangle of value 1 at columns 0-1 of rows 1-2. -/
def maskTwoRects : QImage :=
  ⟨6, 4, fun x y =>
    if 1 ≤ y ∧ y < 3 ∧ x < 2 then 1 else if y = 0 ∧ 3 ≤ x ∧ x < 5 then 2 else 0⟩

/-- The world `demoWorld` in which `mask.png` decodes to `maskTouching` and
`mask64.png` to `maskTwoRects`. -/
def maskWorld : World :=
  { demoWorld with
    decodeMask := fun path =>
      if path = "mask.png" then some maskTouching
      else if path = "mask64.png" then some maskTwoRects
      else none }

/-- A `ColorSwatch` as `loadSettings` leaves it: a raw path and a mask that is
not loaded yet and has no background colour. -/
def swatchWithMask (rawFile maskFile : String) : ColorSwatch :=
  ⟨rawFile, "", some (ColorSwatchMask.new maskFile), [], ⟨0, 0, QImage.null⟩⟩

/-- A `ColorSwatch` without raw path whose plugin reports a 6 x 4 image, with the
mask `mask64.png` not loaded yet. -/
def swatchNoRaw : ColorSwatch :=
  ⟨"", "", some (ColorSwatchMask.new "mask64.png"), [], ⟨6, 4, QImage.null⟩⟩

/-- A `ColorSwatch` whose mask is loaded (`maskTwoRects`) with background colour 0. -/
def swatchLoadedMask : ColorSwatch :=
  ⟨"swatch.raw", "", some ⟨"mask64.png", some ⟨0⟩, maskTwoRects⟩, [], ⟨6, 4, QImage.null⟩⟩

/-- An axis-aligned rectangle of pixels: its top-left corner and its size. -/
structure Rect where
  col : Nat
  row : Nat
  width : Nat
  height : Nat
  deriving DecidableEq, Repr

/-- The pixel `(x, y)` lies in the rectangle. -/
def Rect.contains (R : Rect) (x y : Nat) : Prop :=
  (R.col ≤ x ∧ x < R.col + R.width) ∧ (R.row ≤ y ∧ y < R.row + R.height)

instance (R : Rect) (x y : Nat) : Decidable (R.contains x y) := by
  unfold Rect.contains; infer_instance

/-- The coordinates `(col, row)` in the order in which the scan loops visit them. -/
def scanOrder (w h : Nat) : List (Nat × Nat) :=
  (List.range h).flatMap (fun row => (List.range w).map (fun col => (col, row)))

/-- The coordinate `p` is visited before `q` by a row-major scan. -/
def scansBefore (p q : Nat × Nat) : Prop :=
  p.2 < q.2 ∨ (p.2 = q.2 ∧ p.1 < q.1)

instance (p q : Nat × Nat) : Decidable (scansBefore p q) := by
  unfold scansBefore; infer_instance

/-- The two touching rectangles of `maskTouching`. -/
def rectLeft : Rect := ⟨0, 0, 2, 1⟩

/-- The right one of the two touching rectangles of `maskTouching`. -/
def rectRight : Rect := ⟨2, 0, 2, 1⟩

/-- The rectangle of `maskTwoRects` that the scan meets first. -/
def rectTop : Rect := ⟨3, 0, 2, 1⟩

/-- The rectangle of `maskTwoRects` that the scan meets second. -/
def rectLow : Rect := ⟨0, 1, 2, 2⟩

/-- A `ColorSwatch` whose mask is loaded (`maskTouching`) with background colour 0. -/
def swatchTouching : ColorSwatch :=
  ⟨"swatch.raw", "", some ⟨"mask.png", some ⟨0⟩, maskTouching⟩, [], ⟨5, 2, QImage.null⟩⟩

/-- The two rectangles have no pixel in common. -/
def Rect.disjoint (A B : Rect) : Prop :=
  A.col + A.width ≤ B.col ∨ B.col + B.width ≤ A.col ∨
    A.row + A.height ≤ B.row ∨ B.row + B.height ≤ A.row

instance (A B : Rect) : Decidable (A.disjoint B) := by
  unfold Rect.disjoint; infer_instance

/-- The pixels of an image, row by row. -/
def pixelList (img : QImage) : List Nat :=
  (List.range img.height).flatMap (fun row => (List.range img.width).map (fun col => img.data col row))

/-- The number of pixels of the image that have the colour `c`. -/
def countColor (img : QImage) (c : Nat) : Nat := (pixelList img).count c

/-- A `ColorSwatch` whose mask is loaded (`maskTwoRects`) and has no background colour. -/
def swatchNoBackground : ColorSwatch :=
  ⟨"swatch.raw", "", some ⟨"mask64.png", none, maskTwoRects⟩, [], ⟨6, 4, QImage.null⟩⟩

/-- The strip loop run on the strips `1..n` only, from an empty patch list. -/
def firstStrips (settings : QSettings) (n : Nat) : StripVars × Option Error :=
  stripLoop settings n 1 ⟨[], [], []⟩

/-- A valid configuration whose mask section names the colour `sky`, which is not a
colour name; its only strip is labelled. -/
def cfgBadColor : QSettings :=
  ⟨[rawGroup,
    ("mask", ⟨none, some "mask.png", some "sky", none, none⟩),
    ("strip:1", ⟨none, none, none, some [5], some ["white"]⟩)]⟩

/-- The mask object that `loadSettings` builds from the `mask` section (lines 88-115)
when the file of the section exists and its colour, if given, is valid. -/
def maskOfSettings (w : World) (settings : QSettings) (iniFile : String) :
    Option ColorSwatchMask :=
  if settings.childGroups.contains "mask" then
    let m := ColorSwatchMask.new
      (resolvePath w (w.cdUp iniFile) ((settings.group "mask").file.getD ""))
    match (settings.group "mask").backgroundcolor with
    | some colorStr =>
      match w.parseColor colorStr with
      | some bgColor => some (m.setBackgroundColor bgColor)
      | none => some m
    | none => some m
  else none

/-- The content of `isccnbsList` when the append loop of strip `i` starts: the labels of
the strip, or what the variable still holds when the strip has no `ISCCNBS` key. -/
def labelsAvailable (settings : QSettings) (i : Nat) (v : StripVars) : List String :=
  (stripLabels settings i).getD v.isccnbsList

/-- Every patch of the list carries a colour label. -/
def allLabelled (patches : List ColorSwatchPatch) : Prop :=
  ∀ p ∈ patches, p.munsellColor.isSome = true

instance (patches : List ColorSwatchPatch) : Decidable (allLabelled patches) := by
  unfold allLabelled; infer_instance

/-- Sections `strip:1`, `strip:3` and `strip:4`: there is no section `strip:2`. -/
def cfgGap : QSettings :=
  ⟨[rawGroup,
    ("strip:1", ⟨none, none, none, some [5], some ["white"]⟩),
    ("strip:3", ⟨none, none, none, some [7], some ["black"]⟩),
    ("strip:4", ⟨none, none, none, some [8], some ["light gray"]⟩)]⟩

/-- A labelled first strip, then a strip with one reflectance and no `ISCCNBS` key. -/
def cfgLeak : QSettings :=
  ⟨[rawGroup,
    ("strip:1", ⟨none, none, none, some [5, 6], some ["white", "light gray"]⟩),
    ("strip:2", ⟨none, none, none, some [7], none⟩)]⟩

/-- A labelled first strip, then a strip with three reflectances and no `ISCCNBS` key. -/
def cfgRunOut : QSettings :=
  ⟨[rawGroup,
    ("strip:1", ⟨none, none, none, some [5, 6], some ["white", "light gray"]⟩),
    ("strip:2", ⟨none, none, none, some [7, 8, 9], none⟩)]⟩

/-- A section `strip:1` that holds a key `file` and neither `reflectances` nor `ISCCNBS`. -/
def cfgNoReflectances : QSettings :=
  ⟨[rawGroup, ("strip:1", ⟨none, some "notes.txt", none, none, none⟩)]⟩

/-- A configuration with an image file and a mask section with a background colour. -/
def cfgFull : QSettings :=
  ⟨[("colorswatch", ⟨some "swatch.raw", some "swatch.png", none, none, none⟩),
    ("mask", ⟨none, some "mask.png", some "black", none, none⟩),
    ("strip:1", ⟨none, none, none, some [5, 6], some ["white", "light gray"]⟩)]⟩

/-- The image path that `loadSettings` stores (lines 66 and 75-78): empty without a
`file` key. -/
def imageFileOfSettings (w : World) (settings : QSettings) (iniFile : String) : String :=
  match (settings.group "colorswatch").file with
  | some f => resolvePath w (w.cdUp iniFile) f
  | none => ""

/-- The raw path that `loadSettings` stores (line 70). -/
def rawFileOfSettings (w : World) (settings : QSettings) (iniFile : String) : String :=
  resolvePath w (w.cdUp iniFile) ((settings.group "colorswatch").rawfile.getD "")

/-- What the patch list looks like for an outcome of the strip loop: all patches
labelled without error and after count-mismatch, all labelled but the last one after
missing-label. The strip loop raises no other error. -/
def labelledFor (patches : List ColorSwatchPatch) : Option Error → Prop
  | none => allLabelled patches
  | some (Error.missingLabel db) =>
    ∃ init, patches = init ++ [⟨db, none⟩] ∧ allLabelled init
  | some (Error.countMismatch _) => allLabelled patches
  | some _ => False

/-- The value of `bgRgb` (line 274) for a mask: the `rgb()` of its colour, or of the
colour built from the detected value when it has none. -/
def backgroundUsed (w : World) (m : ColorSwatchMask) : QRgb :=
  match m.backgroundColor with
  | some c => c.rgb
  | none => (w.colorOfRgb (detectBackground m.image)).rgb

/-- A `ColorSwatch` as `loadSettings` leaves it, with raw file `swatch.raw` and the
mask `mask64.png`, which has the size of the raw image. -/
def swatchSameSize : ColorSwatch := swatchWithMask "swatch.raw" "mask64.png"

/-- The rectangle `[col, maxCol) x [row, maxRow)` that the growth loops (lines 288-291)
find at the scan start `(col, row)`, when both stop inside the image. -/
def grownRect (bgRgb : QRgb) (col row : Nat) (mask : QImage) : Option Rect :=
  match growMaxRow mask bgRgb col (mask.height + 1) row,
    growMaxCol mask bgRgb row (mask.width + 1) col with
  | .ok maxRow, .ok maxCol => some ⟨col, row, maxCol - col, maxRow - row⟩
  | _, _ => none

/-- The body of the scan loops together with a record of the rectangles: when the body
extracts a patch at `p`, the rectangle grown there is added to the record. -/
def visitTraced (bgRgb : QRgb) (acc : SegState × List Rect) (p : Nat × Nat) :
    Except Error (SegState × List Rect) :=
  match visit bgRgb p.2 p.1 acc.1 with
  | .error e => .error e
  | .ok st1 =>
    if acc.1.mask.valid p.1 p.2 = true ∧ acc.1.mask.data p.1 p.2 ≠ bgRgb then
      .ok (st1, acc.2 ++ (grownRect bgRgb p.1 p.2 acc.1.mask).toList)
    else .ok (st1, acc.2)

/-- The scan of the mask together with the rectangles it extracted, in the order of
extraction. -/
def segmentTraced (bgRgb : QRgb) (mask : QImage) : Except Error (SegState × List Rect) :=
  (scanOrder mask.width mask.height).foldlM (visitTraced bgRgb) (SegState.start mask, [])

/-- The patch has the size of the rectangle and the pixels that the image has there. -/
def patchOfRect (input : QImage) (patch : QImage) (R : Rect) : Prop :=
  patch.width = R.width ∧ patch.height = R.height ∧
    ∀ c r, c < R.width → r < R.height → patch.data c r = input.data (R.col + c) (R.row + r)

/-- The two rectangles have no pixel in common. -/
def Rect.apart (A B : Rect) : Prop := ∀ x y, ¬ (A.contains x y ∧ B.contains x y)

/-- What holds during a scan of the image `input` once the coordinates `visited` have
been passed, for the local variables `st` and the rectangles `rects` extracted so
far. -/
structure ScanInv (input : QImage) (bgRgb : QRgb) (visited : List (Nat × Nat))
    (st : SegState) (rects : List Rect) : Prop where
  width_eq : st.mask.width = input.width
  height_eq : st.mask.height = input.height
  painted : ∀ R ∈ rects, ∀ x y, R.contains x y → st.mask.data x y = bgRgb
  untouched : ∀ x y, (∀ R ∈ rects, ¬ R.contains x y) → st.mask.data x y = input.data x y
  apart : rects.Pairwise Rect.apart
  inside : ∀ R ∈ rects, (0 < R.width ∧ 0 < R.height) ∧
    (R.col + R.width < input.width ∧ R.row + R.height < input.height) ∧
    (R.col, R.row) ∈ visited
  visited_bg : ∀ q ∈ visited, st.mask.data q.1 q.2 = bgRgb
  patches_eq : List.Forall₂ (patchOfRect input) st.patches rects

/-- A mask of 3 x 3 pixels on background 0 with one pixel of value 1 in its last row. -/
def maskBottomEdge : QImage := ⟨3, 3, fun x y => if x = 1 ∧ y = 2 then 1 else 0⟩

/-- A `ColorSwatch` whose mask is loaded (`maskBottomEdge`) with background colour 0. -/
def swatchBottomEdge : ColorSwatch :=
  ⟨"swatch.raw", "", some ⟨"edge.png", some ⟨0⟩, maskBottomEdge⟩, [], ⟨3, 3, QImage.null⟩⟩

theorem appendPatches_enough (labels : List String) :
    ∀ (rs : List Reflectance) (j : Nat) (ps : List ColorSwatchPatch),
      j + rs.length ≤ labels.length →
      appendPatches labels rs j ps
        = (ps ++ List.zipWith (fun db label => ⟨db, some label⟩) rs (labels.drop j), none) := by
  intro rs
  induction rs with
  | nil => intro j ps _; simp [appendPatches]
  | cons db rest ih =>
    intro j ps h
    have hj : j < labels.length := by simp at h; omega
    rw [appendPatches, dif_pos hj, ih (j + 1) _ (by simp at h ⊢; omega)]
    rw [List.drop_eq_getElem_cons hj]
    simp [-List.getElem_cons_drop]

theorem loadStrip_labelled (settings : QSettings) (i : Nat) (v : StripVars)
    (h : stripLabelled settings i = true) :
    (loadStrip settings i v).2 = none ∧
      (loadStrip settings i v).1.patches = v.patches ++ stripPatches settings i := by
  unfold stripLabelled stripLabels stripReflectances at h
  unfold loadStrip stripPatches stripLabels stripReflectances
  cases hl : (settings.group (stripName i)).ISCCNBS with
  | none =>
    rw [hl] at h
    simp at h
    simp [hl, h, appendPatches]
  | some labels =>
    rw [hl] at h
    simp at h
    have ha := appendPatches_enough labels ((settings.group (stripName i)).reflectances.getD [])
      0 v.patches (by omega)
    simp [hl, h, ha]

theorem loadStrip_mismatched (settings : QSettings) (i : Nat) (v : StripVars)
    (h : stripMismatched settings i = true) :
    (loadStrip settings i v).2 = some (Error.countMismatch i) ∧
      (loadStrip settings i v).1.patches = v.patches := by
  unfold stripMismatched stripLabels stripReflectances at h
  unfold loadStrip
  cases hl : (settings.group (stripName i)).ISCCNBS with
  | none => rw [hl] at h; simp at h
  | some labels =>
    rw [hl] at h
    simp at h
    simp [hl, h]

theorem stripLoop_labelled (settings : QSettings) :
    ∀ (n i : Nat) (v : StripVars),
      (∀ j, i ≤ j → j < i + n → stripLabelled settings j = true) →
      (stripLoop settings n i v).2 = none ∧
        (stripLoop settings n i v).1.patches
          = v.patches ++ (List.range' i n).flatMap (stripPatches settings) := by
  intro n
  induction n with
  | zero => intro i v _; simp [stripLoop]
  | succ n ih =>
    intro i v h
    have h1 := loadStrip_labelled settings i v (h i (le_refl _) (by omega))
    rw [stripLoop]
    rcases hs : loadStrip settings i v with ⟨v1, e⟩
    rw [hs] at h1
    simp only at h1
    obtain ⟨he, hp⟩ := h1
    subst he
    simp only
    have h2 := ih (i + 1) v1 (fun j hj1 hj2 => h j (by omega) (by omega))
    refine ⟨h2.1, ?_⟩
    rw [h2.2, hp, List.range'_succ]
    simp [List.flatMap]

/-- When the paths and the colour are valid, `loadSettings` ends as the strip
loop does, on the patch list that the loop leaves. -/
theorem loadSettings_of_valid (w : World) (settings : QSettings) (iniFile : String)
    (d : ColorSwatch) (hv : pathsAndColorValid w settings iniFile = true) :
    (loadSettings w settings iniFile d).1.mPatchesList
        = (stripLoop settings (stripCount settings) 1 ⟨[], [], []⟩).1.patches ∧
      (loadSettings w settings iniFile d).2
        = match (stripLoop settings (stripCount settings) 1 ⟨[], [], []⟩).2 with
          | some e => .error e
          | none => .ok true := by
  unfold pathsAndColorValid at hv
  simp only [Bool.and_eq_true] at hv
  obtain ⟨⟨hraw, himg⟩, hmask⟩ := hv
  unfold loadSettings
  simp only [hraw, Bool.not_true, Bool.false_eq_true, if_false]
  cases hf : (settings.group "colorswatch").file with
  | none =>
    simp only [Option.isSome_none, Bool.false_and, Bool.false_eq_true, if_false]
    by_cases hm : settings.childGroups.contains "mask" = true
    · simp only [hm, if_true] at hmask ⊢
      simp only [Bool.and_eq_true] at hmask
      simp only [hmask.1, Bool.not_true, Bool.false_eq_true, if_false]
      cases hb : (settings.group "mask").backgroundcolor with
      | none =>
        simp only []
        cases (stripLoop settings (stripCount settings) 1 ⟨[], [], []⟩).2 <;> simp
      | some c =>
        have hc := hmask.2
        rw [hb] at hc
        simp only [] at hc
        obtain ⟨col, hcol⟩ := Option.isSome_iff_exists.mp hc
        simp only [hcol]
        cases (stripLoop settings (stripCount settings) 1 ⟨[], [], []⟩).2 <;> simp
    · simp only [hm, if_false]
      cases (stripLoop settings (stripCount settings) 1 ⟨[], [], []⟩).2 <;> simp
  | some f =>
    rw [hf] at himg
    simp only [] at himg
    simp only [himg, Option.isSome_some, Bool.not_true, Bool.and_false, Bool.false_eq_true, if_false]
    by_cases hm : settings.childGroups.contains "mask" = true
    · simp only [hm, if_true] at hmask ⊢
      simp only [Bool.and_eq_true] at hmask
      simp only [hmask.1, Bool.not_true, Bool.false_eq_true, if_false]
      cases hb : (settings.group "mask").backgroundcolor with
      | none =>
        simp only []
        cases (stripLoop settings (stripCount settings) 1 ⟨[], [], []⟩).2 <;> simp
      | some c =>
        have hc := hmask.2
        rw [hb] at hc
        simp only [] at hc
        obtain ⟨col, hcol⟩ := Option.isSome_iff_exists.mp hc
        simp only [hcol]
        cases (stripLoop settings (stripCount settings) 1 ⟨[], [], []⟩).2 <;> simp
    · simp only [hm, if_false]
      cases (stripLoop settings (stripCount settings) 1 ⟨[], [], []⟩).2 <;> simp

theorem stripPatches_reflectances (settings : QSettings) (i : Nat)
    (h : stripLabelled settings i = true) :
    (stripPatches settings i).map (fun p => p.reflectance) = stripReflectances settings i := by
  unfold stripLabelled at h
  unfold stripPatches
  cases hl : stripLabels settings i with
  | none =>
    rw [hl] at h
    simp at h
    simp [h]
  | some labels =>
    rw [hl] at h
    simp at h
    simp only [Option.getD_some]
    rw [List.map_zipWith]
    have : ∀ (rs : List Reflectance) (ls : List String), rs.length = ls.length →
        List.zipWith (fun (db : Reflectance) (_ : String) => db) rs ls = rs := by
      intro rs
      induction rs with
      | nil => intro ls _; simp
      | cons a t ih =>
        intro ls hlen
        cases ls with
        | nil => simp at hlen
        | cons b u => simp at hlen; simp [ih u hlen]
    exact this _ _ h

theorem patchesOfStrips_reflectances (settings : QSettings) :
    ∀ (n i : Nat), (∀ j, i ≤ j → j < i + n → stripLabelled settings j = true) →
      ((List.range' i n).flatMap (stripPatches settings)).map (fun p => p.reflectance)
        = (List.range' i n).flatMap (stripReflectances settings) := by
  intro n
  induction n with
  | zero => intro i _; simp
  | succ n ih =>
    intro i h
    rw [List.range'_succ]
    simp only [List.flatMap_cons, List.map_append]
    rw [stripPatches_reflectances settings i (h i (le_refl _) (by omega)),
      ih (i + 1) (fun j h1 h2 => h j (by omega) (by omega))]

/-- C1 (counterexample): a configuration with valid paths and one strip that has one
reflectance and no labels is rejected by `loadSettings` with the missing-label
error, so strips without labels do not load. A configuration with valid paths and a
labelled strip is rejected as well when the background colour of its mask section is
not a colour. -/
theorem loadSettings_unlabelled_strip_fails :
    (pathsAndColorValid demoWorld cfgUnlabelled "/data/swatch.ini" = true ∧
      stripCount cfgUnlabelled = 1 ∧
      stripReflectances cfgUnlabelled 1 = [5] ∧
      stripLabels cfgUnlabelled 1 = none ∧
      (loadSettings demoWorld cfgUnlabelled "/data/swatch.ini" emptySwatch).2
        = .error (Error.missingLabel 5)) ∧
    (stripCount cfgBadColor = 1 ∧
      stripLabelled cfgBadColor 1 = true ∧
      demoWorld.fileExists "swatch.raw" = true ∧ demoWorld.fileExists "mask.png" = true ∧
      (loadSettings demoWorld cfgBadColor "/data/swatch.ini" emptySwatch).2
        = .error (Error.invalidColor "sky")) := by
  decide

/-- C1 (amended): when the paths and the background colour are valid and every strip
`strip:1 .. strip:N` has exactly one label per reflectance (or neither labels nor
reflectances), `loadSettings` returns true; the patch list holds the patches of the
strips in strip order, its length is the sum of the reflectance counts, and its
reflectances are those of the strips in strip order and list order. -/
theorem loadSettings_labelled_strips (w : World) (settings : QSettings) (iniFile : String)
    (d : ColorSwatch) (hv : pathsAndColorValid w settings iniFile = true)
    (hs : ∀ i, 1 ≤ i → i ≤ stripCount settings → stripLabelled settings i = true) :
    (loadSettings w settings iniFile d).2 = .ok true ∧
      (loadSettings w settings iniFile d).1.mPatchesList
        = patchesOfStrips settings (stripCount settings) ∧
      (loadSettings w settings iniFile d).1.mPatchesList.length
        = ((List.range' 1 (stripCount settings)).map
            (fun i => (stripReflectances settings i).length)).sum ∧
      (loadSettings w settings iniFile d).1.mPatchesList.map (fun p => p.reflectance)
        = (List.range' 1 (stripCount settings)).flatMap (stripReflectances settings) := by
  have hl := stripLoop_labelled settings (stripCount settings) 1 ⟨[], [], []⟩
    (fun j h1 h2 => hs j h1 (by omega))
  have hload := loadSettings_of_valid w settings iniFile d hv
  have hrefl := patchesOfStrips_reflectances settings (stripCount settings) 1
    (fun j h1 h2 => hs j h1 (by omega))
  have hlist : (loadSettings w settings iniFile d).1.mPatchesList
      = patchesOfStrips settings (stripCount settings) := by
    rw [hload.1, hl.2]; simp [patchesOfStrips]
  refine ⟨?_, hlist, ?_, ?_⟩
  · rw [hload.2, hl.1]
  · have := congrArg List.length hrefl
    rw [hlist]
    simp only [patchesOfStrips]
    rw [List.length_map] at this
    rw [this, List.length_flatMap]
    rfl
  · rw [hlist]; exact hrefl

/-- C1 (witness): the two labelled strips of `cfgLabelled` load into three patches. -/
theorem loadSettings_labelled_strips_witness :
    pathsAndColorValid demoWorld cfgLabelled "/data/swatch.ini" = true ∧
      (∀ i, 1 ≤ i → i ≤ stripCount cfgLabelled → stripLabelled cfgLabelled i = true) ∧
      (loadSettings demoWorld cfgLabelled "/data/swatch.ini" emptySwatch).2 = .ok true ∧
      (loadSettings demoWorld cfgLabelled "/data/swatch.ini" emptySwatch).1.mPatchesList
        = patchesOfStrips cfgLabelled (stripCount cfgLabelled) ∧
      (loadSettings demoWorld cfgLabelled "/data/swatch.ini" emptySwatch).1.mPatchesList.length
        = ((List.range' 1 (stripCount cfgLabelled)).map
            (fun i => (stripReflectances cfgLabelled i).length)).sum ∧
      (loadSettings demoWorld cfgLabelled "/data/swatch.ini" emptySwatch).1.mPatchesList.map
          (fun p => p.reflectance)
        = (List.range' 1 (stripCount cfgLabelled)).flatMap (stripReflectances cfgLabelled) :=
  ⟨by decide, by decide,
    loadSettings_labelled_strips demoWorld cfgLabelled "/data/swatch.ini" emptySwatch
      (by decide) (by decide)⟩

/-- C2 (counterexample): in `cfgLateMismatch` the second strip has two reflectances
and one label, yet `loadSettings` fails with the missing-label error of the first
strip and leaves a patch of that strip in the list; it does not fail with
count-mismatch. -/
theorem loadSettings_mismatch_not_reached :
    pathsAndColorValid demoWorld cfgLateMismatch "/data/swatch.ini" = true ∧
      stripCount cfgLateMismatch = 2 ∧
      stripMismatched cfgLateMismatch 2 = true ∧
      (loadSettings demoWorld cfgLateMismatch "/data/swatch.ini" emptySwatch).2
        = .error (Error.missingLabel 5) ∧
      (loadSettings demoWorld cfgLateMismatch "/data/swatch.ini" emptySwatch).1.mPatchesList
        = [⟨5, none⟩] := by
  decide

theorem stripLoop_append (settings : QSettings) :
    ∀ (k n i : Nat) (v : StripVars), (stripLoop settings k i v).2 = none →
      stripLoop settings (k + n) i v = stripLoop settings n (i + k) (stripLoop settings k i v).1 := by
  intro k
  induction k with
  | zero => intro n i v _; simp [stripLoop]
  | succ k ih =>
    intro n i v h
    have e : k + 1 + n = (k + n) + 1 := by omega
    rw [e, stripLoop]
    rw [stripLoop] at h ⊢
    rcases hs : loadStrip settings i v with ⟨v1, err⟩
    rw [hs] at h
    cases err with
    | some e1 => simp at h
    | none =>
      simp only at h ⊢
      rw [ih n (i + 1) v1 h]
      have e2 : i + 1 + k = i + (k + 1) := by omega
      rw [e2]

theorem stripLoop_mismatch_first (settings : QSettings) (n i : Nat) (v : StripVars)
    (hmis : stripMismatched settings i = true) :
    (stripLoop settings (n + 1) i v).2 = some (Error.countMismatch i) ∧
      (stripLoop settings (n + 1) i v).1.patches = v.patches := by
  have h1 := loadStrip_mismatched settings i v hmis
  rw [stripLoop]
  rcases hs : loadStrip settings i v with ⟨v1, e⟩
  rw [hs] at h1
  simp only at h1
  obtain ⟨he, hp⟩ := h1
  subst he
  exact ⟨rfl, hp⟩

/-- C2 (amended): when the paths and the background colour are valid, the strips before
strip `i` are read without error, strip `i` is among the strips read and declares both
lists with different lengths, `loadSettings` fails with count-mismatch for strip `i`
and the patch list is the one left by the strips `1 .. i-1`; when each of these strips has
exactly one label per reflectance (or neither labels nor reflectances) this list is
`patchesOfStrips settings (i - 1)`. -/
theorem loadSettings_count_mismatch (w : World) (settings : QSettings) (iniFile : String)
    (d : ColorSwatch) (i : Nat) (hv : pathsAndColorValid w settings iniFile = true)
    (h1 : 1 ≤ i) (hi : i ≤ stripCount settings)
    (hprev : (firstStrips settings (i - 1)).2 = none)
    (hmis : stripMismatched settings i = true) :
    (loadSettings w settings iniFile d).2 = .error (Error.countMismatch i) ∧
      (loadSettings w settings iniFile d).1.mPatchesList
        = (firstStrips settings (i - 1)).1.patches ∧
      ((∀ j, 1 ≤ j → j < i → stripLabelled settings j = true) →
        (loadSettings w settings iniFile d).1.mPatchesList
          = patchesOfStrips settings (i - 1)) := by
  have hload := loadSettings_of_valid w settings iniFile d hv
  unfold firstStrips at hprev ⊢
  have hsplit := stripLoop_append settings (i - 1) (stripCount settings - (i - 1)) 1
    ⟨[], [], []⟩ hprev
  have e1 : i - 1 + (stripCount settings - (i - 1)) = stripCount settings := by omega
  have e2 : stripCount settings - (i - 1) = (stripCount settings - i) + 1 := by omega
  have e3 : 1 + (i - 1) = i := by omega
  rw [e1, e2, e3] at hsplit
  have hm := stripLoop_mismatch_first settings (stripCount settings - i) i
    (stripLoop settings (i - 1) 1 ⟨[], [], []⟩).1 hmis
  rw [← hsplit] at hm
  have hlist : (loadSettings w settings iniFile d).1.mPatchesList
      = (stripLoop settings (i - 1) 1 ⟨[], [], []⟩).1.patches := by
    rw [hload.1, hm.2]
  refine ⟨?_, hlist, ?_⟩
  · rw [hload.2, hm.1]
  · intro hlab
    have := stripLoop_labelled settings (i - 1) 1 ⟨[], [], []⟩
      (fun j hj1 hj2 => hlab j hj1 (by omega))
    rw [hlist, this.2]
    simp [patchesOfStrips]

/-- C2 (witness): in `cfgMismatch` the first strip is labelled and the second one is
mismatched. -/
theorem loadSettings_count_mismatch_witness :
    pathsAndColorValid demoWorld cfgMismatch "/data/swatch.ini" = true ∧
      1 ≤ 2 ∧ 2 ≤ stripCount cfgMismatch ∧
      (firstStrips cfgMismatch (2 - 1)).2 = none ∧
      stripMismatched cfgMismatch 2 = true ∧
      (loadSettings demoWorld cfgMismatch "/data/swatch.ini" usedSwatch).2
        = .error (Error.countMismatch 2) ∧
      (loadSettings demoWorld cfgMismatch "/data/swatch.ini" usedSwatch).1.mPatchesList
        = (firstStrips cfgMismatch (2 - 1)).1.patches ∧
      ((∀ j, 1 ≤ j → j < 2 → stripLabelled cfgMismatch j = true) →
        (loadSettings demoWorld cfgMismatch "/data/swatch.ini" usedSwatch).1.mPatchesList
          = patchesOfStrips cfgMismatch (2 - 1)) :=
  ⟨by decide, by decide, by decide, by decide, by decide,
    loadSettings_count_mismatch demoWorld cfgMismatch "/data/swatch.ini" usedSwatch 2
      (by decide) (by decide) (by decide) (by decide) (by decide)⟩

/-- C7: when `colorswatch.rawfile` does not resolve to an existing file, `loadSettings`
fails with missing-file for the resolved path, whatever the prior state, and leaves
the mask, the patch list and the image plugin as they were. -/
theorem loadSettings_missing_rawfile (w : World) (settings : QSettings) (iniFile : String)
    (d : ColorSwatch)
    (h : w.fileExists (resolvePath w (w.cdUp iniFile)
      ((settings.group "colorswatch").rawfile.getD "")) = false) :
    (loadSettings w settings iniFile d).2
        = .error (Error.missingFile (resolvePath w (w.cdUp iniFile)
            ((settings.group "colorswatch").rawfile.getD ""))) ∧
      (loadSettings w settings iniFile d).1.mMask = d.mMask ∧
      (loadSettings w settings iniFile d).1.mPatchesList = d.mPatchesList ∧
      (loadSettings w settings iniFile d).1.mImgPlg = d.mImgPlg := by
  unfold loadSettings
  simp [h]

/-- C7 (witness): `cfgMissingRaw` names a raw file that does not exist; the mask and
the patch of `usedSwatch` survive the failed call. -/
theorem loadSettings_missing_rawfile_witness :
    demoWorld.fileExists (resolvePath demoWorld (demoWorld.cdUp "/data/swatch.ini")
        ((cfgMissingRaw.group "colorswatch").rawfile.getD "")) = false ∧
      (loadSettings demoWorld cfgMissingRaw "/data/swatch.ini" usedSwatch).2
        = .error (Error.missingFile (resolvePath demoWorld (demoWorld.cdUp "/data/swatch.ini")
            ((cfgMissingRaw.group "colorswatch").rawfile.getD ""))) ∧
      (loadSettings demoWorld cfgMissingRaw "/data/swatch.ini" usedSwatch).1.mMask
        = usedSwatch.mMask ∧
      (loadSettings demoWorld cfgMissingRaw "/data/swatch.ini" usedSwatch).1.mPatchesList
        = usedSwatch.mPatchesList ∧
      (loadSettings demoWorld cfgMissingRaw "/data/swatch.ini" usedSwatch).1.mImgPlg
        = usedSwatch.mImgPlg :=
  ⟨by decide,
    loadSettings_missing_rawfile demoWorld cfgMissingRaw "/data/swatch.ini" usedSwatch
      (by decide)⟩

/-! ## loadImages -/

/-- C5: with a mask whose image decodes, `loadImages` fails with size-mismatch when
the width or the height of the mask differs from the size the plugin reports after
the raw load step, whether or not that load succeeded; when both are equal the
outcome is not size-mismatch. -/
theorem loadImages_size_check (w : World) (d : ColorSwatch) (m : ColorSwatchMask)
    (img : QImage) (hm : d.mMask = some m) (hdec : w.decodeMask m.filePath = some img) :
    (((rawLoad w d).2.sizeWidth ≠ (img.width : Int)
        ∨ (rawLoad w d).2.sizeHeight ≠ (img.height : Int)) →
      (loadImages w d).2 = .error Error.sizeMismatch) ∧
    (((rawLoad w d).2.sizeWidth = (img.width : Int)
        ∧ (rawLoad w d).2.sizeHeight = (img.height : Int)) →
      (loadImages w d).2 ≠ .error Error.sizeMismatch) := by
  constructor
  · intro hne
    have hne2 : (rawLoad w d).2.sizeHeight ≠ (img.height : Int)
        ∨ (rawLoad w d).2.sizeWidth ≠ (img.width : Int) := hne.symm
    simp only [loadImages, hm, ColorSwatchMask.loadImage, hdec, ColorSwatchMask.getImage]
    simp only [if_true]
    rw [if_pos hne2]
  · intro heq
    simp only [loadImages, hm, ColorSwatchMask.loadImage, hdec, ColorSwatchMask.getImage]
    simp only [if_true]
    rw [if_neg (by simp [heq.1, heq.2])]
    cases (rawLoad w d).1 <;> simp

/-- C5 (witness): the raw image `swatch.raw` is 6 x 4 and the mask `mask.png` is 5 x 2. -/
theorem loadImages_size_check_witness :
    (swatchWithMask "swatch.raw" "mask.png").mMask = some (ColorSwatchMask.new "mask.png") ∧
      maskWorld.decodeMask (ColorSwatchMask.new "mask.png").filePath = some maskTouching ∧
      ((((rawLoad maskWorld (swatchWithMask "swatch.raw" "mask.png")).2.sizeWidth
            ≠ (maskTouching.width : Int)
          ∨ (rawLoad maskWorld (swatchWithMask "swatch.raw" "mask.png")).2.sizeHeight
            ≠ (maskTouching.height : Int)) →
        (loadImages maskWorld (swatchWithMask "swatch.raw" "mask.png")).2
          = .error Error.sizeMismatch) ∧
      (((rawLoad maskWorld (swatchWithMask "swatch.raw" "mask.png")).2.sizeWidth
            = (maskTouching.width : Int)
          ∧ (rawLoad maskWorld (swatchWithMask "swatch.raw" "mask.png")).2.sizeHeight
            = (maskTouching.height : Int)) →
        (loadImages maskWorld (swatchWithMask "swatch.raw" "mask.png")).2
          ≠ .error Error.sizeMismatch)) :=
  ⟨rfl, rfl,
    loadImages_size_check maskWorld (swatchWithMask "swatch.raw" "mask.png")
      (ColorSwatchMask.new "mask.png") maskTouching rfl rfl⟩

/-- The mask object is never discarded by `loadImages`: the reset at lines 182-183 is
only reached with `result` true. -/
theorem loadImages_haveMask (w : World) (d : ColorSwatch) :
    (loadImages w d).1.haveMask = d.haveMask := by
  unfold loadImages ColorSwatch.haveMask
  cases hm : d.mMask with
  | none => simp [hm]
  | some m =>
    simp only [hm]
    split_ifs <;> simp_all

/-- C6 (code at the failing inputs): in each of the three failures of `loadImages` with
a mask (sizes differ, the mask does not decode, the raw image is not loaded) the
exception is raised and the object still holds its mask. -/
theorem loadImages_failure_keeps_mask :
    ((loadImages maskWorld (swatchWithMask "swatch.raw" "mask.png")).2
        = .error Error.sizeMismatch ∧
      (loadImages maskWorld (swatchWithMask "swatch.raw" "mask.png")).1.haveMask = true) ∧
    ((loadImages maskWorld (swatchWithMask "swatch.raw" "broken.png")).2
        = .error Error.maskDecodeError ∧
      (loadImages maskWorld (swatchWithMask "swatch.raw" "broken.png")).1.haveMask = true) ∧
    ((loadImages maskWorld swatchNoRaw).2 = .error Error.inconsistentState ∧
      (loadImages maskWorld swatchNoRaw).1.haveMask = true) := by
  decide

/-! ## fillPatchesPixelsFromMask: the guard and the background colour -/

/-- Without a mask object `fillPatchesPixelsFromMask` raises the precondition error
and leaves the object as it is. -/
theorem fillPatches_no_mask (w : World) (d : ColorSwatch) (h : d.mMask = none) :
    fillPatchesPixelsFromMask w d = (d, .error Error.preconditionViolation) := by
  simp [fillPatchesPixelsFromMask, h]

/-- On a mask object whose image is null (never loaded, or not decodable) the call
returns false without raising anything, whatever the collaborators are: there is no
pixel to scan. A missing background colour is replaced by the colour built from 0. -/
theorem fillPatches_null_image (w : World) (d : ColorSwatch) (m : ColorSwatchMask)
    (hm : d.mMask = some m) (himg : m.image = QImage.null) :
    (fillPatchesPixelsFromMask w d).2 = .ok (false, SegState.start QImage.null) ∧
      (m.backgroundColor = none →
        (fillPatchesPixelsFromMask w d).1.mMask.map (fun k => k.backgroundColor)
          = some (some (w.colorOfRgb 0))) := by
  have hseg : ∀ bg, segment bg QImage.null = .ok (SegState.start QImage.null) := by
    intro bg; rfl
  have hdet : detectBackground QImage.null = 0 := by decide
  constructor
  · simp only [fillPatchesPixelsFromMask, hm, ColorSwatchMask.getImage]
    split_ifs <;> simp [ColorSwatchMask.setBackgroundColor, himg, hseg]
  · intro hbg
    simp only [fillPatchesPixelsFromMask, hm, ColorSwatchMask.getImage,
      ColorSwatchMask.haveBackgroundColor, hbg, Option.isSome_none, Bool.not_false, if_true,
      ColorSwatchMask.setBackgroundColor, himg, hseg, hdet]
    rfl

/-- C8 (code at the failing input): on an object whose mask was created by
`loadSettings` and never loaded, `fillPatchesPixelsFromMask` raises nothing: it
returns false with no patch extracted, and it stores the colour 0 as the background
colour of the mask. -/
theorem fillPatches_unloaded_mask_returns :
    (swatchWithMask "swatch.raw" "mask.png").haveMask = true ∧
      ((swatchWithMask "swatch.raw" "mask.png").mMask.map
        (fun m => (m.image.width, m.image.height))) = some (0, 0) ∧
      (fillPatchesPixelsFromMask demoWorld (swatchWithMask "swatch.raw" "mask.png")).2.map
        (fun r => (r.1, r.2.patches.length, r.2.saved.length)) = .ok (false, 0, 0) ∧
      (fillPatchesPixelsFromMask demoWorld (swatchWithMask "swatch.raw" "mask.png")).1.mMask.map
        (fun m => m.backgroundColor) = some (some ⟨0⟩) := by
  decide

/-- C10: on a mask whose background colour `c` is set, `fillPatchesPixelsFromMask`
skips the detection: it leaves the whole object (so the stored colour) unchanged and
its outcome is the segmentation of the mask image against `c`; `loadImages` leaves
the stored colour equal to `c` as well, whatever the collaborators do. -/
theorem backgroundColor_kept (w : World) (d : ColorSwatch) (m : ColorSwatchMask) (c : QColor)
    (hm : d.mMask = some m) (hc : m.backgroundColor = some c) :
    (fillPatchesPixelsFromMask w d).1 = d ∧
      (fillPatchesPixelsFromMask w d).1.mMask.map (fun k => k.backgroundColor)
        = some (some c) ∧
      (fillPatchesPixelsFromMask w d).2
        = (segment c.rgb m.image).map (fun st => (false, st)) ∧
      (loadImages w d).1.mMask.map (fun k => k.backgroundColor) = some (some c) := by
  have hfill : fillPatchesPixelsFromMask w d
      = (d, (segment c.rgb m.image).map (fun st => (false, st))) := by
    cases d with
    | mk raw imgf mask patches plg =>
      simp only at hm
      subst hm
      simp only [fillPatchesPixelsFromMask, ColorSwatchMask.haveBackgroundColor, hc,
        Option.isSome_some, Bool.not_true, Bool.false_eq_true, if_false,
        ColorSwatchMask.getBackgroundColor, Option.getD_some, ColorSwatchMask.getImage]
      cases segment c.rgb m.image <;> rfl
  refine ⟨by rw [hfill], by rw [hfill]; simp [hm, hc], by rw [hfill], ?_⟩
  unfold loadImages
  simp only [hm, ColorSwatchMask.loadImage]
  cases w.decodeMask m.filePath <;> (simp only []; split_ifs <;> simp_all)

/-- C10 (witness): the loaded mask of `swatchLoadedMask` has the background colour 0. -/
theorem backgroundColor_kept_witness :
    swatchLoadedMask.mMask = some ⟨"mask64.png", some ⟨0⟩, maskTwoRects⟩ ∧
      (⟨"mask64.png", some ⟨0⟩, maskTwoRects⟩ : ColorSwatchMask).backgroundColor = some ⟨0⟩ ∧
      ((fillPatchesPixelsFromMask demoWorld swatchLoadedMask).1 = swatchLoadedMask ∧
        (fillPatchesPixelsFromMask demoWorld swatchLoadedMask).1.mMask.map (fun k => k.backgroundColor)
          = some (some ⟨0⟩) ∧
        (fillPatchesPixelsFromMask demoWorld swatchLoadedMask).2
          = (segment (⟨0⟩ : QColor).rgb
              (⟨"mask64.png", some ⟨0⟩, maskTwoRects⟩ : ColorSwatchMask).image).map
              (fun st => (false, st)) ∧
        (loadImages demoWorld swatchLoadedMask).1.mMask.map (fun k => k.backgroundColor)
          = some (some ⟨0⟩)) :=
  ⟨rfl, rfl,
    backgroundColor_kept demoWorld swatchLoadedMask ⟨"mask64.png", some ⟨0⟩, maskTwoRects⟩ ⟨0⟩
      rfl rfl⟩

/-! ## Images: reading and writing pixels -/

theorem QImage.valid_iff (img : QImage) (col row : Nat) :
    img.valid col row = true ↔ col < img.width ∧ row < img.height := by
  simp [QImage.valid]

theorem QImage.pixel_eq_some (img : QImage) (col row : Nat) (p : QRgb) :
    img.pixel col row = some p ↔ (col < img.width ∧ row < img.height) ∧ img.data col row = p := by
  unfold QImage.pixel
  by_cases h : img.valid col row = true
  · simp [h, (QImage.valid_iff img col row).mp h]
  · have h2 : ¬ (col < img.width ∧ row < img.height) := fun hc => h ((QImage.valid_iff _ _ _).mpr hc)
    simp [h, h2]

theorem QImage.pixel_of_valid (img : QImage) (col row : Nat)
    (hc : col < img.width) (hr : row < img.height) :
    img.pixel col row = some (img.data col row) :=
  (QImage.pixel_eq_some img col row _).mpr ⟨⟨hc, hr⟩, rfl⟩

theorem QImage.setPixel_width (img : QImage) (col row : Nat) (v : QRgb) :
    (img.setPixel col row v).width = img.width := by
  unfold QImage.setPixel; split_ifs <;> rfl

theorem QImage.setPixel_height (img : QImage) (col row : Nat) (v : QRgb) :
    (img.setPixel col row v).height = img.height := by
  unfold QImage.setPixel; split_ifs <;> rfl

theorem QImage.setPixel_data (img : QImage) (col row : Nat) (v : QRgb)
    (hc : col < img.width) (hr : row < img.height) (x y : Nat) :
    (img.setPixel col row v).data x y = if x = col ∧ y = row then v else img.data x y := by
  have hv : img.valid col row = true := (QImage.valid_iff _ _ _).mpr ⟨hc, hr⟩
  simp [QImage.setPixel, hv]

/-! ## The growth loops -/

/-- What a successful run of the loop of line 290 returns: the first row from
`maxRow` on, in column `col`, whose pixel is the background colour. -/
theorem growMaxRow_ok (mask : QImage) (bgRgb : QRgb) (col : Nat) :
    ∀ (fuel r0 maxRow : Nat), growMaxRow mask bgRgb col fuel r0 = .ok maxRow →
      r0 ≤ maxRow ∧ mask.pixel col maxRow = some bgRgb ∧
        ∀ y, r0 ≤ y → y < maxRow → ∃ p, mask.pixel col y = some p ∧ p ≠ bgRgb := by
  intro fuel
  induction fuel with
  | zero => intro r0 maxRow h; simp [growMaxRow] at h
  | succ fuel ih =>
    intro r0 maxRow h
    rw [growMaxRow] at h
    cases hp : mask.pixel col r0 with
    | none => rw [hp] at h; simp at h
    | some p =>
      rw [hp] at h
      simp only at h
      by_cases hbg : p = bgRgb
      · simp only [hbg, ne_eq, not_true_eq_false, if_false, Except.ok.injEq] at h
        subst h
        subst hbg
        exact ⟨le_refl _, hp, fun y h1 h2 => by omega⟩
      · rw [if_pos hbg] at h
        obtain ⟨h1, h2, h3⟩ := ih (r0 + 1) maxRow h
        refine ⟨by omega, h2, ?_⟩
        intro y hy1 hy2
        rcases Nat.eq_or_lt_of_le hy1 with heq | hlt
        · subst heq; exact ⟨p, hp, hbg⟩
        · exact h3 y (by omega) hy2

/-- The loop of line 290 succeeds as soon as a background pixel lies below the start
inside the image, with only other colours in between. -/
theorem growMaxRow_of_first (mask : QImage) (bgRgb : QRgb) (col maxRow : Nat)
    (hbg : mask.pixel col maxRow = some bgRgb) :
    ∀ (fuel r0 : Nat), r0 ≤ maxRow → maxRow - r0 < fuel →
      (∀ y, r0 ≤ y → y < maxRow → ∃ p, mask.pixel col y = some p ∧ p ≠ bgRgb) →
      growMaxRow mask bgRgb col fuel r0 = .ok maxRow := by
  intro fuel
  induction fuel with
  | zero => intro r0 _ h; omega
  | succ fuel ih =>
    intro r0 hle hf hall
    rw [growMaxRow]
    rcases Nat.eq_or_lt_of_le hle with heq | hlt
    · subst heq; simp [hbg]
    · obtain ⟨p, hp, hne⟩ := hall r0 (le_refl _) hlt
      rw [hp]
      simp only
      rw [if_pos hne]
      exact ih (r0 + 1) (by omega) (by omega) (fun y h1 h2 => hall y (by omega) h2)

/-- What a successful run of the loop of line 291 returns: the first column from
`maxCol` on, in row `row`, whose pixel is the background colour. -/
theorem growMaxCol_ok (mask : QImage) (bgRgb : QRgb) (row : Nat) :
    ∀ (fuel c0 maxCol : Nat), growMaxCol mask bgRgb row fuel c0 = .ok maxCol →
      c0 ≤ maxCol ∧ mask.pixel maxCol row = some bgRgb ∧
        ∀ x, c0 ≤ x → x < maxCol → ∃ p, mask.pixel x row = some p ∧ p ≠ bgRgb := by
  intro fuel
  induction fuel with
  | zero => intro c0 maxCol h; simp [growMaxCol] at h
  | succ fuel ih =>
    intro c0 maxCol h
    rw [growMaxCol] at h
    cases hp : mask.pixel c0 row with
    | none => rw [hp] at h; simp at h
    | some p =>
      rw [hp] at h
      simp only at h
      by_cases hbg : p = bgRgb
      · simp only [hbg, ne_eq, not_true_eq_false, if_false, Except.ok.injEq] at h
        subst h
        subst hbg
        exact ⟨le_refl _, hp, fun y h1 h2 => by omega⟩
      · rw [if_pos hbg] at h
        obtain ⟨h1, h2, h3⟩ := ih (c0 + 1) maxCol h
        refine ⟨by omega, h2, ?_⟩
        intro x hx1 hx2
        rcases Nat.eq_or_lt_of_le hx1 with heq | hlt
        · subst heq; exact ⟨p, hp, hbg⟩
        · exact h3 x (by omega) hx2

/-- The loop of line 291 succeeds as soon as a background pixel lies right of the
start inside the image, with only other colours in between. -/
theorem growMaxCol_of_first (mask : QImage) (bgRgb : QRgb) (row maxCol : Nat)
    (hbg : mask.pixel maxCol row = some bgRgb) :
    ∀ (fuel c0 : Nat), c0 ≤ maxCol → maxCol - c0 < fuel →
      (∀ x, c0 ≤ x → x < maxCol → ∃ p, mask.pixel x row = some p ∧ p ≠ bgRgb) →
      growMaxCol mask bgRgb row fuel c0 = .ok maxCol := by
  intro fuel
  induction fuel with
  | zero => intro c0 _ h; omega
  | succ fuel ih =>
    intro c0 hle hf hall
    rw [growMaxCol]
    rcases Nat.eq_or_lt_of_le hle with heq | hlt
    · subst heq; simp [hbg]
    · obtain ⟨p, hp, hne⟩ := hall c0 (le_refl _) hlt
      rw [hp]
      simp only
      rw [if_pos hne]
      exact ih (c0 + 1) (by omega) (by omega) (fun y h1 h2 => hall y (by omega) h2)

/-- More reads than `mask.height + 1` never change what the loop of line 290 returns:
that bound is not a restriction of the loop. -/
theorem growMaxRow_fuel (mask : QImage) (bgRgb : QRgb) (col : Nat) :
    ∀ (fuel r0 extra : Nat), mask.height < fuel + r0 →
      growMaxRow mask bgRgb col (fuel + extra) r0 = growMaxRow mask bgRgb col fuel r0 := by
  intro fuel
  induction fuel with
  | zero =>
    intro r0 extra h
    have hnone : mask.pixel col r0 = none := by
      unfold QImage.pixel
      have : mask.valid col r0 = false := by
        simp only [QImage.valid, Bool.and_eq_false_imp, decide_eq_true_eq, decide_eq_false_iff_not]
        intro _; omega
      simp [this]
    cases extra with
    | zero => rfl
    | succ e =>
      rw [Nat.zero_add, growMaxRow, growMaxRow, hnone]
  | succ fuel ih =>
    intro r0 extra h
    have e : fuel + 1 + extra = (fuel + extra) + 1 := by omega
    rw [e, growMaxRow, growMaxRow]
    cases mask.pixel col r0 with
    | none => rfl
    | some p =>
      simp only
      by_cases hp : p ≠ bgRgb
      · rw [if_pos hp, if_pos hp]
        exact ih (r0 + 1) extra (by omega)
      · rw [if_neg hp, if_neg hp]

/-- More reads than `mask.width + 1` never change what the loop of line 291 returns. -/
theorem growMaxCol_fuel (mask : QImage) (bgRgb : QRgb) (row : Nat) :
    ∀ (fuel c0 extra : Nat), mask.width < fuel + c0 →
      growMaxCol mask bgRgb row (fuel + extra) c0 = growMaxCol mask bgRgb row fuel c0 := by
  intro fuel
  induction fuel with
  | zero =>
    intro c0 extra h
    have hnone : mask.pixel c0 row = none := by
      unfold QImage.pixel
      have : mask.valid c0 row = false := by
        simp only [QImage.valid, Bool.and_eq_false_imp, decide_eq_true_eq, decide_eq_false_iff_not]
        intro h1; omega
      simp [this]
    cases extra with
    | zero => rfl
    | succ e =>
      rw [Nat.zero_add, growMaxCol, growMaxCol, hnone]
  | succ fuel ih =>
    intro c0 extra h
    have e : fuel + 1 + extra = (fuel + extra) + 1 := by omega
    rw [e, growMaxCol, growMaxCol]
    cases mask.pixel c0 row with
    | none => rfl
    | some p =>
      simp only
      by_cases hp : p ≠ bgRgb
      · rw [if_pos hp, if_pos hp]
        exact ih (c0 + 1) extra (by omega)
      · rw [if_neg hp, if_neg hp]

/-! ## The copy loops -/

theorem copyPixel_ok (bgRgb : QRgb) (col row r c : Nat) (pm : QImage × QImage)
    (hc : col + c < pm.2.width) (hr : row + r < pm.2.height) :
    copyPixel bgRgb col row r c pm
      = .ok (pm.1.setPixel c r (pm.2.data (col + c) (row + r)),
          pm.2.setPixel (col + c) (row + r) bgRgb) := by
  unfold copyPixel
  rw [QImage.pixel_of_valid _ _ _ hc hr]

/-- The state of the copy loops after `n` pixels of row `r` of the patch. -/
theorem copyRow_loop (bgRgb : QRgb) (col row r : Nat) (patch mask : QImage)
    (hr : row + r < mask.height) (hpr : r < patch.height) :
    ∀ n, col + n ≤ mask.width → n ≤ patch.width →
      ∃ pm, (List.range n).foldlM (fun acc c => copyPixel bgRgb col row r c acc) (patch, mask)
          = Except.ok pm ∧
        pm.1.width = patch.width ∧ pm.1.height = patch.height ∧
        pm.2.width = mask.width ∧ pm.2.height = mask.height ∧
        (∀ x y, pm.1.data x y
          = if y = r ∧ x < n then mask.data (col + x) (row + r) else patch.data x y) ∧
        (∀ x y, pm.2.data x y
          = if y = row + r ∧ col ≤ x ∧ x < col + n then bgRgb else mask.data x y) := by
  intro n
  induction n with
  | zero =>
    intro _ _
    refine ⟨(patch, mask), by simp [pure, Except.pure], rfl, rfl, rfl, rfl, by simp, ?_⟩
    intro x y
    have : ¬ (y = row + r ∧ col ≤ x ∧ x < col + 0) := by omega
    rw [if_neg this]
  | succ n ih =>
    intro h1 h2
    obtain ⟨pm, hpm, hw1, hh1, hw2, hh2, hd1, hd2⟩ := ih (by omega) (by omega)
    have hstep := copyPixel_ok bgRgb col row r n pm (by rw [hw2]; omega) (by rw [hh2]; exact hr)
    refine ⟨(pm.1.setPixel n r (pm.2.data (col + n) (row + r)),
      pm.2.setPixel (col + n) (row + r) bgRgb), ?_, ?_, ?_, ?_, ?_, ?_, ?_⟩
    · rw [List.range_succ, List.foldlM_append, hpm]
      simp only [List.foldlM_cons, List.foldlM_nil, bind, Except.bind]
      rw [hstep]
      rfl
    · simp only [QImage.setPixel_width, hw1]
    · simp only [QImage.setPixel_height, hh1]
    · simp only [QImage.setPixel_width, hw2]
    · simp only [QImage.setPixel_height, hh2]
    · intro x y
      rw [QImage.setPixel_data _ _ _ _ (by rw [hw1]; omega) (by rw [hh1]; exact hpr), hd1, hd2]
      by_cases hx : x = n
      · subst hx
        by_cases hy : y = r
        · subst hy; simp
        · simp [hy]
      · by_cases hy : y = r
        · subst hy
          by_cases hlt : x < n
          · simp [hx, hlt, Nat.lt_succ_of_lt hlt]
          · have : ¬ x < n + 1 := by omega
            simp [hx, hlt, this]
        · simp [hx, hy]
    · intro x y
      rw [QImage.setPixel_data _ _ _ _ (by rw [hw2]; omega) (by rw [hh2]; exact hr), hd2]
      by_cases hy : y = row + r
      · subst hy
        by_cases hx : x = col + n
        · subst hx; simp
        · by_cases hlt : col ≤ x ∧ x < col + n
          · have : col ≤ x ∧ x < col + (n + 1) := ⟨hlt.1, by omega⟩
            simp [hx, hlt, this]
          · have : ¬ (col ≤ x ∧ x < col + (n + 1)) := by omega
            simp [hx, hlt, this]
      · simp [hy]

/-- The state of the copy loops after `k` rows of the patch. -/
theorem copyRegion_loop (bgRgb : QRgb) (col row maxCol : Nat) (patch mask : QImage)
    (hc : col + (maxCol - col) ≤ mask.width) (hpw : maxCol - col ≤ patch.width) :
    ∀ k, row + k ≤ mask.height → k ≤ patch.height →
      ∃ pm, (List.range k).foldlM (fun acc r => copyRow bgRgb col row maxCol r acc) (patch, mask)
          = Except.ok pm ∧
        pm.1.width = patch.width ∧ pm.1.height = patch.height ∧
        pm.2.width = mask.width ∧ pm.2.height = mask.height ∧
        (∀ x y, pm.1.data x y
          = if y < k ∧ x < maxCol - col then mask.data (col + x) (row + y) else patch.data x y) ∧
        (∀ x y, pm.2.data x y
          = if (row ≤ y ∧ y < row + k) ∧ col ≤ x ∧ x < col + (maxCol - col) then bgRgb
            else mask.data x y) := by
  intro k
  induction k with
  | zero =>
    intro _ _
    refine ⟨(patch, mask), by simp [pure, Except.pure], rfl, rfl, rfl, rfl, by simp, ?_⟩
    intro x y
    have : ¬ ((row ≤ y ∧ y < row + 0) ∧ col ≤ x ∧ x < col + (maxCol - col)) := by omega
    rw [if_neg this]
  | succ k ih =>
    intro h1 h2
    obtain ⟨pm, hpm, hw1, hh1, hw2, hh2, hd1, hd2⟩ := ih (by omega) (by omega)
    obtain ⟨pm2, hpm2, hw1', hh1', hw2', hh2', hd1', hd2'⟩ :=
      copyRow_loop bgRgb col row k pm.1 pm.2 (by rw [hh2]; omega) (by rw [hh1]; omega)
        (maxCol - col) (by rw [hw2]; exact hc) (by rw [hw1]; exact hpw)
    refine ⟨pm2, ?_, by rw [hw1', hw1], by rw [hh1', hh1], by rw [hw2', hw2], by rw [hh2', hh2],
      ?_, ?_⟩
    · rw [List.range_succ, List.foldlM_append, hpm]
      simp only [List.foldlM_cons, List.foldlM_nil, bind, Except.bind]
      unfold copyRow
      rw [hpm2]
      rfl
    · intro x y
      rw [hd1', hd1, hd2]
      by_cases hy : y = k
      · subst hy
        by_cases hx : x < maxCol - col
        · have : ¬ ((row ≤ row + y ∧ row + y < row + y) ∧ col ≤ col + x ∧ col + x < col + (maxCol - col)) := by
            omega
          simp [hx, this]
        · simp [hx]
      · by_cases hlt : y < k
        · have : y < k + 1 := by omega
          simp [hy, hlt, this]
        · have : ¬ y < k + 1 := by omega
          simp [hy, hlt, this]
    · intro x y
      rw [hd2', hd2]
      by_cases hx : col ≤ x ∧ x < col + (maxCol - col)
      · by_cases hy : y = row + k
        · subst hy; simp [hx]
        · by_cases hlt : row ≤ y ∧ y < row + k
          · have : row ≤ y ∧ y < row + (k + 1) := ⟨hlt.1, by omega⟩
            simp [hx, hy, hlt, this]
          · have : ¬ (row ≤ y ∧ y < row + (k + 1)) := by omega
            simp [hx, hy, hlt, this]
      · simp [hx]

/-! ## Extraction of one patch -/

/-- Once both growth loops have stopped inside the image, the extraction succeeds:
the patch is the region `[col, maxCol) x [row, maxRow)` of the working mask and that
region of the working mask is painted with the background colour. -/
theorem extractPatch_of_grow (bgRgb : QRgb) (col row : Nat) (st : SegState)
    (maxRow maxCol : Nat)
    (hr : growMaxRow st.mask bgRgb col (st.mask.height + 1) row = .ok maxRow)
    (hc : growMaxCol st.mask bgRgb row (st.mask.width + 1) col = .ok maxCol) :
    ∃ patch mask1,
      extractPatch bgRgb col row st
        = .ok ⟨mask1, st.patches ++ [patch], (st.i + 1) % 4294967296,
            st.saved ++ [(patchFileName st.i, patch)]⟩ ∧
      patch.width = maxCol - col ∧ patch.height = maxRow - row ∧
      mask1.width = st.mask.width ∧ mask1.height = st.mask.height ∧
      (∀ c r, c < maxCol - col → r < maxRow - row →
        patch.data c r = st.mask.data (col + c) (row + r)) ∧
      (∀ x y, mask1.data x y
        = if (row ≤ y ∧ y < maxRow) ∧ col ≤ x ∧ x < maxCol then bgRgb else st.mask.data x y) := by
  obtain ⟨hr1, hr2, _⟩ := growMaxRow_ok _ _ _ _ _ _ hr
  obtain ⟨hc1, hc2, _⟩ := growMaxCol_ok _ _ _ _ _ _ hc
  have hr3 := ((QImage.pixel_eq_some _ _ _ _).mp hr2).1
  have hc3 := ((QImage.pixel_eq_some _ _ _ _).mp hc2).1
  obtain ⟨pm, hpm, hw1, hh1, hw2, hh2, hd1, hd2⟩ :=
    copyRegion_loop bgRgb col row maxCol (QImage.create (maxCol - col) (maxRow - row)) st.mask
      (by omega) (le_refl _) (maxRow - row) (by omega) (le_refl _)
  refine ⟨pm.1, pm.2, ?_, hw1, hh1, hw2, hh2, ?_, ?_⟩
  · unfold extractPatch
    rw [hr, hc]
    simp only [bind, Except.bind]
    unfold copyRegion
    rw [hpm]
    rfl
  · intro c r hc4 hr4
    rw [hd1, if_pos ⟨hr4, hc4⟩]
  · intro x y
    rw [hd2]
    have e1 : row + (maxRow - row) = maxRow := by omega
    have e2 : col + (maxCol - col) = maxCol := by omega
    rw [e1, e2]

/-- A successful extraction means that both growth loops stopped inside the image. -/
theorem extractPatch_ok_grow (bgRgb : QRgb) (col row : Nat) (st st1 : SegState)
    (h : extractPatch bgRgb col row st = .ok st1) :
    ∃ maxRow maxCol,
      growMaxRow st.mask bgRgb col (st.mask.height + 1) row = .ok maxRow ∧
      growMaxCol st.mask bgRgb row (st.mask.width + 1) col = .ok maxCol := by
  unfold extractPatch at h
  cases hr : growMaxRow st.mask bgRgb col (st.mask.height + 1) row with
  | error e => rw [hr] at h; simp [bind, Except.bind] at h
  | ok maxRow =>
    cases hc : growMaxCol st.mask bgRgb row (st.mask.width + 1) col with
    | error e => rw [hr, hc] at h; simp [bind, Except.bind] at h
    | ok maxCol => exact ⟨maxRow, maxCol, rfl, rfl⟩

/-- C9: whenever the scan body emits a patch at a scan start `(col, row)` of the
working mask, `maxCol` is the first column from `col` on whose pixel in row `row` is
the background colour, `maxRow` is the first row from `row` on whose pixel in column
`col` is the background colour, the patch is `maxCol - col` wide and `maxRow - row`
high, it is appended and saved under the name of the counter, and its pixel `(c, r)`
is the pixel `(col + c, row + r)` of the working mask before the region is painted;
the region is then painted with the background colour. The shape of the
non-background area plays no role. -/
theorem visit_emits_grown_rectangle (bgRgb : QRgb) (row col : Nat) (st st1 : SegState)
    (hv : st.mask.valid col row = true) (hne : st.mask.data col row ≠ bgRgb)
    (h : visit bgRgb row col st = .ok st1) :
    ∃ maxCol maxRow patch,
      (col < maxCol ∧ st.mask.pixel maxCol row = some bgRgb ∧
        ∀ x, col ≤ x → x < maxCol → ∃ p, st.mask.pixel x row = some p ∧ p ≠ bgRgb) ∧
      (row < maxRow ∧ st.mask.pixel col maxRow = some bgRgb ∧
        ∀ y, row ≤ y → y < maxRow → ∃ p, st.mask.pixel col y = some p ∧ p ≠ bgRgb) ∧
      st1.patches = st.patches ++ [patch] ∧
      st1.saved = st.saved ++ [(patchFileName st.i, patch)] ∧
      patch.width = maxCol - col ∧ patch.height = maxRow - row ∧
      (∀ c r, c < patch.width → r < patch.height →
        patch.pixel c r = st.mask.pixel (col + c) (row + r) ∧
          patch.pixel c r = some (st.mask.data (col + c) (row + r))) ∧
      (∀ x y, st1.mask.data x y
        = if (row ≤ y ∧ y < maxRow) ∧ col ≤ x ∧ x < maxCol then bgRgb else st.mask.data x y) := by
  unfold visit at h
  rw [if_pos hv, if_pos hne] at h
  obtain ⟨maxRow, maxCol, hr, hc⟩ := extractPatch_ok_grow _ _ _ _ _ h
  obtain ⟨patch, mask1, hex, hw, hh, hw2, hh2, hd, hm⟩ :=
    extractPatch_of_grow bgRgb col row st maxRow maxCol hr hc
  rw [hex] at h
  simp only [Except.ok.injEq] at h
  subst h
  obtain ⟨hr1, hr2, hr3⟩ := growMaxRow_ok _ _ _ _ _ _ hr
  obtain ⟨hc1, hc2, hc3⟩ := growMaxCol_ok _ _ _ _ _ _ hc
  have hstart : st.mask.pixel col row = some (st.mask.data col row) :=
    QImage.pixel_of_valid _ _ _ ((QImage.valid_iff _ _ _).mp hv).1 ((QImage.valid_iff _ _ _).mp hv).2
  have hrlt : row < maxRow := by
    rcases Nat.eq_or_lt_of_le hr1 with heq | hlt
    · subst heq; rw [hstart] at hr2; simp only [Option.some.injEq] at hr2; exact absurd hr2 hne
    · exact hlt
  have hclt : col < maxCol := by
    rcases Nat.eq_or_lt_of_le hc1 with heq | hlt
    · subst heq; rw [hstart] at hc2; simp only [Option.some.injEq] at hc2; exact absurd hc2 hne
    · exact hlt
  have hrin := ((QImage.pixel_eq_some _ _ _ _).mp hr2).1
  have hcin := ((QImage.pixel_eq_some _ _ _ _).mp hc2).1
  refine ⟨maxCol, maxRow, patch, ⟨hclt, hc2, hc3⟩, ⟨hrlt, hr2, hr3⟩, rfl, rfl, hw, hh, ?_, hm⟩
  intro c r hc4 hr4
  rw [hw] at hc4
  rw [hh] at hr4
  have e1 : patch.pixel c r = some (patch.data c r) :=
    QImage.pixel_of_valid _ _ _ (by rw [hw]; exact hc4) (by rw [hh]; exact hr4)
  have e2 : st.mask.pixel (col + c) (row + r) = some (st.mask.data (col + c) (row + r)) :=
    QImage.pixel_of_valid _ _ _ (by omega) (by omega)
  rw [e1, e2, hd c r hc4 hr4]
  exact ⟨rfl, rfl⟩

/-- C9 (witness): the scan body at the start `(3, 0)` of `maskTwoRects`, where a
rectangle of two pixels begins. -/
theorem visit_emits_grown_rectangle_witness :
    (SegState.start maskTwoRects).mask.valid 3 0 = true ∧
      (SegState.start maskTwoRects).mask.data 3 0 ≠ 0 ∧
      visit 0 0 3 (SegState.start maskTwoRects)
        = .ok ((visit 0 0 3 (SegState.start maskTwoRects)).toOption.getD (SegState.start maskTwoRects)) ∧
      ∃ maxCol maxRow patch,
        (3 < maxCol ∧ (SegState.start maskTwoRects).mask.pixel maxCol 0 = some 0 ∧
          ∀ x, 3 ≤ x → x < maxCol →
            ∃ p, (SegState.start maskTwoRects).mask.pixel x 0 = some p ∧ p ≠ 0) ∧
        (0 < maxRow ∧ (SegState.start maskTwoRects).mask.pixel 3 maxRow = some 0 ∧
          ∀ y, 0 ≤ y → y < maxRow →
            ∃ p, (SegState.start maskTwoRects).mask.pixel 3 y = some p ∧ p ≠ 0) ∧
        ((visit 0 0 3 (SegState.start maskTwoRects)).toOption.getD (SegState.start maskTwoRects)).patches
          = (SegState.start maskTwoRects).patches ++ [patch] ∧
        ((visit 0 0 3 (SegState.start maskTwoRects)).toOption.getD (SegState.start maskTwoRects)).saved
          = (SegState.start maskTwoRects).saved
            ++ [(patchFileName (SegState.start maskTwoRects).i, patch)] ∧
        patch.width = maxCol - 3 ∧ patch.height = maxRow - 0 ∧
        (∀ c r, c < patch.width → r < patch.height →
          patch.pixel c r = (SegState.start maskTwoRects).mask.pixel (3 + c) (0 + r) ∧
            patch.pixel c r
              = some ((SegState.start maskTwoRects).mask.data (3 + c) (0 + r))) ∧
        (∀ x y,
          ((visit 0 0 3 (SegState.start maskTwoRects)).toOption.getD
              (SegState.start maskTwoRects)).mask.data x y
            = if (0 ≤ y ∧ y < maxRow) ∧ 3 ≤ x ∧ x < maxCol then 0
              else (SegState.start maskTwoRects).mask.data x y) :=
  ⟨by decide, by decide, rfl,
    visit_emits_grown_rectangle 0 0 3 (SegState.start maskTwoRects)
      ((visit 0 0 3 (SegState.start maskTwoRects)).toOption.getD (SegState.start maskTwoRects))
      (by decide) (by decide) rfl⟩

/-! ## The scan as one pass over the coordinates -/

theorem foldlM_flatMap_except {α β γ ε : Type} (f : α → List β) (g : γ → β → Except ε γ) :
    ∀ (l : List α) (init : γ),
      (l.flatMap f).foldlM g init = l.foldlM (fun acc a => (f a).foldlM g acc) init := by
  intro l
  induction l with
  | nil => intro init; simp
  | cons a t ih =>
    intro init
    rw [List.flatMap_cons, List.foldlM_append, List.foldlM_cons]
    cases (f a).foldlM g init with
    | error e => rfl
    | ok x => exact ih x

theorem segment_eq_scanOrder (bgRgb : QRgb) (mask : QImage) :
    segment bgRgb mask
      = (scanOrder mask.width mask.height).foldlM (fun acc p => visit bgRgb p.2 p.1 acc)
          (SegState.start mask) := by
  unfold segment scanOrder
  rw [foldlM_flatMap_except]
  congr 1
  funext acc row
  unfold scanRow
  rw [List.foldlM_map]

theorem mem_scanOrder (w h : Nat) (p : Nat × Nat) :
    p ∈ scanOrder w h ↔ p.1 < w ∧ p.2 < h := by
  unfold scanOrder
  simp only [List.mem_flatMap, List.mem_map, List.mem_range]
  constructor
  · rintro ⟨row, hrow, col, hcol, rfl⟩
    exact ⟨hcol, hrow⟩
  · rintro ⟨h1, h2⟩
    exact ⟨p.2, h2, p.1, h1, rfl⟩

theorem scanOrder_sorted (w h : Nat) : (scanOrder w h).Pairwise scansBefore := by
  unfold scanOrder
  rw [List.pairwise_flatMap]
  constructor
  · intro row _
    rw [List.pairwise_map]
    exact (List.pairwise_lt_range w).imp (fun hlt => Or.inr ⟨rfl, hlt⟩)
  · refine (List.pairwise_lt_range h).imp ?_
    intro r1 r2 hlt x hx y hy
    simp only [List.mem_map, List.mem_range] at hx hy
    obtain ⟨_, _, rfl⟩ := hx
    obtain ⟨_, _, rfl⟩ := hy
    exact Or.inl hlt

theorem scansBefore_trans {p q r : Nat × Nat} (h1 : scansBefore p q) (h2 : scansBefore q r) :
    scansBefore p r := by
  unfold scansBefore at *
  omega

theorem scansBefore_asymm {p q : Nat × Nat} (h1 : scansBefore p q) : ¬ scansBefore q p := by
  unfold scansBefore at *
  omega

theorem scansBefore_irrefl (p : Nat × Nat) : ¬ scansBefore p p := by
  unfold scansBefore
  omega

/-- A sorted list splits at each of its members into what comes before and after. -/
theorem sorted_split (l : List (Nat × Nat)) (hs : l.Pairwise scansBefore) (p : Nat × Nat)
    (hp : p ∈ l) :
    ∃ l1 l2, l = l1 ++ p :: l2 ∧ (∀ q ∈ l1, scansBefore q p) ∧ (∀ q ∈ l2, scansBefore p q) ∧
      l2.Pairwise scansBefore := by
  obtain ⟨l1, l2, rfl⟩ := List.append_of_mem hp
  rw [List.pairwise_append] at hs
  obtain ⟨_, h2, h3⟩ := hs
  rw [List.pairwise_cons] at h2
  exact ⟨l1, l2, rfl, fun q hq => h3 q hq p (List.mem_cons_self _ _), h2.1, h2.2⟩

/-- The scan body does nothing at a pixel that has the background colour. -/
theorem visit_background (bgRgb : QRgb) (row col : Nat) (st : SegState)
    (h : st.mask.valid col row = true → st.mask.data col row = bgRgb) :
    visit bgRgb row col st = .ok st := by
  unfold visit
  by_cases hv : st.mask.valid col row = true
  · rw [if_pos hv, if_neg (by simp [h hv])]
  · rw [if_neg hv]

/-- The scan passes over a run of background pixels without any effect. -/
theorem visits_background (bgRgb : QRgb) (st : SegState) :
    ∀ (l : List (Nat × Nat)),
      (∀ q ∈ l, st.mask.valid q.1 q.2 = true → st.mask.data q.1 q.2 = bgRgb) →
      l.foldlM (fun acc p => visit bgRgb p.2 p.1 acc) st = .ok st := by
  intro l
  induction l with
  | nil => intro _; rfl
  | cons q t ih =>
    intro h
    rw [List.foldlM_cons, visit_background bgRgb q.2 q.1 st (h q (List.mem_cons_self _ _))]
    exact ih (fun q' hq' => h q' (List.mem_cons_of_mem _ hq'))

/-! ## Segmentation of two separated rectangles -/

theorem Rect.not_before_corner (R : Rect) (x y : Nat) (h : R.contains x y) :
    ¬ scansBefore (x, y) (R.col, R.row) := by
  unfold Rect.contains at h
  unfold scansBefore
  simp only
  omega

/-- The scan body at the top-left corner of a rectangle of non-background pixels that
is followed by a background pixel on the right of its top row and below its left
column: the rectangle is emitted as a patch and painted. -/
theorem visit_rectangle (bgRgb : QRgb) (st : SegState) (R : Rect)
    (hpos : 0 < R.width ∧ 0 < R.height)
    (hin : ∀ x y, R.contains x y → st.mask.data x y ≠ bgRgb)
    (hright : st.mask.pixel (R.col + R.width) R.row = some bgRgb)
    (hbelow : st.mask.pixel R.col (R.row + R.height) = some bgRgb) :
    ∃ patch mask1,
      visit bgRgb R.row R.col st
        = .ok ⟨mask1, st.patches ++ [patch], (st.i + 1) % 4294967296,
            st.saved ++ [(patchFileName st.i, patch)]⟩ ∧
      patch.width = R.width ∧ patch.height = R.height ∧
      mask1.width = st.mask.width ∧ mask1.height = st.mask.height ∧
      (∀ c r, c < R.width → r < R.height →
        patch.data c r = st.mask.data (R.col + c) (R.row + r)) ∧
      (∀ x y, mask1.data x y = if R.contains x y then bgRgb else st.mask.data x y) := by
  have hr := ((QImage.pixel_eq_some _ _ _ _).mp hright).1
  have hb := ((QImage.pixel_eq_some _ _ _ _).mp hbelow).1
  have hgr : growMaxRow st.mask bgRgb R.col (st.mask.height + 1) R.row
      = .ok (R.row + R.height) := by
    apply growMaxRow_of_first _ _ _ _ hbelow _ _ (by omega) (by omega)
    intro y h1 h2
    refine ⟨st.mask.data R.col y, QImage.pixel_of_valid _ _ _ (by omega) (by omega), ?_⟩
    exact hin R.col y ⟨⟨le_refl _, by omega⟩, h1, h2⟩
  have hgc : growMaxCol st.mask bgRgb R.row (st.mask.width + 1) R.col
      = .ok (R.col + R.width) := by
    apply growMaxCol_of_first _ _ _ _ hright _ _ (by omega) (by omega)
    intro x h1 h2
    refine ⟨st.mask.data x R.row, QImage.pixel_of_valid _ _ _ (by omega) (by omega), ?_⟩
    exact hin x R.row ⟨⟨h1, h2⟩, le_refl _, by omega⟩
  obtain ⟨patch, mask1, hex, hw, hh, hw2, hh2, hd, hm⟩ :=
    extractPatch_of_grow bgRgb R.col R.row st _ _ hgr hgc
  refine ⟨patch, mask1, ?_, by rw [hw]; omega, by rw [hh]; omega, hw2, hh2, ?_, ?_⟩
  · unfold visit
    have hv : st.mask.valid R.col R.row = true := (QImage.valid_iff _ _ _).mpr ⟨by omega, by omega⟩
    rw [if_pos hv, if_pos (hin R.col R.row ⟨⟨le_refl _, by omega⟩, le_refl _, by omega⟩)]
    exact hex
  · intro c r hc hr2
    exact hd c r (by omega) (by omega)
  · intro x y
    rw [hm]
    unfold Rect.contains
    by_cases hcond : (R.row ≤ y ∧ y < R.row + R.height) ∧ R.col ≤ x ∧ x < R.col + R.width
    · rw [if_pos hcond, if_pos ⟨hcond.2, hcond.1⟩]
    · rw [if_neg hcond, if_neg (fun hc => hcond ⟨hc.2, hc.1⟩)]

/-- The scan of a mask that is background except for two disjoint rectangles, each
followed by a background pixel on the right of its top row and below its left
column: two patches, first the rectangle whose corner is scanned first. -/
theorem segment_two_rectangles (mask : QImage) (bgRgb : QRgb) (A B : Rect)
    (hA : 0 < A.width ∧ 0 < A.height) (hB : 0 < B.width ∧ 0 < B.height)
    (hpix : ∀ x y, x < mask.width → y < mask.height →
      (mask.data x y ≠ bgRgb ↔ A.contains x y ∨ B.contains x y))
    (hdisj : ∀ x y, ¬ (A.contains x y ∧ B.contains x y))
    (hAright : mask.pixel (A.col + A.width) A.row = some bgRgb)
    (hAbelow : mask.pixel A.col (A.row + A.height) = some bgRgb)
    (hBright : mask.pixel (B.col + B.width) B.row = some bgRgb)
    (hBbelow : mask.pixel B.col (B.row + B.height) = some bgRgb)
    (hord : scansBefore (A.col, A.row) (B.col, B.row)) :
    ∃ pA pB maskEnd,
      segment bgRgb mask
        = .ok ⟨maskEnd, [pA, pB], 2, [(patchFileName 0, pA), (patchFileName 1, pB)]⟩ ∧
      (pA.width = A.width ∧ pA.height = A.height ∧
        ∀ c r, c < A.width → r < A.height → pA.data c r = mask.data (A.col + c) (A.row + r)) ∧
      (pB.width = B.width ∧ pB.height = B.height ∧
        ∀ c r, c < B.width → r < B.height → pB.data c r = mask.data (B.col + c) (B.row + r)) ∧
      (maskEnd.width = mask.width ∧ maskEnd.height = mask.height ∧
        ∀ x y, x < mask.width → y < mask.height → maskEnd.data x y = bgRgb) := by
  have hAr := ((QImage.pixel_eq_some _ _ _ _).mp hAright).1
  have hAb := ((QImage.pixel_eq_some _ _ _ _).mp hAbelow).1
  have hBr := ((QImage.pixel_eq_some _ _ _ _).mp hBright).1
  have hBb := ((QImage.pixel_eq_some _ _ _ _).mp hBbelow).1
  have hAinside : ∀ x y, A.contains x y → x < mask.width ∧ y < mask.height := by
    intro x y h; unfold Rect.contains at h; omega
  have hBinside : ∀ x y, B.contains x y → x < mask.width ∧ y < mask.height := by
    intro x y h; unfold Rect.contains at h; omega
  have hAcorner : A.contains A.col A.row := ⟨⟨le_refl _, by omega⟩, le_refl _, by omega⟩
  have hBcorner : B.contains B.col B.row := ⟨⟨le_refl _, by omega⟩, le_refl _, by omega⟩
  -- the two corners in the scan order
  have hmemA : (A.col, A.row) ∈ scanOrder mask.width mask.height :=
    (mem_scanOrder _ _ _).mpr (hAinside _ _ hAcorner)
  have hmemB : (B.col, B.row) ∈ scanOrder mask.width mask.height :=
    (mem_scanOrder _ _ _).mpr (hBinside _ _ hBcorner)
  obtain ⟨l1, l2, hl, hl1, hl2, hs2⟩ :=
    sorted_split _ (scanOrder_sorted mask.width mask.height) _ hmemA
  have hmemB2 : (B.col, B.row) ∈ l2 := by
    rw [hl] at hmemB
    rcases List.mem_append.mp hmemB with h | h
    · exact absurd (hl1 _ h) (scansBefore_asymm hord)
    · rcases List.mem_cons.mp h with h | h
      · rw [h] at hord; exact absurd hord (scansBefore_irrefl _)
      · exact h
  obtain ⟨m1, m2, hm, hm1, hm2, _⟩ := sorted_split _ hs2 _ hmemB2
  have hvalid : ∀ q, q ∈ scanOrder mask.width mask.height → q.1 < mask.width ∧ q.2 < mask.height :=
    fun q hq => (mem_scanOrder _ _ _).mp hq
  -- step 1: the pixels before the first corner
  have step1 : l1.foldlM (fun acc p => visit bgRgb p.2 p.1 acc) (SegState.start mask)
      = .ok (SegState.start mask) := by
    apply visits_background
    intro q hq hv
    have hv2 := (QImage.valid_iff _ _ _).mp hv
    have hnA : ¬ A.contains q.1 q.2 := fun hc => Rect.not_before_corner A _ _ hc (hl1 q hq)
    have hnB : ¬ B.contains q.1 q.2 :=
      fun hc => Rect.not_before_corner B _ _ hc (scansBefore_trans (hl1 q hq) hord)
    by_contra hne
    rcases (hpix q.1 q.2 hv2.1 hv2.2).mp hne with h | h
    · exact hnA h
    · exact hnB h
  -- step 2: the first rectangle
  obtain ⟨pA, mask1, hvA, hwA, hhA, hw1, hh1, hdA, hd1⟩ :=
    visit_rectangle bgRgb (SegState.start mask) A hA
      (fun x y hc => (hpix x y (hAinside x y hc).1 (hAinside x y hc).2).mpr (Or.inl hc))
      hAright hAbelow
  -- step 3: the pixels between the two corners
  have step3 : m1.foldlM (fun acc p => visit bgRgb p.2 p.1 acc)
      ⟨mask1, (SegState.start mask).patches ++ [pA], ((SegState.start mask).i + 1) % 4294967296,
        (SegState.start mask).saved ++ [(patchFileName (SegState.start mask).i, pA)]⟩
      = .ok ⟨mask1, (SegState.start mask).patches ++ [pA],
          ((SegState.start mask).i + 1) % 4294967296,
          (SegState.start mask).saved ++ [(patchFileName (SegState.start mask).i, pA)]⟩ := by
    apply visits_background
    intro q hq hv
    have hv2 := (QImage.valid_iff _ _ _).mp hv
    simp only [hw1, hh1, SegState.start] at hv2
    simp only
    rw [hd1]
    by_cases hcA : A.contains q.1 q.2
    · rw [if_pos hcA]
    · rw [if_neg hcA]
      have hnB : ¬ B.contains q.1 q.2 := fun hc => Rect.not_before_corner B _ _ hc (hm1 q hq)
      by_contra hne
      rcases (hpix q.1 q.2 hv2.1 hv2.2).mp hne with h | h
      · exact hcA h
      · exact hnB h
  -- step 4: the second rectangle
  obtain ⟨pB, mask2, hvB, hwB, hhB, hw2, hh2, hdB, hd2⟩ :=
    visit_rectangle bgRgb
      ⟨mask1, (SegState.start mask).patches ++ [pA], ((SegState.start mask).i + 1) % 4294967296,
        (SegState.start mask).saved ++ [(patchFileName (SegState.start mask).i, pA)]⟩ B hB
      (by
        intro x y hc
        simp only
        rw [hd1, if_neg (fun hcA => hdisj x y ⟨hcA, hc⟩)]
        exact (hpix x y (hBinside x y hc).1 (hBinside x y hc).2).mpr (Or.inr hc))
      (by
        simp only
        rw [QImage.pixel_eq_some]
        refine ⟨by rw [hw1, hh1]; exact hBr, ?_⟩
        rw [hd1]
        split_ifs
        · rfl
        · exact ((QImage.pixel_eq_some _ _ _ _).mp hBright).2)
      (by
        simp only
        rw [QImage.pixel_eq_some]
        refine ⟨by rw [hw1, hh1]; exact hBb, ?_⟩
        rw [hd1]
        split_ifs
        · rfl
        · exact ((QImage.pixel_eq_some _ _ _ _).mp hBbelow).2)
  simp only at hwB hhB hw2 hh2 hdB hd2 hvB
  -- step 5: the pixels after the second corner
  have step5 : m2.foldlM (fun acc p => visit bgRgb p.2 p.1 acc)
      ⟨mask2, ((SegState.start mask).patches ++ [pA]) ++ [pB],
        (((SegState.start mask).i + 1) % 4294967296 + 1) % 4294967296,
        ((SegState.start mask).saved ++ [(patchFileName (SegState.start mask).i, pA)])
          ++ [(patchFileName (((SegState.start mask).i + 1) % 4294967296), pB)]⟩
      = .ok ⟨mask2, ((SegState.start mask).patches ++ [pA]) ++ [pB],
        (((SegState.start mask).i + 1) % 4294967296 + 1) % 4294967296,
        ((SegState.start mask).saved ++ [(patchFileName (SegState.start mask).i, pA)])
          ++ [(patchFileName (((SegState.start mask).i + 1) % 4294967296), pB)]⟩ := by
    apply visits_background
    intro q hq hv
    have hv2 := (QImage.valid_iff _ _ _).mp hv
    simp only [hw2, hh2, hw1, hh1, SegState.start] at hv2
    simp only
    rw [hd2]
    by_cases hcB : B.contains q.1 q.2
    · rw [if_pos hcB]
    · rw [if_neg hcB, hd1]
      by_cases hcA : A.contains q.1 q.2
      · rw [if_pos hcA]
      · rw [if_neg hcA]
        by_contra hne
        rcases (hpix q.1 q.2 hv2.1 hv2.2).mp hne with h | h
        · exact hcA h
        · exact hcB h
  refine ⟨pA, pB, mask2, ?_, ⟨hwA, hhA, hdA⟩, ⟨hwB, hhB, ?_⟩, ⟨by rw [hw2, hw1]; rfl, by rw [hh2, hh1]; rfl, ?_⟩⟩
  · rw [segment_eq_scanOrder, hl, hm, List.foldlM_append, step1]
    simp only [bind, Except.bind, List.foldlM_cons]
    rw [hvA]
    simp only
    rw [List.foldlM_append, step3]
    simp only [bind, Except.bind, List.foldlM_cons]
    rw [hvB]
    simp only
    rw [step5]
    rfl
  · intro c r hc hr
    rw [hdB c r hc hr, hd1]
    have hcB : B.contains (B.col + c) (B.row + r) := ⟨⟨by omega, by omega⟩, by omega, by omega⟩
    rw [if_neg (fun hcA => hdisj _ _ ⟨hcA, hcB⟩)]
    rfl
  · intro x y hx hy
    rw [hd2]
    by_cases hcB : B.contains x y
    · rw [if_pos hcB]
    · rw [if_neg hcB, hd1]
      by_cases hcA : A.contains x y
      · rw [if_pos hcA]
      · rw [if_neg hcA]
        by_contra hne
        rcases (hpix x y hx hy).mp hne with h | h
        · exact hcA h
        · exact hcB h

theorem Rect.disjoint_contains (A B : Rect) (h : A.disjoint B) (x y : Nat) :
    ¬ (A.contains x y ∧ B.contains x y) := by
  unfold Rect.disjoint at h
  unfold Rect.contains
  omega

/-- C3 (counterexample): `maskTouching` is background 0 plus the two disjoint
rectangles `rectLeft` and `rectRight` of non-background pixels, which touch; with the
background colour 0 set, `fillPatchesPixelsFromMask` emits a single patch, 4 pixels
wide and 1 high, saved as `patch_0.png`. -/
theorem fillPatches_touching_rectangles_one_patch :
    swatchTouching.mMask = some ⟨"mask.png", some ⟨0⟩, maskTouching⟩ ∧
      (∀ x, x < maskTouching.width → ∀ y, y < maskTouching.height →
        (maskTouching.data x y ≠ 0 ↔ rectLeft.contains x y ∨ rectRight.contains x y)) ∧
      rectLeft.disjoint rectRight ∧
      (fillPatchesPixelsFromMask demoWorld swatchTouching).2.map
          (fun r => (r.2.patches.map (fun p => (p.width, p.height)), r.2.saved.map Prod.fst))
        = .ok ([(4, 1)], ["patch_0.png"]) := by
  refine ⟨rfl, by decide, by decide, by decide⟩

/-- C3 (amended): when the mask image is the background colour plus two disjoint
rectangles of non-background pixels, and each rectangle is followed inside the image
by a background pixel on the right of its top row and below its left column, then
`fillPatchesPixelsFromMask`, with that background colour set, returns after emitting
exactly two patches, saved as `patch_0.png` and `patch_1.png` in the scan order of
the top-left corners; each patch has the width, the height and the pixels of its
rectangle. -/
theorem fillPatches_two_rectangles (w : World) (d : ColorSwatch) (m : ColorSwatchMask)
    (bgColor : QColor) (A B : Rect) (hm : d.mMask = some m) (hbg : m.backgroundColor = some bgColor)
    (hA : 0 < A.width ∧ 0 < A.height) (hB : 0 < B.width ∧ 0 < B.height)
    (hpix : ∀ x, x < m.image.width → ∀ y, y < m.image.height →
      (m.image.data x y ≠ bgColor.rgb ↔ A.contains x y ∨ B.contains x y))
    (hdisj : A.disjoint B)
    (hAright : m.image.pixel (A.col + A.width) A.row = some bgColor.rgb)
    (hAbelow : m.image.pixel A.col (A.row + A.height) = some bgColor.rgb)
    (hBright : m.image.pixel (B.col + B.width) B.row = some bgColor.rgb)
    (hBbelow : m.image.pixel B.col (B.row + B.height) = some bgColor.rgb)
    (hord : scansBefore (A.col, A.row) (B.col, B.row)) :
    ∃ pA pB maskEnd,
      (fillPatchesPixelsFromMask w d).2
        = .ok (false, ⟨maskEnd, [pA, pB], 2, [("patch_0.png", pA), ("patch_1.png", pB)]⟩) ∧
      (pA.width = A.width ∧ pA.height = A.height ∧
        ∀ c r, c < A.width → r < A.height →
          pA.pixel c r = some (m.image.data (A.col + c) (A.row + r))) ∧
      (pB.width = B.width ∧ pB.height = B.height ∧
        ∀ c r, c < B.width → r < B.height →
          pB.pixel c r = some (m.image.data (B.col + c) (B.row + r))) := by
  obtain ⟨pA, pB, maskEnd, hseg, ⟨hwA, hhA, hdA⟩, ⟨hwB, hhB, hdB⟩, _⟩ :=
    segment_two_rectangles m.image bgColor.rgb A B hA hB
      (fun x y hx hy => hpix x hx y hy) (Rect.disjoint_contains A B hdisj)
      hAright hAbelow hBright hBbelow hord
  refine ⟨pA, pB, maskEnd, ?_, ⟨hwA, hhA, ?_⟩, ⟨hwB, hhB, ?_⟩⟩
  · have hn0 : patchFileName 0 = "patch_0.png" := by decide
    have hn1 : patchFileName 1 = "patch_1.png" := by decide
    rw [hn0, hn1] at hseg
    simp only [fillPatchesPixelsFromMask, hm, ColorSwatchMask.haveBackgroundColor, hbg,
      Option.isSome_some, Bool.not_true, Bool.false_eq_true, if_false,
      ColorSwatchMask.getBackgroundColor, Option.getD_some, ColorSwatchMask.getImage, hseg]
  · intro c r hc hr
    rw [QImage.pixel_of_valid _ _ _ (by rw [hwA]; exact hc) (by rw [hhA]; exact hr), hdA c r hc hr]
  · intro c r hc hr
    rw [QImage.pixel_of_valid _ _ _ (by rw [hwB]; exact hc) (by rw [hhB]; exact hr), hdB c r hc hr]

/-- C3 (witness): `maskTwoRects` with the rectangles `rectTop` and `rectLow`. -/
theorem fillPatches_two_rectangles_witness :
    swatchLoadedMask.mMask = some ⟨"mask64.png", some ⟨0⟩, maskTwoRects⟩ ∧
      (0 < rectTop.width ∧ 0 < rectTop.height) ∧ (0 < rectLow.width ∧ 0 < rectLow.height) ∧
      (∀ x, x < maskTwoRects.width → ∀ y, y < maskTwoRects.height →
        (maskTwoRects.data x y ≠ 0 ↔ rectTop.contains x y ∨ rectLow.contains x y)) ∧
      rectTop.disjoint rectLow ∧
      scansBefore (rectTop.col, rectTop.row) (rectLow.col, rectLow.row) ∧
      ∃ pA pB maskEnd,
        (fillPatchesPixelsFromMask demoWorld swatchLoadedMask).2
          = .ok (false, ⟨maskEnd, [pA, pB], 2, [("patch_0.png", pA), ("patch_1.png", pB)]⟩) ∧
        (pA.width = rectTop.width ∧ pA.height = rectTop.height ∧
          ∀ c r, c < rectTop.width → r < rectTop.height →
            pA.pixel c r = some ((⟨"mask64.png", some ⟨0⟩, maskTwoRects⟩ : ColorSwatchMask).image.data
              (rectTop.col + c) (rectTop.row + r))) ∧
        (pB.width = rectLow.width ∧ pB.height = rectLow.height ∧
          ∀ c r, c < rectLow.width → r < rectLow.height →
            pB.pixel c r = some ((⟨"mask64.png", some ⟨0⟩, maskTwoRects⟩ : ColorSwatchMask).image.data
              (rectLow.col + c) (rectLow.row + r))) :=
  ⟨rfl, by decide, by decide, by decide, by decide, by decide,
    fillPatches_two_rectangles demoWorld swatchLoadedMask
      ⟨"mask64.png", some ⟨0⟩, maskTwoRects⟩ ⟨0⟩
      rectTop rectLow rfl rfl (by decide) (by decide) (by decide) (by decide)
      (by decide) (by decide) (by decide) (by decide) (by decide)⟩

/-! ## The colour histogram -/

theorem QMap.lookup_cons_ne (c k v : Nat) (t : QMap) (h : ¬ c = k) :
    List.lookup c ((k, v) :: t) = List.lookup c t := by
  rw [List.lookup_cons]
  have : (c == k) = false := by simpa using h
  rw [this]

theorem QMap.lookup_none_of_lt (k : Nat) :
    ∀ (m : QMap), (∀ e ∈ m, k < e.1) → List.lookup k m = none := by
  intro m h
  rw [List.lookup_eq_none_iff]
  intro p hp
  have := h p hp
  simp only [bne_iff_ne, ne_eq]
  omega

theorem QMap.incr_keys (k : Nat) :
    ∀ (m : QMap) (e : Nat × Nat), e ∈ QMap.incr k m → e.1 = k ∨ ∃ e1 ∈ m, e1.1 = e.1 := by
  intro m
  induction m with
  | nil =>
    intro e he
    simp only [QMap.incr, List.mem_singleton] at he
    left; rw [he]
  | cons a t ih =>
    intro e he
    obtain ⟨k1, n⟩ := a
    rw [QMap.incr] at he
    by_cases h1 : k < k1
    · rw [if_pos h1] at he
      rcases List.mem_cons.mp he with h | h
      · left; rw [h]
      · right; exact ⟨e, h, rfl⟩
    · rw [if_neg h1] at he
      by_cases h2 : k = k1
      · rw [if_pos h2] at he
        rcases List.mem_cons.mp he with h | h
        · left; rw [h, h2]
        · right; exact ⟨e, List.mem_cons_of_mem _ h, rfl⟩
      · rw [if_neg h2] at he
        rcases List.mem_cons.mp he with h | h
        · right; exact ⟨(k1, n), List.mem_cons_self _ _, by rw [h]⟩
        · rcases ih e h with h3 | ⟨e1, he1, h4⟩
          · left; exact h3
          · right; exact ⟨e1, List.mem_cons_of_mem _ he1, h4⟩

theorem QMap.incr_sorted (k : Nat) :
    ∀ (m : QMap), m.Pairwise (fun a b => a.1 < b.1) →
      (QMap.incr k m).Pairwise (fun a b => a.1 < b.1) := by
  intro m
  induction m with
  | nil => intro _; simp [QMap.incr]
  | cons a t ih =>
    intro hs
    obtain ⟨k1, n⟩ := a
    rw [List.pairwise_cons] at hs
    rw [QMap.incr]
    by_cases h1 : k < k1
    · rw [if_pos h1, List.pairwise_cons]
      refine ⟨?_, List.pairwise_cons.mpr hs⟩
      intro e he
      rcases List.mem_cons.mp he with h | h
      · rw [h]; exact h1
      · have := hs.1 e h
        simp only at this ⊢
        omega
    · rw [if_neg h1]
      by_cases h2 : k = k1
      · rw [if_pos h2, List.pairwise_cons]
        exact ⟨hs.1, hs.2⟩
      · rw [if_neg h2, List.pairwise_cons]
        refine ⟨?_, ih hs.2⟩
        intro e he
        rcases QMap.incr_keys k t e he with h3 | ⟨e1, he1, h4⟩
        · simp only; omega
        · have := hs.1 e1 he1
          simp only at this ⊢
          omega

theorem QMap.value_incr (k c : Nat) :
    ∀ (m : QMap), m.Pairwise (fun a b => a.1 < b.1) →
      QMap.value (QMap.incr k m) c = if c = k then QMap.value m c + 1 else QMap.value m c := by
  intro m
  induction m with
  | nil =>
    intro _
    by_cases hc : c = k
    · subst hc; simp [QMap.incr, QMap.value]
    · rw [if_neg hc]
      simp only [QMap.incr, QMap.value]
      rw [QMap.lookup_cons_ne c k 1 [] hc]
  | cons a t ih =>
    intro hs
    obtain ⟨k1, n⟩ := a
    rw [List.pairwise_cons] at hs
    rw [QMap.incr]
    by_cases h1 : k < k1
    · rw [if_pos h1]
      by_cases hc : c = k
      · subst hc
        have hnone : List.lookup c ((k1, n) :: t) = none := by
          apply QMap.lookup_none_of_lt
          intro e he
          rcases List.mem_cons.mp he with h | h
          · rw [h]; exact h1
          · have := hs.1 e h
            simp only at this
            omega
        simp [QMap.value, hnone]
      · rw [if_neg hc]
        simp only [QMap.value]
        rw [QMap.lookup_cons_ne c k 1 _ hc]
    · rw [if_neg h1]
      by_cases h2 : k = k1
      · rw [if_pos h2]
        subst h2
        by_cases hc : c = k
        · subst hc; simp [QMap.value]
        · rw [if_neg hc]
          simp only [QMap.value]
          rw [QMap.lookup_cons_ne c k _ _ hc, QMap.lookup_cons_ne c k _ _ hc]
      · rw [if_neg h2]
        have ih2 := ih hs.2
        by_cases hc1 : c = k1
        · subst hc1
          have : ¬ c = k := fun h => h2 h.symm
          simp [QMap.value, this]
        · simp only [QMap.value] at ih2 ⊢
          rw [QMap.lookup_cons_ne c k1 _ _ hc1, QMap.lookup_cons_ne c k1 _ _ hc1]
          exact ih2

/-- The histogram of a list of pixels, one `clrMap[p]++` per pixel. -/
theorem histogram_fold (l : List Nat) :
    ∀ (m : QMap), m.Pairwise (fun a b => a.1 < b.1) →
      (l.foldl (fun acc p => QMap.incr p acc) m).Pairwise (fun a b => a.1 < b.1) ∧
        ∀ c, QMap.value (l.foldl (fun acc p => QMap.incr p acc) m) c
          = QMap.value m c + l.count c := by
  induction l with
  | nil => intro m hs; exact ⟨hs, fun c => by simp⟩
  | cons p t ih =>
    intro m hs
    rw [List.foldl_cons]
    obtain ⟨h1, h2⟩ := ih (QMap.incr p m) (QMap.incr_sorted p m hs)
    refine ⟨h1, ?_⟩
    intro c
    rw [h2 c, QMap.value_incr p c m hs, List.count_cons]
    by_cases hc : c = p
    · subst hc; simp; omega
    · have : ¬ p = c := fun h => hc h.symm
      simp [hc, this]

theorem foldl_flatMap_list {α β γ : Type} (f : α → List β) (g : γ → β → γ) :
    ∀ (l : List α) (init : γ),
      (l.flatMap f).foldl g init = l.foldl (fun acc a => (f a).foldl g acc) init := by
  intro l
  induction l with
  | nil => intro init; simp
  | cons a t ih =>
    intro init
    rw [List.flatMap_cons, List.foldl_append, List.foldl_cons]
    exact ih _

theorem colorHistogram_eq (img : QImage) :
    colorHistogram img = (pixelList img).foldl (fun acc p => QMap.incr p acc) [] := by
  unfold colorHistogram pixelList
  rw [foldl_flatMap_list]
  apply List.foldl_ext
  intro acc row hrow
  rw [List.foldl_map]
  apply List.foldl_ext
  intro acc2 col hcol
  have hv : img.valid col row = true :=
    (QImage.valid_iff _ _ _).mpr ⟨List.mem_range.mp hcol, List.mem_range.mp hrow⟩
  rw [if_pos hv]

theorem colorHistogram_value (img : QImage) (c : Nat) :
    QMap.value (colorHistogram img) c = countColor img c := by
  rw [colorHistogram_eq]
  have := (histogram_fold (pixelList img) [] List.Pairwise.nil).2 c
  rw [this]
  simp [QMap.value, countColor]

theorem colorHistogram_sorted (img : QImage) :
    (colorHistogram img).Pairwise (fun a b => a.1 < b.1) := by
  rw [colorHistogram_eq]
  exact (histogram_fold (pixelList img) [] List.Pairwise.nil).1

/-- In a map with increasing keys every entry is found under its key. -/
theorem QMap.value_of_mem :
    ∀ (m : QMap), m.Pairwise (fun a b => a.1 < b.1) → ∀ e ∈ m, QMap.value m e.1 = e.2 := by
  intro m
  induction m with
  | nil => intro _ e he; simp at he
  | cons a t ih =>
    intro hs e he
    obtain ⟨k1, n⟩ := a
    rw [List.pairwise_cons] at hs
    rcases List.mem_cons.mp he with h | h
    · subst h; simp [QMap.value]
    · have hlt := hs.1 e h
      simp only at hlt
      have hne : ¬ e.1 = k1 := by omega
      have := ih hs.2 e h
      simp only [QMap.value] at this ⊢
      rw [QMap.lookup_cons_ne e.1 k1 n t hne]
      exact this

/-- A key with a positive count is an entry of the map. -/
theorem QMap.mem_of_value_pos (m : QMap) (c : Nat) (h : 0 < QMap.value m c) :
    (c, QMap.value m c) ∈ m := by
  unfold QMap.value at h ⊢
  cases hl : List.lookup c m with
  | none => rw [hl] at h; simp at h
  | some v =>
    simp only [Option.getD_some]
    have := (List.lookup_eq_some_iff (l := m) (k := c) (b := v)).mp hl
    obtain ⟨l1, l2, heq, _⟩ := this
    rw [heq]
    simp

/-- The loop of lines 265-267 computes a bound of all counts that is attained. -/
theorem maxFold_spec (f : Nat → Nat) :
    ∀ (l : List Nat) (a : Nat),
      a ≤ l.foldl (fun acc k => if acc < f k then f k else acc) a ∧
      (∀ k ∈ l, f k ≤ l.foldl (fun acc k => if acc < f k then f k else acc) a) ∧
      (l.foldl (fun acc k => if acc < f k then f k else acc) a = a ∨
        ∃ k ∈ l, l.foldl (fun acc k => if acc < f k then f k else acc) a = f k) := by
  intro l
  induction l with
  | nil => intro a; simp
  | cons k t ih =>
    intro a
    rw [List.foldl_cons]
    obtain ⟨h1, h2, h3⟩ := ih (if a < f k then f k else a)
    by_cases hlt : a < f k
    · rw [if_pos hlt] at h1 h2 h3 ⊢
      refine ⟨by omega, ?_, ?_⟩
      · intro k1 hk1
        rcases List.mem_cons.mp hk1 with h | h
        · rw [h]; exact h1
        · exact h2 k1 h
      · right
        rcases h3 with h | ⟨k1, hk1, h⟩
        · exact ⟨k, List.mem_cons_self _ _, h⟩
        · exact ⟨k1, List.mem_cons_of_mem _ hk1, h⟩
    · rw [if_neg hlt] at h1 h2 h3 ⊢
      refine ⟨h1, ?_, ?_⟩
      · intro k1 hk1
        rcases List.mem_cons.mp hk1 with h | h
        · rw [h]; omega
        · exact h2 k1 h
      · rcases h3 with h | ⟨k1, hk1, h⟩
        · left; exact h
        · right; exact ⟨k1, List.mem_cons_of_mem _ hk1, h⟩

/-- The detection returns the colour that occurs on strictly more pixels than every
other colour. -/
theorem detectBackground_majority (img : QImage) (C : Nat)
    (hC : ∀ c, c ≠ C → countColor img c < countColor img C) :
    detectBackground img = C := by
  have hpos : 0 < countColor img C := by
    have := hC (C + 1) (by omega)
    omega
  have hval := colorHistogram_value img
  have hsorted := colorHistogram_sorted img
  have hmemC : (C, countColor img C) ∈ colorHistogram img := by
    have := QMap.mem_of_value_pos (colorHistogram img) C (by rw [hval]; exact hpos)
    rw [hval] at this
    exact this
  obtain ⟨_, hub, hatt⟩ := maxFold_spec (fun k => QMap.value (colorHistogram img) k)
    (QMap.keys (colorHistogram img)) 0
  have hmax : maxRgbCount (colorHistogram img) = countColor img C := by
    unfold maxRgbCount
    have hge := hub C (by
      unfold QMap.keys
      exact List.mem_map.mpr ⟨_, hmemC, rfl⟩)
    simp only [hval] at hge hatt ⊢
    rcases hatt with h | ⟨k, _, h⟩
    · omega
    · by_cases hk : k = C
      · rw [h, hk]
      · have := hC k hk
        omega
  unfold detectBackground
  simp only [hmax]
  unfold QMap.key
  cases hf : List.find? (fun e => e.2 == countColor img C) (colorHistogram img) with
  | none =>
    rw [List.find?_eq_none] at hf
    have := hf _ hmemC
    simp at this
  | some e =>
    simp only
    have he := List.mem_of_find?_eq_some hf
    have hp := List.find?_some hf
    simp only [beq_iff_eq] at hp
    have hv := QMap.value_of_mem _ hsorted e he
    rw [hval, hp] at hv
    by_contra hne
    have := hC e.1 hne
    omega

/-- C4: on a mask without background colour in whose image the colour `C` occurs on
strictly more pixels than every other colour, the detection step of
`fillPatchesPixelsFromMask` stores `C` as the background colour of the mask. -/
theorem fillPatches_detects_background (w : World) (d : ColorSwatch) (m : ColorSwatchMask)
    (C : QRgb) (hm : d.mMask = some m) (hbg : m.backgroundColor = none)
    (hC : ∀ c, c ≠ C → countColor m.image c < countColor m.image C) :
    (fillPatchesPixelsFromMask w d).1.mMask.map (fun k => k.backgroundColor)
      = some (some (w.colorOfRgb C)) := by
  have hdet : detectBackground m.image = C := detectBackground_majority m.image C hC
  simp only [fillPatchesPixelsFromMask, hm, ColorSwatchMask.haveBackgroundColor, hbg,
    Option.isSome_none, Bool.not_false, if_true, ColorSwatchMask.getImage, hdet,
    ColorSwatchMask.setBackgroundColor]
  cases segment _ _ <;> rfl

/-- C4 (witness): in `maskTwoRects` the colour 0 covers 18 of the 24 pixels. -/
theorem fillPatches_detects_background_witness :
    swatchNoBackground.mMask = some ⟨"mask64.png", none, maskTwoRects⟩ ∧
      (⟨"mask64.png", none, maskTwoRects⟩ : ColorSwatchMask).backgroundColor = none ∧
      (∀ c, c ≠ 0 →
        countColor (⟨"mask64.png", none, maskTwoRects⟩ : ColorSwatchMask).image c
          < countColor (⟨"mask64.png", none, maskTwoRects⟩ : ColorSwatchMask).image 0) ∧
      (fillPatchesPixelsFromMask demoWorld swatchNoBackground).1.mMask.map
          (fun k => k.backgroundColor)
        = some (some (demoWorld.colorOfRgb 0)) :=
  have hcount : ∀ c, c ≠ 0 →
      countColor (⟨"mask64.png", none, maskTwoRects⟩ : ColorSwatchMask).image c
        < countColor (⟨"mask64.png", none, maskTwoRects⟩ : ColorSwatchMask).image 0 := by
    intro c hc
    have hl : pixelList maskTwoRects
        = [0, 0, 0, 2, 2, 0, 1, 1, 0, 0, 0, 0, 1, 1, 0, 0, 0, 0, 0, 0, 0, 0, 0, 0] := by decide
    have h0 : countColor maskTwoRects 0 = 18 := by decide
    show countColor maskTwoRects c < countColor maskTwoRects 0
    rw [h0]
    unfold countColor
    have hle : (pixelList maskTwoRects).count c ≤ (pixelList maskTwoRects).length - 18 := by
      rw [hl]
      by_cases h1 : c = 1
      · subst h1; decide
      · by_cases h2 : c = 2
        · subst h2; decide
        · have : List.count c
              [0, 0, 0, 2, 2, 0, 1, 1, 0, 0, 0, 0, 1, 1, 0, 0, 0, 0, 0, 0, 0, 0, 0, 0] = 0 := by
            rw [List.count_eq_zero]
            simp
            omega
          rw [this]
          exact Nat.zero_le _
    have hlen : (pixelList maskTwoRects).length = 24 := by decide
    omega
  ⟨rfl, rfl, hcount,
    fillPatches_detects_background demoWorld swatchNoBackground
      ⟨"mask64.png", none, maskTwoRects⟩ 0 rfl rfl hcount⟩

/-! ## loadSettings: the state it leaves -/

/-- With valid paths and colour, `loadSettings` leaves the paths and the mask of the
settings, the patch list of the strip loop and the plugin it found. -/
theorem loadSettings_state_of_valid (w : World) (settings : QSettings) (iniFile : String)
    (d : ColorSwatch) (hv : pathsAndColorValid w settings iniFile = true) :
    (loadSettings w settings iniFile d).1
      = ⟨rawFileOfSettings w settings iniFile, imageFileOfSettings w settings iniFile,
          maskOfSettings w settings iniFile,
          (stripLoop settings (stripCount settings) 1 ⟨[], [], []⟩).1.patches, d.mImgPlg⟩ := by
  unfold pathsAndColorValid at hv
  simp only [Bool.and_eq_true] at hv
  obtain ⟨⟨hraw, himg⟩, hmask⟩ := hv
  unfold loadSettings rawFileOfSettings imageFileOfSettings maskOfSettings
  simp only [hraw, Bool.not_true, Bool.false_eq_true, if_false]
  cases hf : (settings.group "colorswatch").file with
  | none =>
    simp only [Option.isSome_none, Bool.false_and, Bool.false_eq_true, if_false]
    by_cases hm : settings.childGroups.contains "mask" = true
    · simp only [hm, if_true] at hmask ⊢
      simp only [Bool.and_eq_true] at hmask
      simp only [hmask.1, Bool.not_true, Bool.false_eq_true, if_false]
      cases hb : (settings.group "mask").backgroundcolor with
      | none =>
        simp only []
        cases (stripLoop settings (stripCount settings) 1 ⟨[], [], []⟩).2 <;> rfl
      | some c =>
        have hc := hmask.2
        rw [hb] at hc
        simp only [] at hc
        obtain ⟨col, hcol⟩ := Option.isSome_iff_exists.mp hc
        simp only [hcol]
        cases (stripLoop settings (stripCount settings) 1 ⟨[], [], []⟩).2 <;> rfl
    · simp only [hm, if_false]
      cases (stripLoop settings (stripCount settings) 1 ⟨[], [], []⟩).2 <;> rfl
  | some f =>
    rw [hf] at himg
    simp only [] at himg
    simp only [himg, Option.isSome_some, Bool.not_true, Bool.and_false, Bool.false_eq_true,
      if_false]
    by_cases hm : settings.childGroups.contains "mask" = true
    · simp only [hm, if_true] at hmask ⊢
      simp only [Bool.and_eq_true] at hmask
      simp only [hmask.1, Bool.not_true, Bool.false_eq_true, if_false]
      cases hb : (settings.group "mask").backgroundcolor with
      | none =>
        simp only []
        cases (stripLoop settings (stripCount settings) 1 ⟨[], [], []⟩).2 <;> rfl
      | some c =>
        have hc := hmask.2
        rw [hb] at hc
        simp only [] at hc
        obtain ⟨col, hcol⟩ := Option.isSome_iff_exists.mp hc
        simp only [hcol]
        cases (stripLoop settings (stripCount settings) 1 ⟨[], [], []⟩).2 <;> rfl
    · simp only [hm, if_false]
      cases (stripLoop settings (stripCount settings) 1 ⟨[], [], []⟩).2 <;> rfl

/-- With an invalid path or colour, `loadSettings` raises missing-file or invalid-color
and leaves the patch list and the plugin as they were. -/
theorem loadSettings_of_invalid (w : World) (settings : QSettings) (iniFile : String)
    (d : ColorSwatch) (hv : pathsAndColorValid w settings iniFile = false) :
    (loadSettings w settings iniFile d).1.mPatchesList = d.mPatchesList ∧
      (loadSettings w settings iniFile d).1.mImgPlg = d.mImgPlg ∧
      ((∃ p, (loadSettings w settings iniFile d).2 = .error (Error.missingFile p)) ∨
        ∃ c, (loadSettings w settings iniFile d).2 = .error (Error.invalidColor c)) := by
  unfold pathsAndColorValid at hv
  unfold loadSettings
  by_cases hraw : w.fileExists (resolvePath w (w.cdUp iniFile)
      ((settings.group "colorswatch").rawfile.getD "")) = true
  · simp only [hraw, Bool.not_true, Bool.false_eq_true, if_false, Bool.true_and] at hv ⊢
    cases hf : (settings.group "colorswatch").file with
    | none =>
      rw [hf] at hv
      simp only [Option.isSome_none, Bool.false_and, Bool.false_eq_true, if_false,
        Bool.true_and] at hv ⊢
      by_cases hm : settings.childGroups.contains "mask" = true
      · simp only [hm, if_true] at hv ⊢
        by_cases hmf : w.fileExists (resolvePath w (w.cdUp iniFile)
            ((settings.group "mask").file.getD "")) = true
        · simp only [hmf, Bool.not_true, Bool.false_eq_true, if_false, Bool.true_and] at hv ⊢
          cases hb : (settings.group "mask").backgroundcolor with
          | none => rw [hb] at hv; simp at hv
          | some c =>
            rw [hb] at hv
            simp only [] at hv
            cases hp : w.parseColor c with
            | none => simp only [hb, hp]; simp
            | some col => rw [hp] at hv; simp at hv
        · simp only [Bool.not_eq_true] at hmf
          simp [hmf]
      · rw [if_neg hm] at hv; simp at hv
    | some f =>
      rw [hf] at hv
      simp only [] at hv
      by_cases himg : w.fileExists (resolvePath w (w.cdUp iniFile) f) = true
      · simp only [himg, Option.isSome_some, Bool.not_true, Bool.and_false, Bool.false_eq_true,
          if_false, Bool.true_and] at hv ⊢
        by_cases hm : settings.childGroups.contains "mask" = true
        · simp only [hm, if_true] at hv ⊢
          by_cases hmf : w.fileExists (resolvePath w (w.cdUp iniFile)
              ((settings.group "mask").file.getD "")) = true
          · simp only [hmf, Bool.not_true, Bool.false_eq_true, if_false, Bool.true_and] at hv ⊢
            cases hb : (settings.group "mask").backgroundcolor with
            | none => rw [hb] at hv; simp at hv
            | some c =>
              rw [hb] at hv
              simp only [] at hv
              cases hp : w.parseColor c with
              | none => simp only [hb, hp]; simp
              | some col => rw [hp] at hv; simp at hv
          · simp only [Bool.not_eq_true] at hmf
            simp [hmf]
        · rw [if_neg hm] at hv; simp at hv
      · simp only [Bool.not_eq_true] at himg
        simp [himg]
  · simp only [Bool.not_eq_true] at hraw
    simp [hraw]

/-- A call of `loadSettings` that returns normally had valid paths and colour. -/
theorem loadSettings_ok_valid (w : World) (settings : QSettings) (iniFile : String)
    (d : ColorSwatch) (b : Bool) (h : (loadSettings w settings iniFile d).2 = .ok b) :
    pathsAndColorValid w settings iniFile = true := by
  by_contra hv
  simp only [Bool.not_eq_true] at hv
  obtain ⟨_, _, he⟩ := loadSettings_of_invalid w settings iniFile d hv
  rw [h] at he
  rcases he with ⟨p, hp⟩ | ⟨c, hc⟩
  · cases hp
  · cases hc

/-- C13: when `loadSettings` succeeds from one prior state it succeeds from every prior
state, and the raw path, the image path, the mask and the patch list it leaves are the
same for both; a second call with the same settings returns the same value and leaves
the same state as the first one. -/
theorem loadSettings_replaces_state (w : World) (settings : QSettings) (iniFile : String)
    (d1 d2 : ColorSwatch) (h : (loadSettings w settings iniFile d1).2 = .ok true) :
    (loadSettings w settings iniFile d2).2 = .ok true ∧
      (loadSettings w settings iniFile d1).1.mRawFile
        = (loadSettings w settings iniFile d2).1.mRawFile ∧
      (loadSettings w settings iniFile d1).1.mImgFile
        = (loadSettings w settings iniFile d2).1.mImgFile ∧
      (loadSettings w settings iniFile d1).1.mMask
        = (loadSettings w settings iniFile d2).1.mMask ∧
      (loadSettings w settings iniFile d1).1.mPatchesList
        = (loadSettings w settings iniFile d2).1.mPatchesList ∧
      loadSettings w settings iniFile (loadSettings w settings iniFile d1).1
        = loadSettings w settings iniFile d1 := by
  have hv := loadSettings_ok_valid w settings iniFile d1 true h
  have s1 := loadSettings_state_of_valid w settings iniFile d1 hv
  have s2 := loadSettings_state_of_valid w settings iniFile d2 hv
  have s3 := loadSettings_state_of_valid w settings iniFile
    (loadSettings w settings iniFile d1).1 hv
  have r1 := (loadSettings_of_valid w settings iniFile d1 hv).2
  have r2 := (loadSettings_of_valid w settings iniFile d2 hv).2
  have r3 := (loadSettings_of_valid w settings iniFile
    (loadSettings w settings iniFile d1).1 hv).2
  refine ⟨by rw [r2, ← r1]; exact h, by rw [s1, s2], by rw [s1, s2], by rw [s1, s2],
    by rw [s1, s2], ?_⟩
  apply Prod.ext
  · rw [s3]
    conv_rhs => rw [s1]
    rw [s1]
  · rw [r3, ← r1]

/-- C13 (witness): `cfgFull` loads from the empty object and from `usedSwatch` alike. -/
theorem loadSettings_replaces_state_witness :
    (loadSettings demoWorld cfgFull "/data/swatch.ini" emptySwatch).2 = .ok true ∧
      ((loadSettings demoWorld cfgFull "/data/swatch.ini" usedSwatch).2 = .ok true ∧
        (loadSettings demoWorld cfgFull "/data/swatch.ini" emptySwatch).1.mRawFile
          = (loadSettings demoWorld cfgFull "/data/swatch.ini" usedSwatch).1.mRawFile ∧
        (loadSettings demoWorld cfgFull "/data/swatch.ini" emptySwatch).1.mImgFile
          = (loadSettings demoWorld cfgFull "/data/swatch.ini" usedSwatch).1.mImgFile ∧
        (loadSettings demoWorld cfgFull "/data/swatch.ini" emptySwatch).1.mMask
          = (loadSettings demoWorld cfgFull "/data/swatch.ini" usedSwatch).1.mMask ∧
        (loadSettings demoWorld cfgFull "/data/swatch.ini" emptySwatch).1.mPatchesList
          = (loadSettings demoWorld cfgFull "/data/swatch.ini" usedSwatch).1.mPatchesList ∧
        loadSettings demoWorld cfgFull "/data/swatch.ini"
            (loadSettings demoWorld cfgFull "/data/swatch.ini" emptySwatch).1
          = loadSettings demoWorld cfgFull "/data/swatch.ini" emptySwatch) :=
  ⟨by decide,
    loadSettings_replaces_state demoWorld cfgFull "/data/swatch.ini" emptySwatch usedSwatch
      (by decide)⟩

/-! ## loadSettings: which strips are read -/

theorem QSettings.group_of_absent (s : QSettings) (name : String)
    (h : name ∉ s.childGroups) : s.group name = Group.empty := by
  unfold QSettings.group
  have : List.lookup name s.groups = none := by
    rw [List.lookup_eq_none_iff]
    intro p hp
    simp only [bne_iff_ne, ne_eq]
    intro heq
    apply h
    unfold QSettings.childGroups
    exact List.mem_map.mpr ⟨p, hp, heq.symm⟩
  rw [this]
  rfl

/-- An index without a section is read as a strip without reflectances and without
`ISCCNBS` key: nothing is appended and nothing is raised. -/
theorem loadStrip_absent (settings : QSettings) (i : Nat) (v : StripVars)
    (h : stripName i ∉ settings.childGroups) :
    loadStrip settings i v = (⟨[], v.isccnbsList, v.patches⟩, none) := by
  unfold loadStrip
  rw [QSettings.group_of_absent settings _ h]
  simp [Group.empty, appendPatches]

/-- C11 (counterexample): `cfgGap` has the sections `strip:1`, `strip:3` and `strip:4`, so
the first index without a section is 2; `loadSettings` reads the indices 1, 2 and 3 and
returns with the patches of `strip:1` and of `strip:3`, not with those of `strip:1`
alone. -/
theorem loadSettings_reads_past_gap :
    pathsAndColorValid demoWorld cfgGap "/data/swatch.ini" = true ∧
      cfgGap.childGroups = ["colorswatch", "strip:1", "strip:3", "strip:4"] ∧
      stripName 1 ∈ cfgGap.childGroups ∧ stripName 2 ∉ cfgGap.childGroups ∧
      stripCount cfgGap = 3 ∧
      (loadSettings demoWorld cfgGap "/data/swatch.ini" emptySwatch).2 = .ok true ∧
      (loadSettings demoWorld cfgGap "/data/swatch.ini" emptySwatch).1.mPatchesList
        = [⟨5, some "white"⟩, ⟨7, some "black"⟩] ∧
      patchesOfStrips cfgGap 1 = [⟨5, some "white"⟩] := by
  decide

/-- C11 (amended): with valid paths and colour, `loadSettings` reads the indices
`1, 2, .., n` in increasing order, where `n` is the number of top-level sections whose
name contains `strip`: its patch list and its outcome are those of the strip loop over
these indices. An index without a section is read as an empty strip. When the sections
whose name contains `strip` are exactly `strip:1 .. strip:N`, then `n = N`. -/
theorem loadSettings_reads_counted_strips (w : World) (settings : QSettings)
    (iniFile : String) (d : ColorSwatch)
    (hv : pathsAndColorValid w settings iniFile = true) :
    (loadSettings w settings iniFile d).1.mPatchesList
        = (firstStrips settings (stripCount settings)).1.patches ∧
      (loadSettings w settings iniFile d).2
        = (match (firstStrips settings (stripCount settings)).2 with
          | some e => .error e
          | none => .ok true) ∧
      (∀ (n i : Nat) (v : StripVars), (stripLoop settings n i v).2 = none →
        stripLoop settings (n + 1) i v = loadStrip settings (i + n) (stripLoop settings n i v).1) ∧
      (∀ (i : Nat) (v : StripVars), stripName i ∉ settings.childGroups →
        loadStrip settings i v = (⟨[], v.isccnbsList, v.patches⟩, none)) ∧
      (∀ N : Nat,
        (filterContaining settings.childGroups "strip").Perm ((List.range' 1 N).map stripName) →
        stripCount settings = N) := by
  have hload := loadSettings_of_valid w settings iniFile d hv
  refine ⟨hload.1, hload.2, ?_, fun i v h => loadStrip_absent settings i v h, ?_⟩
  · intro n i v h
    rw [stripLoop_append settings n 1 i v h]
    rw [stripLoop]
    rcases loadStrip settings (i + n) (stripLoop settings n i v).1 with ⟨v1, e⟩
    cases e <;> simp [stripLoop]
  · intro N hperm
    unfold stripCount
    rw [hperm.length_eq]
    simp

/-- C11 (witness): `cfgLabelled` has the sections `strip:1` and `strip:2`. -/
theorem loadSettings_reads_counted_strips_witness :
    pathsAndColorValid demoWorld cfgLabelled "/data/swatch.ini" = true ∧
      ((loadSettings demoWorld cfgLabelled "/data/swatch.ini" emptySwatch).1.mPatchesList
          = (firstStrips cfgLabelled (stripCount cfgLabelled)).1.patches ∧
        (loadSettings demoWorld cfgLabelled "/data/swatch.ini" emptySwatch).2
          = (match (firstStrips cfgLabelled (stripCount cfgLabelled)).2 with
            | some e => .error e
            | none => .ok true) ∧
        (∀ (n i : Nat) (v : StripVars), (stripLoop cfgLabelled n i v).2 = none →
          stripLoop cfgLabelled (n + 1) i v
            = loadStrip cfgLabelled (i + n) (stripLoop cfgLabelled n i v).1) ∧
        (∀ (i : Nat) (v : StripVars), stripName i ∉ cfgLabelled.childGroups →
          loadStrip cfgLabelled i v = (⟨[], v.isccnbsList, v.patches⟩, none)) ∧
        (∀ N : Nat,
          (filterContaining cfgLabelled.childGroups "strip").Perm
              ((List.range' 1 N).map stripName) →
          stripCount cfgLabelled = N)) :=
  ⟨by decide,
    loadSettings_reads_counted_strips demoWorld cfgLabelled "/data/swatch.ini" emptySwatch
      (by decide)⟩

/-- When `loadSettings` returns normally, the raw file exists, the image file exists if
it is named, and the file of a mask section exists. -/
theorem loadSettings_ok_files (w : World) (settings : QSettings) (iniFile : String)
    (d : ColorSwatch) (b : Bool) (h : (loadSettings w settings iniFile d).2 = .ok b) :
    b = true ∧
      w.fileExists (rawFileOfSettings w settings iniFile) = true ∧
      (settings.childGroups.contains "mask" = true →
        w.fileExists (resolvePath w (w.cdUp iniFile) ((settings.group "mask").file.getD ""))
          = true) := by
  have hv := loadSettings_ok_valid w settings iniFile d b h
  have hr := (loadSettings_of_valid w settings iniFile d hv).2
  rw [h] at hr
  have hb : b = true := by
    cases hs : (stripLoop settings (stripCount settings) 1 ⟨[], [], []⟩).2 with
    | none => rw [hs] at hr; simp at hr; exact hr
    | some e => rw [hs] at hr; simp at hr
  unfold pathsAndColorValid at hv
  simp only [Bool.and_eq_true] at hv
  refine ⟨hb, hv.1.1, ?_⟩
  intro hm
  have := hv.2
  rw [if_pos hm] at this
  simp only [Bool.and_eq_true] at this
  exact this.1

/-- C12 (code at the failing input): `cfgNoReflectances` has a section `strip:1` without
the key `reflectances`; `loadSettings` returns true on it, with an empty patch list. -/
theorem loadSettings_accepts_strip_without_reflectances :
    stripName 1 ∈ cfgNoReflectances.childGroups ∧
      (cfgNoReflectances.group (stripName 1)).reflectances = none ∧
      (loadSettings demoWorld cfgNoReflectances "/data/swatch.ini" emptySwatch).2 = .ok true ∧
      (loadSettings demoWorld cfgNoReflectances "/data/swatch.ini" emptySwatch).1.mPatchesList
        = [] := by
  decide

/-- C18 (code at the failing input): in `cfgLeak` the section `strip:2` has no `ISCCNBS`
key, yet `loadSettings` returns true and the patch of `strip:2` carries `white`, the
first label of `strip:1`. -/
theorem loadSettings_reuses_labels_of_earlier_strip :
    stripLabels cfgLeak 1 = some ["white", "light gray"] ∧
      stripLabels cfgLeak 2 = none ∧ stripReflectances cfgLeak 2 = [7] ∧
      (loadSettings demoWorld cfgLeak "/data/swatch.ini" emptySwatch).2 = .ok true ∧
      (loadSettings demoWorld cfgLeak "/data/swatch.ini" emptySwatch).1.mPatchesList
        = [⟨5, some "white"⟩, ⟨6, some "light gray"⟩, ⟨7, some "white"⟩] := by
  decide

/-! ## loadSettings: labels that run out -/

/-- The append loop when the labels run out: the reflectances that still find a label
are appended with it, the next one is appended without label and named by the error. -/
theorem appendPatches_runout (labels : List String) :
    ∀ (rs : List Reflectance) (j : Nat) (ps : List ColorSwatchPatch),
      j ≤ labels.length → labels.length < j + rs.length →
      ∃ db, rs[labels.length - j]? = some db ∧
        appendPatches labels rs j ps
          = (ps ++ List.zipWith (fun r l => ⟨r, some l⟩) (rs.take (labels.length - j))
                (labels.drop j) ++ [⟨db, none⟩],
              some (Error.missingLabel db)) := by
  intro rs
  induction rs with
  | nil => intro j ps h1 h2; simp at h2; omega
  | cons db rest ih =>
    intro j ps h1 h2
    rcases Nat.eq_or_lt_of_le h1 with heq | hlt
    · refine ⟨db, by simp [heq], ?_⟩
      rw [appendPatches, dif_neg (by omega)]
      simp [heq]
    · obtain ⟨db2, hget, happ⟩ := ih (j + 1) (ps ++ [⟨db, some (labels.get ⟨j, hlt⟩)⟩])
        (by omega) (by simp at h2 ⊢; omega)
      have e : labels.length - j = (labels.length - (j + 1)) + 1 := by omega
      refine ⟨db2, by rw [e]; simpa using hget, ?_⟩
      rw [appendPatches, dif_pos hlt, happ, e, List.take_succ_cons,
        List.drop_eq_getElem_cons hlt]
      simp [-List.getElem_cons_drop]

/-- The append loop of strip `i` as coded, whatever `isccnbsList` holds: when the paths
and the colour are valid, the strips before strip `i` are read without error, strip
`i` is among the strips read, its lists are not mismatched and `isccnbsList` holds
fewer labels than the strip has reflectances, `loadSettings` fails with
missing-label, and the error names the reflectance at the index equal to the number
of labels held. The hypotheses force the strip to have no `ISCCNBS` key, so the labels
held are those that an earlier strip left in the variable. -/
theorem loadSettings_held_labels_run_out (w : World) (settings : QSettings) (iniFile : String)
    (d : ColorSwatch) (i : Nat) (hv : pathsAndColorValid w settings iniFile = true)
    (h1 : 1 ≤ i) (hi : i ≤ stripCount settings)
    (hprev : (firstStrips settings (i - 1)).2 = none)
    (hnomis : stripMismatched settings i = false)
    (hrun : (labelsAvailable settings i (firstStrips settings (i - 1)).1).length
      < (stripReflectances settings i).length) :
    ∃ db,
      (stripReflectances settings i)[(labelsAvailable settings i
        (firstStrips settings (i - 1)).1).length]? = some db ∧
      (loadSettings w settings iniFile d).2 = .error (Error.missingLabel db) ∧
      (loadSettings w settings iniFile d).1.mPatchesList
        = (firstStrips settings (i - 1)).1.patches
          ++ List.zipWith (fun r l => ⟨r, some l⟩)
              ((stripReflectances settings i).take
                (labelsAvailable settings i (firstStrips settings (i - 1)).1).length)
              (labelsAvailable settings i (firstStrips settings (i - 1)).1)
          ++ [⟨db, none⟩] := by
  have hload := loadSettings_of_valid w settings iniFile d hv
  unfold firstStrips at hprev hrun ⊢
  have hsplit := stripLoop_append settings (i - 1) (stripCount settings - (i - 1)) 1
    ⟨[], [], []⟩ hprev
  have e1 : i - 1 + (stripCount settings - (i - 1)) = stripCount settings := by omega
  have e2 : stripCount settings - (i - 1) = (stripCount settings - i) + 1 := by omega
  have e3 : 1 + (i - 1) = i := by omega
  rw [e1, e2, e3] at hsplit
  -- the iteration for strip `i`
  have hstrip : ∃ db v1,
      (stripReflectances settings i)[(labelsAvailable settings i
        (stripLoop settings (i - 1) 1 ⟨[], [], []⟩).1).length]? = some db ∧
      loadStrip settings i (stripLoop settings (i - 1) 1 ⟨[], [], []⟩).1
        = (v1, some (Error.missingLabel db)) ∧
      v1.patches = (stripLoop settings (i - 1) 1 ⟨[], [], []⟩).1.patches
          ++ List.zipWith (fun r l => ⟨r, some l⟩)
              ((stripReflectances settings i).take
                (labelsAvailable settings i (stripLoop settings (i - 1) 1 ⟨[], [], []⟩).1).length)
              (labelsAvailable settings i (stripLoop settings (i - 1) 1 ⟨[], [], []⟩).1)
          ++ [⟨db, none⟩] := by
    unfold stripMismatched stripLabels stripReflectances at hnomis
    unfold labelsAvailable stripLabels stripReflectances at hrun ⊢
    unfold loadStrip
    cases hl : (settings.group (stripName i)).ISCCNBS with
    | some labels =>
      rw [hl] at hnomis hrun
      simp at hnomis hrun
      omega
    | none =>
      rw [hl] at hrun
      simp only [Option.getD_none] at hrun ⊢
      obtain ⟨db, hget, happ⟩ := appendPatches_runout
        (stripLoop settings (i - 1) 1 ⟨[], [], []⟩).1.isccnbsList
        ((settings.group (stripName i)).reflectances.getD []) 0
        (stripLoop settings (i - 1) 1 ⟨[], [], []⟩).1.patches (Nat.zero_le _) (by omega)
      simp only [Nat.sub_zero, List.drop_zero] at hget happ
      refine ⟨db, ⟨(settings.group (stripName i)).reflectances.getD [],
        (stripLoop settings (i - 1) 1 ⟨[], [], []⟩).1.isccnbsList, _⟩, hget, ?_, rfl⟩
      simp only [hl, happ]
  obtain ⟨db, v1, hget, hls, hpatches⟩ := hstrip
  have hloop : stripLoop settings (stripCount settings) 1 ⟨[], [], []⟩
      = (v1, some (Error.missingLabel db)) := by
    rw [hsplit, stripLoop, hls]
  refine ⟨db, hget, ?_, ?_⟩
  · rw [hload.2, hloop]
  · rw [hload.1, hloop]
    exact hpatches

/-- In `cfgRunOut` the second strip has three reflectances and no `ISCCNBS` key while
`isccnbsList` still holds the two labels of the first strip: the error names the
third reflectance of the strip. -/
theorem loadSettings_held_labels_run_out_cfgRunOut :
    pathsAndColorValid demoWorld cfgRunOut "/data/swatch.ini" = true ∧
      1 ≤ 2 ∧ 2 ≤ stripCount cfgRunOut ∧
      (firstStrips cfgRunOut (2 - 1)).2 = none ∧
      stripMismatched cfgRunOut 2 = false ∧
      (labelsAvailable cfgRunOut 2 (firstStrips cfgRunOut (2 - 1)).1).length
        < (stripReflectances cfgRunOut 2).length ∧
      ∃ db,
        (stripReflectances cfgRunOut 2)[(labelsAvailable cfgRunOut 2
          (firstStrips cfgRunOut (2 - 1)).1).length]? = some db ∧
        (loadSettings demoWorld cfgRunOut "/data/swatch.ini" emptySwatch).2
          = .error (Error.missingLabel db) ∧
        (loadSettings demoWorld cfgRunOut "/data/swatch.ini" emptySwatch).1.mPatchesList
          = (firstStrips cfgRunOut (2 - 1)).1.patches
            ++ List.zipWith (fun r l => ⟨r, some l⟩)
                ((stripReflectances cfgRunOut 2).take
                  (labelsAvailable cfgRunOut 2 (firstStrips cfgRunOut (2 - 1)).1).length)
                (labelsAvailable cfgRunOut 2 (firstStrips cfgRunOut (2 - 1)).1)
            ++ [⟨db, none⟩] :=
  ⟨by decide, by decide, by decide, by decide, by decide, by decide,
    loadSettings_held_labels_run_out demoWorld cfgRunOut "/data/swatch.ini" emptySwatch 2
      (by decide) (by decide) (by decide) (by decide) (by decide) (by decide)⟩

/-! ## loadSettings: a strip whose own labels run out -/

theorem allLabelled_append (ps qs : List ColorSwatchPatch) (h1 : allLabelled ps)
    (h2 : allLabelled qs) : allLabelled (ps ++ qs) := by
  intro p hp
  rcases List.mem_append.mp hp with h | h
  · exact h1 p h
  · exact h2 p h

/-- The append loop keeps the list labelled, except for the patch it appends last when
it raises missing-label. -/
theorem appendPatches_labelled (labels : List String) :
    ∀ (rs : List Reflectance) (j : Nat) (ps : List ColorSwatchPatch), allLabelled ps →
      ((appendPatches labels rs j ps).2 = none ∧ allLabelled (appendPatches labels rs j ps).1) ∨
      (∃ db init, (appendPatches labels rs j ps).2 = some (Error.missingLabel db) ∧
        (appendPatches labels rs j ps).1 = init ++ [⟨db, none⟩] ∧ allLabelled init) := by
  intro rs
  induction rs with
  | nil => intro j ps h; left; exact ⟨rfl, h⟩
  | cons db rest ih =>
    intro j ps h
    rw [appendPatches]
    by_cases hj : j < labels.length
    · rw [dif_pos hj]
      apply ih
      apply allLabelled_append _ _ h
      intro p hp
      simp only [List.mem_singleton] at hp
      rw [hp]
      rfl
    · rw [dif_neg hj]
      right
      exact ⟨db, ps, rfl, rfl, h⟩

theorem loadStrip_labelled_for (settings : QSettings) (i : Nat) (v : StripVars)
    (h : allLabelled v.patches) :
    labelledFor (loadStrip settings i v).1.patches (loadStrip settings i v).2 := by
  unfold loadStrip
  cases hl : (settings.group (stripName i)).ISCCNBS with
  | some labels =>
    simp only [hl]
    by_cases hne : ((settings.group (stripName i)).reflectances.getD []).length ≠ labels.length
    · rw [if_pos hne]
      exact h
    · rw [if_neg hne]
      rcases appendPatches_labelled labels ((settings.group (stripName i)).reflectances.getD [])
        0 v.patches h with ⟨h1, h2⟩ | ⟨db, init, h1, h2, h3⟩
      · simp only [h1]; exact h2
      · simp only [h1]; exact ⟨init, h2, h3⟩
  | none =>
    simp only [hl]
    rcases appendPatches_labelled v.isccnbsList
      ((settings.group (stripName i)).reflectances.getD []) 0 v.patches h with
      ⟨h1, h2⟩ | ⟨db, init, h1, h2, h3⟩
    · simp only [h1]; exact h2
    · simp only [h1]; exact ⟨init, h2, h3⟩

theorem stripLoop_labelled_for (settings : QSettings) :
    ∀ (n i : Nat) (v : StripVars), allLabelled v.patches →
      labelledFor (stripLoop settings n i v).1.patches (stripLoop settings n i v).2 := by
  intro n
  induction n with
  | zero => intro i v h; exact h
  | succ n ih =>
    intro i v h
    have h1 := loadStrip_labelled_for settings i v h
    rw [stripLoop]
    rcases hs : loadStrip settings i v with ⟨v1, e⟩
    rw [hs] at h1
    cases e with
    | some e1 => exact h1
    | none => exact ih (i + 1) v1 h1

/-- C19 (counterexample): a first call on `cfgUnlabelled` fails with missing-label and
leaves an unlabelled patch; a second call on `cfgMissingRaw` from that state fails with
missing-file and the unlabelled patch is still in the list. -/
theorem loadSettings_unlabelled_patch_survives :
    (loadSettings demoWorld cfgUnlabelled "/data/swatch.ini" emptySwatch).2
        = .error (Error.missingLabel 5) ∧
      (loadSettings demoWorld cfgMissingRaw "/data/swatch.ini"
          (loadSettings demoWorld cfgUnlabelled "/data/swatch.ini" emptySwatch).1).2
        = .error (Error.missingFile "missing.raw") ∧
      (loadSettings demoWorld cfgMissingRaw "/data/swatch.ini"
          (loadSettings demoWorld cfgUnlabelled "/data/swatch.ini" emptySwatch).1).1.mPatchesList
        = [⟨5, none⟩] := by
  decide

/-- C19 (amended): for every configuration and prior state, when `loadSettings` returns
normally it returns true and every patch of the list carries a label; a patch without
label is in the list after the call only if the call failed with missing-label for the
reflectance of that patch, which is then the last element after labelled patches, or
if the call failed with missing-file or invalid-color and left the prior list, which
held the patch already, as it was. -/
theorem loadSettings_labels (w : World) (settings : QSettings) (iniFile : String)
    (d : ColorSwatch) :
    (∀ b, (loadSettings w settings iniFile d).2 = .ok b →
      b = true ∧ allLabelled (loadSettings w settings iniFile d).1.mPatchesList) ∧
    (∀ p ∈ (loadSettings w settings iniFile d).1.mPatchesList, p.munsellColor = none →
      (∃ db init, (loadSettings w settings iniFile d).2 = .error (Error.missingLabel db) ∧
          (loadSettings w settings iniFile d).1.mPatchesList = init ++ [p] ∧
          p = ⟨db, none⟩ ∧ allLabelled init) ∨
      ((loadSettings w settings iniFile d).1.mPatchesList = d.mPatchesList ∧
        ((∃ path, (loadSettings w settings iniFile d).2 = .error (Error.missingFile path)) ∨
          ∃ c, (loadSettings w settings iniFile d).2 = .error (Error.invalidColor c)))) := by
  have hnil : allLabelled ([] : List ColorSwatchPatch) := by intro p hp; simp at hp
  have hloop := stripLoop_labelled_for settings (stripCount settings) 1 ⟨[], [], []⟩ hnil
  constructor
  · intro b hb
    have hv := loadSettings_ok_valid w settings iniFile d b hb
    have hload := loadSettings_of_valid w settings iniFile d hv
    rw [hb] at hload
    cases hs : (stripLoop settings (stripCount settings) 1 ⟨[], [], []⟩).2 with
    | none =>
      rw [hs] at hload hloop
      refine ⟨by simpa using hload.2, ?_⟩
      rw [hload.1]
      exact hloop
    | some e =>
      rw [hs] at hload
      have := hload.2
      simp at this
  · intro p hp hnone
    by_cases hv : pathsAndColorValid w settings iniFile = true
    · left
      have hload := loadSettings_of_valid w settings iniFile d hv
      rw [hload.1] at hp ⊢
      rw [hload.2]
      have hcontra : allLabelled (stripLoop settings (stripCount settings) 1
          ⟨[], [], []⟩).1.patches → False := by
        intro hall
        have := hall p hp
        rw [hnone] at this
        simp at this
      cases hs : (stripLoop settings (stripCount settings) 1 ⟨[], [], []⟩).2 with
      | none => rw [hs] at hloop; exact (hcontra hloop).elim
      | some e =>
        rw [hs] at hloop
        cases e with
        | missingLabel db =>
          obtain ⟨init, hlist, hinit⟩ := hloop
          rw [hlist] at hp ⊢
          rcases List.mem_append.mp hp with h | h
          · have := hinit p h
            rw [hnone] at this
            simp at this
          · simp only [List.mem_singleton] at h
            exact ⟨db, init, rfl, by rw [h], h, hinit⟩
        | countMismatch k => exact (hcontra hloop).elim
        | missingFile _ => exact hloop.elim
        | invalidColor _ => exact hloop.elim
        | sizeMismatch => exact hloop.elim
        | inconsistentState => exact hloop.elim
        | maskDecodeError => exact hloop.elim
        | preconditionViolation => exact hloop.elim
        | pixelOutOfRange _ _ => exact hloop.elim
    · right
      simp only [Bool.not_eq_true] at hv
      obtain ⟨hlist, _, herr⟩ := loadSettings_of_invalid w settings iniFile d hv
      exact ⟨hlist, herr⟩

/-! ## loadImages: mask and raw image of the same size -/

/-- C15: with a mask whose image decodes and has the size that the plugin reports after
the raw load step: when the raw image loaded, `loadImages` returns true, the plugin is
the one left by `applyMask` for the loaded mask, and the object holds the loaded mask;
when the raw image did not load, which is the case when no raw path is set,
`loadImages` fails with inconsistent-state. -/
theorem loadImages_same_size (w : World) (d : ColorSwatch) (m : ColorSwatchMask)
    (img : QImage) (hm : d.mMask = some m) (hdec : w.decodeMask m.filePath = some img)
    (hw : (rawLoad w d).2.sizeWidth = (img.width : Int))
    (hh : (rawLoad w d).2.sizeHeight = (img.height : Int)) :
    ((rawLoad w d).1 = true →
      (loadImages w d).2 = .ok true ∧
        (loadImages w d).1.mImgPlg = w.applyMask { m with image := img } (rawLoad w d).2 ∧
        (loadImages w d).1.mMask = some { m with image := img }) ∧
    ((rawLoad w d).1 = false → (loadImages w d).2 = .error Error.inconsistentState) ∧
    (d.mRawFile = "" → (rawLoad w d).1 = false) := by
  have hsize : ¬ ((rawLoad w d).2.sizeHeight ≠ (img.height : Int)
      ∨ (rawLoad w d).2.sizeWidth ≠ (img.width : Int)) := by
    simp [hw, hh]
  refine ⟨?_, ?_, ?_⟩
  · intro hres
    simp only [loadImages, hm, ColorSwatchMask.loadImage, hdec, ColorSwatchMask.getImage]
    simp only [if_true]
    rw [if_neg hsize]
    simp [hres]
  · intro hres
    simp only [loadImages, hm, ColorSwatchMask.loadImage, hdec, ColorSwatchMask.getImage]
    simp only [if_true]
    rw [if_neg hsize]
    simp [hres]
  · intro hraw
    simp [rawLoad, hraw]

/-- C15 (witness): the raw image `swatch.raw` and the mask `mask64.png` are both 6 x 4. -/
theorem loadImages_same_size_witness :
    swatchSameSize.mMask = some (ColorSwatchMask.new "mask64.png") ∧
      maskWorld.decodeMask (ColorSwatchMask.new "mask64.png").filePath = some maskTwoRects ∧
      (rawLoad maskWorld swatchSameSize).2.sizeWidth = (maskTwoRects.width : Int) ∧
      (rawLoad maskWorld swatchSameSize).2.sizeHeight = (maskTwoRects.height : Int) ∧
      (rawLoad maskWorld swatchSameSize).1 = true ∧
      (((rawLoad maskWorld swatchSameSize).1 = true →
        (loadImages maskWorld swatchSameSize).2 = .ok true ∧
          (loadImages maskWorld swatchSameSize).1.mImgPlg
            = maskWorld.applyMask { ColorSwatchMask.new "mask64.png" with image := maskTwoRects }
                (rawLoad maskWorld swatchSameSize).2 ∧
          (loadImages maskWorld swatchSameSize).1.mMask
            = some { ColorSwatchMask.new "mask64.png" with image := maskTwoRects }) ∧
      ((rawLoad maskWorld swatchSameSize).1 = false →
        (loadImages maskWorld swatchSameSize).2 = .error Error.inconsistentState) ∧
      (swatchSameSize.mRawFile = "" → (rawLoad maskWorld swatchSameSize).1 = false)) :=
  ⟨rfl, rfl, by decide, by decide, by decide,
    loadImages_same_size maskWorld swatchSameSize (ColorSwatchMask.new "mask64.png")
      maskTwoRects rfl rfl (by decide) (by decide)⟩

/-! ## fillPatchesPixelsFromMask: the returned value -/

/-- The outcome of `fillPatchesPixelsFromMask` on an object with a mask is the scan of
the mask image against the background value used, with the value false. -/
theorem fillPatches_eq_segment (w : World) (d : ColorSwatch) (m : ColorSwatchMask)
    (hm : d.mMask = some m) :
    (fillPatchesPixelsFromMask w d).2
      = (segment (backgroundUsed w m) m.image).map (fun st => (false, st)) := by
  unfold backgroundUsed
  cases hb : m.backgroundColor with
  | none =>
    simp only [fillPatchesPixelsFromMask, hm, ColorSwatchMask.haveBackgroundColor, hb,
      Option.isSome_none, Bool.not_false, if_true, ColorSwatchMask.getImage,
      ColorSwatchMask.setBackgroundColor, ColorSwatchMask.getBackgroundColor, Option.getD_some]
    cases segment _ m.image <;> rfl
  | some c =>
    simp only [fillPatchesPixelsFromMask, hm, ColorSwatchMask.haveBackgroundColor, hb,
      Option.isSome_some, Bool.not_true, Bool.false_eq_true, if_false, ColorSwatchMask.getImage,
      ColorSwatchMask.getBackgroundColor, Option.getD_some]
    cases segment _ m.image <;> rfl

/-- C20: whenever `fillPatchesPixelsFromMask` returns normally, the value it returns is
false, whatever the number of patches it extracted and saved. -/
theorem fillPatches_returns_false (w : World) (d : ColorSwatch) (r : Bool × SegState)
    (h : (fillPatchesPixelsFromMask w d).2 = .ok r) : r.1 = false := by
  cases hm : d.mMask with
  | none =>
    rw [fillPatches_no_mask w d hm] at h
    cases h
  | some m =>
    rw [fillPatches_eq_segment w d m hm] at h
    cases hs : segment (backgroundUsed w m) m.image with
    | error e => rw [hs] at h; cases h
    | ok st1 =>
      rw [hs] at h
      simp only [Except.map, Except.ok.injEq] at h
      rw [← h]

/-- C20 (witness): on `swatchLoadedMask` the call extracts and saves two patches and
returns false. -/
theorem fillPatches_returns_false_witness :
    (fillPatchesPixelsFromMask demoWorld swatchLoadedMask).2
        = .ok ((fillPatchesPixelsFromMask demoWorld swatchLoadedMask).2.toOption.getD
            (true, SegState.start QImage.null)) ∧
      ((fillPatchesPixelsFromMask demoWorld swatchLoadedMask).2.toOption.getD
          (true, SegState.start QImage.null)).2.patches.length = 2 ∧
      ((fillPatchesPixelsFromMask demoWorld swatchLoadedMask).2.toOption.getD
          (true, SegState.start QImage.null)).2.saved.length = 2 ∧
      ((fillPatchesPixelsFromMask demoWorld swatchLoadedMask).2.toOption.getD
          (true, SegState.start QImage.null)).1 = false :=
  ⟨rfl, by decide, by decide,
    fillPatches_returns_false demoWorld swatchLoadedMask
      ((fillPatchesPixelsFromMask demoWorld swatchLoadedMask).2.toOption.getD
        (true, SegState.start QImage.null)) rfl⟩

/-! ## The scan and the rectangles it extracts -/

/-- The record of rectangles does not change what the scan does. -/
theorem foldlM_visitTraced_fst (bgRgb : QRgb) :
    ∀ (l : List (Nat × Nat)) (st : SegState) (rects : List Rect),
      (l.foldlM (visitTraced bgRgb) (st, rects)).map Prod.fst
        = l.foldlM (fun acc p => visit bgRgb p.2 p.1 acc) st := by
  intro l
  induction l with
  | nil => intro st rects; rfl
  | cons q t ih =>
    intro st rects
    rw [List.foldlM_cons, List.foldlM_cons]
    unfold visitTraced
    simp only
    cases hv : visit bgRgb q.2 q.1 st with
    | error e => rfl
    | ok st1 =>
      simp only
      split_ifs
      · exact ih st1 _
      · exact ih st1 _

theorem segmentTraced_fst (bgRgb : QRgb) (mask : QImage) :
    (segmentTraced bgRgb mask).map Prod.fst = segment bgRgb mask := by
  rw [segment_eq_scanOrder]
  exact foldlM_visitTraced_fst bgRgb _ _ _

/-- The two ways in which the traced scan body returns: at a background pixel nothing
changes; at another pixel both growth loops stopped inside the image, the patch of
the grown rectangle is appended and the rectangle is painted and recorded. -/
theorem visitTraced_ok (bgRgb : QRgb) (st st1 : SegState) (rects rects1 : List Rect)
    (q : Nat × Nat) (h : visitTraced bgRgb (st, rects) q = .ok (st1, rects1)) :
    (¬ (st.mask.valid q.1 q.2 = true ∧ st.mask.data q.1 q.2 ≠ bgRgb) ∧ st1 = st ∧
      rects1 = rects) ∨
    ((st.mask.valid q.1 q.2 = true ∧ st.mask.data q.1 q.2 ≠ bgRgb) ∧
      ∃ maxRow maxCol patch,
        growMaxRow st.mask bgRgb q.1 (st.mask.height + 1) q.2 = .ok maxRow ∧
        growMaxCol st.mask bgRgb q.2 (st.mask.width + 1) q.1 = .ok maxCol ∧
        st1.patches = st.patches ++ [patch] ∧
        rects1 = rects ++ [⟨q.1, q.2, maxCol - q.1, maxRow - q.2⟩] ∧
        patch.width = maxCol - q.1 ∧ patch.height = maxRow - q.2 ∧
        st1.mask.width = st.mask.width ∧ st1.mask.height = st.mask.height ∧
        (∀ c r, c < maxCol - q.1 → r < maxRow - q.2 →
          patch.data c r = st.mask.data (q.1 + c) (q.2 + r)) ∧
        (∀ x y, st1.mask.data x y
          = if (q.2 ≤ y ∧ y < maxRow) ∧ q.1 ≤ x ∧ x < maxCol then bgRgb
            else st.mask.data x y)) := by
  unfold visitTraced at h
  simp only at h
  by_cases hc : st.mask.valid q.1 q.2 = true ∧ st.mask.data q.1 q.2 ≠ bgRgb
  · right
    refine ⟨hc, ?_⟩
    have hvis : visit bgRgb q.2 q.1 st = extractPatch bgRgb q.1 q.2 st := by
      unfold visit
      rw [if_pos hc.1, if_pos hc.2]
    rw [hvis] at h
    cases hex : extractPatch bgRgb q.1 q.2 st with
    | error e => rw [hex] at h; simp at h
    | ok st2 =>
      rw [hex] at h
      simp only [if_pos hc, Except.ok.injEq, Prod.mk.injEq] at h
      obtain ⟨h1, h2⟩ := h
      subst h1
      obtain ⟨maxRow, maxCol, hr, hcg⟩ := extractPatch_ok_grow _ _ _ _ _ hex
      obtain ⟨patch, mask1, hex2, hw, hh, hw2, hh2, hd, hm⟩ :=
        extractPatch_of_grow bgRgb q.1 q.2 st maxRow maxCol hr hcg
      rw [hex2] at hex
      simp only [Except.ok.injEq] at hex
      subst hex
      refine ⟨maxRow, maxCol, patch, hr, hcg, rfl, ?_, hw, hh, hw2, hh2, hd, hm⟩
      rw [← h2]
      simp [grownRect, hr, hcg]
  · left
    have hvis : visit bgRgb q.2 q.1 st = .ok st := by
      apply visit_background
      intro hv
      by_contra hne
      exact hc ⟨hv, hne⟩
    rw [hvis] at h
    simp only [if_neg hc, Except.ok.injEq, Prod.mk.injEq] at h
    exact ⟨hc, h.1.symm, h.2.symm⟩

theorem forall₂_concat {α β : Type} (R : α → β → Prop) :
    ∀ (l1 : List α) (l2 : List β) (a : α) (b : β), List.Forall₂ R l1 l2 → R a b →
      List.Forall₂ R (l1 ++ [a]) (l2 ++ [b]) := by
  intro l1 l2 a b h hab
  induction h with
  | nil => exact List.Forall₂.cons hab List.Forall₂.nil
  | cons h1 _ ih => exact List.Forall₂.cons h1 ih

theorem ScanInv.start (input : QImage) (bgRgb : QRgb) :
    ScanInv input bgRgb [] (SegState.start input) [] where
  width_eq := rfl
  height_eq := rfl
  painted := by intro R hR; simp at hR
  untouched := by intro x y _; rfl
  apart := List.Pairwise.nil
  inside := by intro R hR; simp at hR
  visited_bg := by intro q hq; simp at hq
  patches_eq := List.Forall₂.nil

/-- One step of the scan keeps the invariant. -/
theorem ScanInv.step (input : QImage) (bgRgb : QRgb) (visited : List (Nat × Nat))
    (st st1 : SegState) (rects rects1 : List Rect) (q : Nat × Nat)
    (hinv : ScanInv input bgRgb visited st rects)
    (hbefore : ∀ q1 ∈ visited, scansBefore q1 q)
    (hq : q.1 < input.width ∧ q.2 < input.height)
    (h : visitTraced bgRgb (st, rects) q = .ok (st1, rects1)) :
    ScanInv input bgRgb (visited ++ [q]) st1 rects1 := by
  have hvalid : st.mask.valid q.1 q.2 = true :=
    (QImage.valid_iff _ _ _).mpr ⟨by rw [hinv.width_eq]; exact hq.1,
      by rw [hinv.height_eq]; exact hq.2⟩
  rcases visitTraced_ok bgRgb st st1 rects rects1 q h with
    ⟨hc, h1, h2⟩ | ⟨hc, maxRow, maxCol, patch, hr, hcg, hp, hrs, hpw, hph, hw, hh, hd, hm⟩
  · subst h1
    subst h2
    have hbg : st1.mask.data q.1 q.2 = bgRgb := by
      by_contra hne
      exact hc ⟨hvalid, hne⟩
    exact {
      width_eq := hinv.width_eq
      height_eq := hinv.height_eq
      painted := hinv.painted
      untouched := hinv.untouched
      apart := hinv.apart
      inside := fun R hR =>
        ⟨(hinv.inside R hR).1, (hinv.inside R hR).2.1,
          List.mem_append_left _ (hinv.inside R hR).2.2⟩
      visited_bg := by
        intro q1 hq1
        rcases List.mem_append.mp hq1 with h3 | h3
        · exact hinv.visited_bg q1 h3
        · simp only [List.mem_singleton] at h3
          rw [h3]; exact hbg
      patches_eq := hinv.patches_eq }
  · obtain ⟨hr1, hr2, hr3⟩ := growMaxRow_ok _ _ _ _ _ _ hr
    obtain ⟨hc1, hc2, hc3⟩ := growMaxCol_ok _ _ _ _ _ _ hcg
    have hstart : st.mask.pixel q.1 q.2 = some (st.mask.data q.1 q.2) :=
      QImage.pixel_of_valid _ _ _ ((QImage.valid_iff _ _ _).mp hvalid).1
        ((QImage.valid_iff _ _ _).mp hvalid).2
    have hrlt : q.2 < maxRow := by
      rcases Nat.eq_or_lt_of_le hr1 with heq | hlt
      · subst heq; rw [hstart] at hr2; simp only [Option.some.injEq] at hr2
        exact absurd hr2 hc.2
      · exact hlt
    have hclt : q.1 < maxCol := by
      rcases Nat.eq_or_lt_of_le hc1 with heq | hlt
      · subst heq; rw [hstart] at hc2; simp only [Option.some.injEq] at hc2
        exact absurd hc2 hc.2
      · exact hlt
    have hrin := ((QImage.pixel_eq_some _ _ _ _).mp hr2).1
    have hcin := ((QImage.pixel_eq_some _ _ _ _).mp hc2).1
    rw [hinv.width_eq, hinv.height_eq] at hrin hcin
    -- membership in the new rectangle
    have hcont : ∀ x y, (⟨q.1, q.2, maxCol - q.1, maxRow - q.2⟩ : Rect).contains x y
        ↔ ((q.2 ≤ y ∧ y < maxRow) ∧ q.1 ≤ x ∧ x < maxCol) := by
      intro x y
      unfold Rect.contains
      simp only
      constructor
      · intro hxy; omega
      · intro hxy; omega
    -- the top row of the new rectangle is not background in the working mask
    have htop : ∀ x, q.1 ≤ x → x < maxCol → st.mask.data x q.2 ≠ bgRgb := by
      intro x h1 h2
      obtain ⟨p, hp1, hp2⟩ := hc3 x h1 h2
      have := ((QImage.pixel_eq_some _ _ _ _).mp hp1).2
      rw [this]; exact hp2
    -- the new rectangle meets no earlier one
    have hapart : ∀ R ∈ rects, Rect.apart R ⟨q.1, q.2, maxCol - q.1, maxRow - q.2⟩ := by
      intro R hR x y hxy
      obtain ⟨hRc, hnew⟩ := hxy
      rw [hcont] at hnew
      have hb := hbefore _ (hinv.inside R hR).2.2
      unfold scansBefore at hb
      simp only at hb
      have hrow : R.contains x q.2 := by
        unfold Rect.contains at hRc ⊢
        omega
      exact htop x hnew.2.1 hnew.2.2 (hinv.painted R hR x q.2 hrow)
    subst hrs
    exact {
      width_eq := by rw [hw, hinv.width_eq]
      height_eq := by rw [hh, hinv.height_eq]
      painted := by
        intro R hR x y hxy
        rw [hm]
        by_cases hcond : (q.2 ≤ y ∧ y < maxRow) ∧ q.1 ≤ x ∧ x < maxCol
        · rw [if_pos hcond]
        · rw [if_neg hcond]
          rcases List.mem_append.mp hR with h3 | h3
          · exact hinv.painted R h3 x y hxy
          · simp only [List.mem_singleton] at h3
            rw [h3, hcont] at hxy
            exact absurd hxy hcond
      untouched := by
        intro x y hno
        rw [hm]
        have hn2 : ¬ ((q.2 ≤ y ∧ y < maxRow) ∧ q.1 ≤ x ∧ x < maxCol) := by
          intro hcond
          exact hno _ (List.mem_append_right _ (List.mem_singleton_self _)) ((hcont x y).mpr hcond)
        rw [if_neg hn2]
        exact hinv.untouched x y (fun R hR => hno R (List.mem_append_left _ hR))
      apart := by
        rw [List.pairwise_append]
        refine ⟨hinv.apart, List.pairwise_singleton _ _, ?_⟩
        intro a ha b hb
        simp only [List.mem_singleton] at hb
        rw [hb]
        exact hapart a ha
      inside := by
        intro R hR
        rcases List.mem_append.mp hR with h3 | h3
        · exact ⟨(hinv.inside R h3).1, (hinv.inside R h3).2.1,
            List.mem_append_left _ (hinv.inside R h3).2.2⟩
        · simp only [List.mem_singleton] at h3
          rw [h3]
          refine ⟨⟨by simp only; omega, by simp only; omega⟩,
            ⟨by simp only; omega, by simp only; omega⟩, ?_⟩
          exact List.mem_append_right _ (List.mem_singleton_self _)
      visited_bg := by
        intro q1 hq1
        rw [hm]
        by_cases hcond : (q.2 ≤ q1.2 ∧ q1.2 < maxRow) ∧ q.1 ≤ q1.1 ∧ q1.1 < maxCol
        · rw [if_pos hcond]
        · rw [if_neg hcond]
          rcases List.mem_append.mp hq1 with h3 | h3
          · exact hinv.visited_bg q1 h3
          · simp only [List.mem_singleton] at h3
            rw [h3] at hcond
            exact absurd ⟨⟨le_refl _, hrlt⟩, le_refl _, hclt⟩ hcond
      patches_eq := by
        rw [hp]
        apply forall₂_concat _ _ _ _ _ hinv.patches_eq
        refine ⟨hpw, hph, ?_⟩
        intro c r hc4 hr4
        simp only at hc4 hr4 ⊢
        rw [hd c r hc4 hr4]
        apply hinv.untouched
        intro R hR hRc
        exact hapart R hR _ _ ⟨hRc, (hcont _ _).mpr (by omega)⟩ }

/-- The invariant holds at the end of every scan that returns. -/
theorem ScanInv.run (input : QImage) (bgRgb : QRgb) (l : List (Nat × Nat))
    (hsorted : l.Pairwise scansBefore)
    (hl : ∀ q ∈ l, q.1 < input.width ∧ q.2 < input.height) :
    ∀ (suf visited : List (Nat × Nat)) (st st1 : SegState) (rects rects1 : List Rect),
      visited ++ suf = l → ScanInv input bgRgb visited st rects →
      suf.foldlM (visitTraced bgRgb) (st, rects) = .ok (st1, rects1) →
      ScanInv input bgRgb l st1 rects1 := by
  intro suf
  induction suf with
  | nil =>
    intro visited st st1 rects rects1 hvs hinv h
    simp only [List.foldlM_nil, pure, Except.pure, Except.ok.injEq, Prod.mk.injEq] at h
    rw [List.append_nil] at hvs
    rw [← hvs, ← h.1, ← h.2]
    exact hinv
  | cons q t ih =>
    intro visited st st1 rects rects1 hvs hinv h
    rw [List.foldlM_cons] at h
    cases hstep : visitTraced bgRgb (st, rects) q with
    | error e => rw [hstep] at h; simp [bind, Except.bind] at h
    | ok acc =>
      obtain ⟨st2, rects2⟩ := acc
      rw [hstep] at h
      simp only [bind, Except.bind] at h
      have hsplit : l.Pairwise scansBefore := hsorted
      rw [← hvs, List.pairwise_append] at hsplit
      have hbefore : ∀ q1 ∈ visited, scansBefore q1 q :=
        fun q1 hq1 => hsplit.2.2 q1 hq1 q (List.mem_cons_self _ _)
      have hq : q.1 < input.width ∧ q.2 < input.height :=
        hl q (by rw [← hvs]; exact List.mem_append_right _ (List.mem_cons_self _ _))
      have hinv2 := ScanInv.step input bgRgb visited st st2 rects rects2 q hinv hbefore hq hstep
      exact ih (visited ++ [q]) st2 st1 rects2 rects1 (by rw [← hvs]; simp) hinv2 h

/-- The invariant at the end of a traced scan of a mask. -/
theorem segmentTraced_inv (bgRgb : QRgb) (mask : QImage) (st : SegState) (rects : List Rect)
    (h : segmentTraced bgRgb mask = .ok (st, rects)) :
    ScanInv mask bgRgb (scanOrder mask.width mask.height) st rects :=
  ScanInv.run mask bgRgb _ (scanOrder_sorted _ _)
    (fun _ hq => (mem_scanOrder _ _ _).mp hq) _ [] _ _ _ _ rfl (ScanInv.start mask bgRgb) h

/-! ## Growth loops that stay inside the image, and those that do not -/

/-- The loop of line 290 returns as soon as some pixel of the column, from the start
downwards, has the background colour. -/
theorem growMaxRow_total (mask : QImage) (bgRgb : QRgb) (col : Nat) :
    ∀ (fuel r0 y : Nat), r0 ≤ y → y - r0 < fuel → mask.pixel col y = some bgRgb →
      ∃ maxRow, growMaxRow mask bgRgb col fuel r0 = .ok maxRow := by
  intro fuel
  induction fuel with
  | zero => intro r0 y _ h; omega
  | succ fuel ih =>
    intro r0 y hle hf hbg
    have hin := ((QImage.pixel_eq_some _ _ _ _).mp hbg).1
    rw [growMaxRow, QImage.pixel_of_valid _ _ _ hin.1 (by omega)]
    simp only
    by_cases hp : mask.data col r0 ≠ bgRgb
    · rw [if_pos hp]
      have hne : r0 ≠ y := by
        intro heq
        subst heq
        exact hp ((QImage.pixel_eq_some _ _ _ _).mp hbg).2
      exact ih (r0 + 1) y (by omega) (by omega) hbg
    · rw [if_neg hp]
      exact ⟨r0, rfl⟩

/-- The loop of line 291 returns as soon as some pixel of the row, from the start to
the right, has the background colour. -/
theorem growMaxCol_total (mask : QImage) (bgRgb : QRgb) (row : Nat) :
    ∀ (fuel c0 x : Nat), c0 ≤ x → x - c0 < fuel → mask.pixel x row = some bgRgb →
      ∃ maxCol, growMaxCol mask bgRgb row fuel c0 = .ok maxCol := by
  intro fuel
  induction fuel with
  | zero => intro c0 x _ h; omega
  | succ fuel ih =>
    intro c0 x hle hf hbg
    have hin := ((QImage.pixel_eq_some _ _ _ _).mp hbg).1
    rw [growMaxCol, QImage.pixel_of_valid _ _ _ (by omega) hin.2]
    simp only
    by_cases hp : mask.data c0 row ≠ bgRgb
    · rw [if_pos hp]
      have hne : c0 ≠ x := by
        intro heq
        subst heq
        exact hp ((QImage.pixel_eq_some _ _ _ _).mp hbg).2
      exact ih (c0 + 1) x (by omega) (by omega) hbg
    · rw [if_neg hp]
      exact ⟨c0, rfl⟩

theorem QImage.pixel_eq_none (img : QImage) (col row : Nat) (h : img.pixel col row = none) :
    img.valid col row = false := by
  unfold QImage.pixel at h
  by_cases hv : img.valid col row = true
  · rw [if_pos hv] at h; cases h
  · simpa using hv

/-- The loop of line 290 only fails by reading a pixel outside the image. -/
theorem growMaxRow_error (mask : QImage) (bgRgb : QRgb) (col : Nat) (e : Error) :
    ∀ (fuel r0 : Nat), mask.height < fuel + r0 →
      growMaxRow mask bgRgb col fuel r0 = .error e →
      ∃ r, e = Error.pixelOutOfRange col r ∧ mask.valid col r = false := by
  intro fuel
  induction fuel with
  | zero =>
    intro r0 hf h
    simp only [growMaxRow, Except.error.injEq] at h
    refine ⟨r0, h.symm, ?_⟩
    simp only [QImage.valid, Bool.and_eq_false_imp, decide_eq_true_eq, decide_eq_false_iff_not]
    intro _; omega
  | succ fuel ih =>
    intro r0 hf h
    rw [growMaxRow] at h
    cases hp : mask.pixel col r0 with
    | none =>
      rw [hp] at h
      simp only [Except.error.injEq] at h
      exact ⟨r0, h.symm, QImage.pixel_eq_none _ _ _ hp⟩
    | some p =>
      rw [hp] at h
      simp only at h
      by_cases hne : p ≠ bgRgb
      · rw [if_pos hne] at h
        exact ih (r0 + 1) (by omega) h
      · rw [if_neg hne] at h
        cases h

/-- The loop of line 291 only fails by reading a pixel outside the image. -/
theorem growMaxCol_error (mask : QImage) (bgRgb : QRgb) (row : Nat) (e : Error) :
    ∀ (fuel c0 : Nat), mask.width < fuel + c0 →
      growMaxCol mask bgRgb row fuel c0 = .error e →
      ∃ c, e = Error.pixelOutOfRange c row ∧ mask.valid c row = false := by
  intro fuel
  induction fuel with
  | zero =>
    intro c0 hf h
    simp only [growMaxCol, Except.error.injEq] at h
    refine ⟨c0, h.symm, ?_⟩
    simp only [QImage.valid, Bool.and_eq_false_imp, decide_eq_true_eq, decide_eq_false_iff_not]
    intro h1; omega
  | succ fuel ih =>
    intro c0 hf h
    rw [growMaxCol] at h
    cases hp : mask.pixel c0 row with
    | none =>
      rw [hp] at h
      simp only [Except.error.injEq] at h
      exact ⟨c0, h.symm, QImage.pixel_eq_none _ _ _ hp⟩
    | some p =>
      rw [hp] at h
      simp only at h
      by_cases hne : p ≠ bgRgb
      · rw [if_pos hne] at h
        exact ih (c0 + 1) (by omega) h
      · rw [if_neg hne] at h
        cases h

/-- The scan body only fails by a read of a growth loop outside the image. -/
theorem visit_error (bgRgb : QRgb) (row col : Nat) (st : SegState) (e : Error)
    (h : visit bgRgb row col st = .error e) :
    ∃ c r, e = Error.pixelOutOfRange c r ∧ st.mask.valid c r = false := by
  unfold visit at h
  split_ifs at h with hv hne
  cases hr : growMaxRow st.mask bgRgb col (st.mask.height + 1) row with
  | error e1 =>
    have he : extractPatch bgRgb col row st = .error e1 := by
      unfold extractPatch; rw [hr]; rfl
    rw [he] at h
    simp only [Except.error.injEq] at h
    subst h
    obtain ⟨r, h1, h2⟩ := growMaxRow_error _ _ _ _ _ _ (by omega) hr
    exact ⟨col, r, h1, h2⟩
  | ok maxRow =>
    cases hc : growMaxCol st.mask bgRgb row (st.mask.width + 1) col with
    | error e1 =>
      have he : extractPatch bgRgb col row st = .error e1 := by
        unfold extractPatch; rw [hr, hc]; rfl
      rw [he] at h
      simp only [Except.error.injEq] at h
      subst h
      obtain ⟨c, h1, h2⟩ := growMaxCol_error _ _ _ _ _ _ (by omega) hc
      exact ⟨c, row, h1, h2⟩
    | ok maxCol =>
      obtain ⟨patch, mask1, hex, _⟩ := extractPatch_of_grow bgRgb col row st maxRow maxCol hr hc
      rw [hex] at h
      cases h

theorem visit_dims (bgRgb : QRgb) (row col : Nat) (st st1 : SegState)
    (h : visit bgRgb row col st = .ok st1) :
    st1.mask.width = st.mask.width ∧ st1.mask.height = st.mask.height := by
  unfold visit at h
  split_ifs at h with hv hne
  · obtain ⟨maxRow, maxCol, hr, hc⟩ := extractPatch_ok_grow _ _ _ _ _ h
    obtain ⟨patch, mask1, hex, _, _, hw, hh, _⟩ :=
      extractPatch_of_grow bgRgb col row st maxRow maxCol hr hc
    rw [hex] at h
    simp only [Except.ok.injEq] at h
    subst h
    exact ⟨hw, hh⟩
  · simp only [Except.ok.injEq] at h; subst h; exact ⟨rfl, rfl⟩
  · simp only [Except.ok.injEq] at h; subst h; exact ⟨rfl, rfl⟩

/-- A scan only fails by a read of a growth loop outside the image. -/
theorem visits_error (bgRgb : QRgb) (width height : Nat) (e : Error) :
    ∀ (l : List (Nat × Nat)) (st : SegState),
      st.mask.width = width → st.mask.height = height →
      l.foldlM (fun acc p => visit bgRgb p.2 p.1 acc) st = .error e →
      ∃ c r, e = Error.pixelOutOfRange c r ∧ ¬ (c < width ∧ r < height) := by
  intro l
  induction l with
  | nil => intro st _ _ h; cases h
  | cons q t ih =>
    intro st hw hh h
    rw [List.foldlM_cons] at h
    cases hv : visit bgRgb q.2 q.1 st with
    | error e1 =>
      rw [hv] at h
      simp only [bind, Except.bind, Except.error.injEq] at h
      subst h
      obtain ⟨c, r, h1, h2⟩ := visit_error _ _ _ _ _ hv
      refine ⟨c, r, h1, ?_⟩
      intro hin
      have : st.mask.valid c r = true := (QImage.valid_iff _ _ _).mpr (by rw [hw, hh]; exact hin)
      rw [this] at h2
      cases h2
    | ok st1 =>
      rw [hv] at h
      simp only [bind, Except.bind] at h
      obtain ⟨h1, h2⟩ := visit_dims _ _ _ _ _ hv
      exact ih st1 (by rw [h1, hw]) (by rw [h2, hh]) h

/-- With a background last row and last column the traced scan body returns. -/
theorem visitTraced_total (input : QImage) (bgRgb : QRgb) (visited : List (Nat × Nat))
    (st : SegState) (rects : List Rect) (q : Nat × Nat)
    (hinv : ScanInv input bgRgb visited st rects)
    (hq : q.1 < input.width ∧ q.2 < input.height)
    (hrow : ∀ x, x < input.width → input.data x (input.height - 1) = bgRgb)
    (hcol : ∀ y, y < input.height → input.data (input.width - 1) y = bgRgb) :
    ∃ acc, visitTraced bgRgb (st, rects) q = .ok acc := by
  have hwork : ∀ x y, (y = input.height - 1 ∨ x = input.width - 1) →
      x < input.width → y < input.height → st.mask.data x y = bgRgb := by
    intro x y hedge hx hy
    by_cases hex : ∃ R ∈ rects, R.contains x y
    · obtain ⟨R, hR, hc⟩ := hex
      exact hinv.painted R hR x y hc
    · rw [hinv.untouched x y (fun R hR hc => hex ⟨R, hR, hc⟩)]
      rcases hedge with h | h
      · rw [h]; exact hrow x hx
      · rw [h]; exact hcol y hy
  unfold visitTraced
  simp only
  by_cases hc : st.mask.valid q.1 q.2 = true ∧ st.mask.data q.1 q.2 ≠ bgRgb
  · have hvis : visit bgRgb q.2 q.1 st = extractPatch bgRgb q.1 q.2 st := by
      unfold visit
      rw [if_pos hc.1, if_pos hc.2]
    have hbelow : st.mask.pixel q.1 (input.height - 1) = some bgRgb := by
      rw [QImage.pixel_eq_some]
      refine ⟨⟨by rw [hinv.width_eq]; exact hq.1, by rw [hinv.height_eq]; omega⟩, ?_⟩
      exact hwork _ _ (Or.inl rfl) hq.1 (by omega)
    have hright : st.mask.pixel (input.width - 1) q.2 = some bgRgb := by
      rw [QImage.pixel_eq_some]
      refine ⟨⟨by rw [hinv.width_eq]; omega, by rw [hinv.height_eq]; exact hq.2⟩, ?_⟩
      exact hwork _ _ (Or.inr rfl) (by omega) hq.2
    obtain ⟨maxRow, hr⟩ := growMaxRow_total st.mask bgRgb q.1 (st.mask.height + 1) q.2
      (input.height - 1) (by omega) (by rw [hinv.height_eq]; omega) hbelow
    obtain ⟨maxCol, hcg⟩ := growMaxCol_total st.mask bgRgb q.2 (st.mask.width + 1) q.1
      (input.width - 1) (by omega) (by rw [hinv.width_eq]; omega) hright
    obtain ⟨patch, mask1, hex, _⟩ := extractPatch_of_grow bgRgb q.1 q.2 st maxRow maxCol hr hcg
    rw [hvis, hex]
    simp only [if_pos hc]
    exact ⟨_, rfl⟩
  · have hvis : visit bgRgb q.2 q.1 st = .ok st := by
      apply visit_background
      intro hv
      by_contra hne
      exact hc ⟨hv, hne⟩
    rw [hvis]
    simp only [if_neg hc]
    exact ⟨_, rfl⟩

/-- With a background last row and last column the traced scan returns. -/
theorem ScanInv.total (input : QImage) (bgRgb : QRgb) (l : List (Nat × Nat))
    (hsorted : l.Pairwise scansBefore)
    (hl : ∀ q ∈ l, q.1 < input.width ∧ q.2 < input.height)
    (hrow : ∀ x, x < input.width → input.data x (input.height - 1) = bgRgb)
    (hcol : ∀ y, y < input.height → input.data (input.width - 1) y = bgRgb) :
    ∀ (suf visited : List (Nat × Nat)) (st : SegState) (rects : List Rect),
      visited ++ suf = l → ScanInv input bgRgb visited st rects →
      ∃ acc, suf.foldlM (visitTraced bgRgb) (st, rects) = .ok acc := by
  intro suf
  induction suf with
  | nil => intro visited st rects _ _; exact ⟨_, rfl⟩
  | cons q t ih =>
    intro visited st rects hvs hinv
    have hq : q.1 < input.width ∧ q.2 < input.height :=
      hl q (by rw [← hvs]; exact List.mem_append_right _ (List.mem_cons_self _ _))
    obtain ⟨acc, hstep⟩ := visitTraced_total input bgRgb visited st rects q hinv hq hrow hcol
    obtain ⟨st2, rects2⟩ := acc
    have hsplit : l.Pairwise scansBefore := hsorted
    rw [← hvs, List.pairwise_append] at hsplit
    have hbefore : ∀ q1 ∈ visited, scansBefore q1 q :=
      fun q1 hq1 => hsplit.2.2 q1 hq1 q (List.mem_cons_self _ _)
    have hinv2 := ScanInv.step input bgRgb visited st st2 rects rects2 q hinv hbefore hq hstep
    obtain ⟨acc2, h2⟩ := ih (visited ++ [q]) st2 rects2 (by rw [← hvs]; simp) hinv2
    refine ⟨acc2, ?_⟩
    rw [List.foldlM_cons, hstep]
    exact h2

/-! ## One run of fillPatchesPixelsFromMask -/

/-- A scan that returns is a traced scan that returns, with some list of rectangles. -/
theorem segmentTraced_of_segment (bgRgb : QRgb) (mask : QImage) (st : SegState)
    (h : segment bgRgb mask = .ok st) :
    ∃ rects, segmentTraced bgRgb mask = .ok (st, rects) := by
  rw [← segmentTraced_fst] at h
  cases hrun : segmentTraced bgRgb mask with
  | error e => rw [hrun] at h; cases h
  | ok acc =>
    rw [hrun] at h
    obtain ⟨st1, rects⟩ := acc
    injection h with h
    exact ⟨rects, by rw [← h]⟩

/-- A run of `fillPatchesPixelsFromMask` on an object with a mask that returns is a
scan of the mask image that returns. -/
theorem segment_of_fillPatches (w : World) (d : ColorSwatch) (m : ColorSwatchMask)
    (r : Bool × SegState) (hm : d.mMask = some m)
    (h : (fillPatchesPixelsFromMask w d).2 = .ok r) :
    segment (backgroundUsed w m) m.image = .ok r.2 := by
  rw [fillPatches_eq_segment w d m hm] at h
  cases hseg : segment (backgroundUsed w m) m.image with
  | error e => rw [hseg] at h; cases h
  | ok st =>
    rw [hseg] at h
    injection h with h
    rw [← h]

/-- C16: when a run of `fillPatchesPixelsFromMask` on an object with a mask returns, that
is when no growth loop left the image, the rectangles `[row, maxRow) x [col, maxCol)`
it extracted (the trace of the scan that produced the returned locals) lie inside the
image and are pairwise without common pixel, every pixel of the mask image that
differs from the background value lies in one of them, the working copy of the mask
is entirely background at the end, and the patches are, in order, the copies of these
rectangles of the mask image, so that no pixel is copied into two patches. -/
theorem fillPatches_rectangles_partition (w : World) (d : ColorSwatch) (m : ColorSwatchMask)
    (r : Bool × SegState) (hm : d.mMask = some m)
    (hrun : (fillPatchesPixelsFromMask w d).2 = .ok r) :
    ∃ rects,
      segmentTraced (backgroundUsed w m) m.image = .ok (r.2, rects) ∧
      rects.Pairwise Rect.apart ∧
      (∀ R ∈ rects, R.col + R.width ≤ m.image.width ∧ R.row + R.height ≤ m.image.height) ∧
      (∀ x y, x < m.image.width → y < m.image.height →
        m.image.data x y ≠ backgroundUsed w m → ∃ R ∈ rects, R.contains x y) ∧
      (∀ x y, x < m.image.width → y < m.image.height →
        r.2.mask.data x y = backgroundUsed w m) ∧
      List.Forall₂ (patchOfRect m.image) r.2.patches rects := by
  obtain ⟨rects, htr⟩ := segmentTraced_of_segment _ _ _ (segment_of_fillPatches w d m r hm hrun)
  have hinv := segmentTraced_inv _ _ _ _ htr
  have hbg : ∀ x y, x < m.image.width → y < m.image.height →
      r.2.mask.data x y = backgroundUsed w m :=
    fun x y hx hy => hinv.visited_bg (x, y) ((mem_scanOrder _ _ _).mpr ⟨hx, hy⟩)
  refine ⟨rects, htr, hinv.apart, ?_, ?_, hbg, hinv.patches_eq⟩
  · intro R hR
    have := (hinv.inside R hR).2.1
    omega
  · intro x y hx hy hne
    by_contra hno
    have hun := hinv.untouched x y (fun R hR hc => hno ⟨R, hR, hc⟩)
    rw [hbg x y hx hy] at hun
    exact hne hun.symm

/-- C16 (witness): the run on `swatchLoadedMask`, whose mask is `maskTwoRects`. -/
theorem fillPatches_rectangles_partition_witness :
    swatchLoadedMask.mMask = some ⟨"mask64.png", some ⟨0⟩, maskTwoRects⟩ ∧
      (fillPatchesPixelsFromMask demoWorld swatchLoadedMask).2
        = .ok ((fillPatchesPixelsFromMask demoWorld swatchLoadedMask).2.toOption.getD
            (true, SegState.start QImage.null)) ∧
      ∃ rects,
        segmentTraced (backgroundUsed demoWorld ⟨"mask64.png", some ⟨0⟩, maskTwoRects⟩)
            (⟨"mask64.png", some ⟨0⟩, maskTwoRects⟩ : ColorSwatchMask).image
          = .ok (((fillPatchesPixelsFromMask demoWorld swatchLoadedMask).2.toOption.getD
              (true, SegState.start QImage.null)).2, rects) ∧
        rects.Pairwise Rect.apart ∧
        (∀ R ∈ rects,
          R.col + R.width
              ≤ (⟨"mask64.png", some ⟨0⟩, maskTwoRects⟩ : ColorSwatchMask).image.width ∧
            R.row + R.height
              ≤ (⟨"mask64.png", some ⟨0⟩, maskTwoRects⟩ : ColorSwatchMask).image.height) ∧
        (∀ x y, x < (⟨"mask64.png", some ⟨0⟩, maskTwoRects⟩ : ColorSwatchMask).image.width →
          y < (⟨"mask64.png", some ⟨0⟩, maskTwoRects⟩ : ColorSwatchMask).image.height →
          (⟨"mask64.png", some ⟨0⟩, maskTwoRects⟩ : ColorSwatchMask).image.data x y
            ≠ backgroundUsed demoWorld ⟨"mask64.png", some ⟨0⟩, maskTwoRects⟩ →
          ∃ R ∈ rects, R.contains x y) ∧
        (∀ x y, x < (⟨"mask64.png", some ⟨0⟩, maskTwoRects⟩ : ColorSwatchMask).image.width →
          y < (⟨"mask64.png", some ⟨0⟩, maskTwoRects⟩ : ColorSwatchMask).image.height →
          ((fillPatchesPixelsFromMask demoWorld swatchLoadedMask).2.toOption.getD
              (true, SegState.start QImage.null)).2.mask.data x y
            = backgroundUsed demoWorld ⟨"mask64.png", some ⟨0⟩, maskTwoRects⟩) ∧
        List.Forall₂ (patchOfRect (⟨"mask64.png", some ⟨0⟩, maskTwoRects⟩ : ColorSwatchMask).image)
          ((fillPatchesPixelsFromMask demoWorld swatchLoadedMask).2.toOption.getD
            (true, SegState.start QImage.null)).2.patches rects :=
  ⟨rfl, rfl,
    fillPatches_rectangles_partition demoWorld swatchLoadedMask
      ⟨"mask64.png", some ⟨0⟩, maskTwoRects⟩
      ((fillPatchesPixelsFromMask demoWorld swatchLoadedMask).2.toOption.getD
        (true, SegState.start QImage.null))
      rfl rfl⟩

/-- C17: on a mask image whose last row and last column have the background value, the
run of `fillPatchesPixelsFromMask` returns: no growth loop reads outside the image,
every extracted rectangle ends before the last row and the last column
(`maxRow <= height - 1`, `maxCol <= width - 1`) and is at least one pixel wide and
high, as is its patch. When the last row or the last column holds a pixel of another
value, the run ends in a read of a growth loop outside the image. -/
theorem fillPatches_border (w : World) (d : ColorSwatch) (m : ColorSwatchMask)
    (hm : d.mMask = some m) :
    ((∀ x, x < m.image.width → m.image.data x (m.image.height - 1) = backgroundUsed w m) →
      (∀ y, y < m.image.height → m.image.data (m.image.width - 1) y = backgroundUsed w m) →
      ∃ st rects,
        segmentTraced (backgroundUsed w m) m.image = .ok (st, rects) ∧
        (fillPatchesPixelsFromMask w d).2 = .ok (false, st) ∧
        (∀ R ∈ rects, (1 ≤ R.width ∧ 1 ≤ R.height) ∧
          R.row + R.height ≤ m.image.height - 1 ∧ R.col + R.width ≤ m.image.width - 1) ∧
        List.Forall₂ (fun (p : QImage) (R : Rect) => p.width = R.width ∧ p.height = R.height)
          st.patches rects ∧
        (∀ p ∈ st.patches, 1 ≤ p.width ∧ 1 ≤ p.height)) ∧
    (0 < m.image.width → 0 < m.image.height →
      ((∃ x, x < m.image.width ∧ m.image.data x (m.image.height - 1) ≠ backgroundUsed w m) ∨
        (∃ y, y < m.image.height ∧
          m.image.data (m.image.width - 1) y ≠ backgroundUsed w m)) →
      ∃ c r, (fillPatchesPixelsFromMask w d).2 = .error (Error.pixelOutOfRange c r) ∧
        m.image.valid c r = false) := by
  constructor
  · intro hrow hcol
    obtain ⟨acc, hacc⟩ := ScanInv.total m.image (backgroundUsed w m)
      (scanOrder m.image.width m.image.height) (scanOrder_sorted _ _)
      (fun _ hq => (mem_scanOrder _ _ _).mp hq) hrow hcol _ [] _ _ rfl
      (ScanInv.start m.image (backgroundUsed w m))
    obtain ⟨st, rects⟩ := acc
    have hrun : segmentTraced (backgroundUsed w m) m.image = .ok (st, rects) := hacc
    have hinv := segmentTraced_inv _ _ _ _ hrun
    have hsizes : List.Forall₂
        (fun (p : QImage) (R : Rect) => p.width = R.width ∧ p.height = R.height)
        st.patches rects :=
      hinv.patches_eq.imp (fun p R h => ⟨h.1, h.2.1⟩)
    have hfill : (fillPatchesPixelsFromMask w d).2 = .ok (false, st) := by
      rw [fillPatches_eq_segment w d m hm, ← segmentTraced_fst, hrun]; rfl
    refine ⟨st, rects, hrun,
      hfill, ?_, hsizes, ?_⟩
    · intro R hR
      obtain ⟨h1, h2, _⟩ := hinv.inside R hR
      exact ⟨⟨h1.1, h1.2⟩, by omega, by omega⟩
    · intro p hp
      have hex : ∀ (ps : List QImage) (rs : List Rect),
          List.Forall₂ (fun (p : QImage) (R : Rect) => p.width = R.width ∧ p.height = R.height)
            ps rs → ∀ p ∈ ps, ∃ R ∈ rs, p.width = R.width ∧ p.height = R.height := by
        intro ps rs hf
        induction hf with
        | nil => intro p hp; cases hp
        | cons hab _ ih =>
          intro p hp
          rcases List.mem_cons.mp hp with rfl | hp
          · exact ⟨_, List.mem_cons_self _ _, hab⟩
          · obtain ⟨R, hR, h⟩ := ih p hp
            exact ⟨R, List.mem_cons_of_mem _ hR, h⟩
      obtain ⟨R, hR, h1, h2⟩ := hex _ _ hsizes p hp
      have hin := (hinv.inside R hR).1
      rw [h1, h2]
      exact ⟨hin.1, hin.2⟩
  · intro hw hh hedge
    cases hrun : segmentTraced (backgroundUsed w m) m.image with
    | ok acc =>
      exfalso
      obtain ⟨st, rects⟩ := acc
      have hinv := segmentTraced_inv _ _ _ _ hrun
      have hcontra : ∀ x y, x < m.image.width → y < m.image.height →
          (y = m.image.height - 1 ∨ x = m.image.width - 1) →
          m.image.data x y ≠ backgroundUsed w m → False := by
        intro x y hx hy hxy hne
        have hbg := hinv.visited_bg (x, y) ((mem_scanOrder _ _ _).mpr ⟨hx, hy⟩)
        have hun := hinv.untouched x y (by
          intro R hR hc
          have := (hinv.inside R hR).2.1
          unfold Rect.contains at hc
          omega)
        simp only at hbg
        rw [hbg] at hun
        exact hne hun.symm
      rcases hedge with ⟨x, hx, hne⟩ | ⟨y, hy, hne⟩
      · exact hcontra x _ hx (by omega) (Or.inl rfl) hne
      · exact hcontra _ y (by omega) hy (Or.inr rfl) hne
    | error e =>
      have hseg : segment (backgroundUsed w m) m.image = .error e := by
        rw [← segmentTraced_fst, hrun]; rfl
      have herr := hseg
      rw [segment_eq_scanOrder] at herr
      obtain ⟨c, r, h1, h2⟩ := visits_error (backgroundUsed w m) m.image.width m.image.height e
        _ (SegState.start m.image) rfl rfl herr
      refine ⟨c, r, ?_, ?_⟩
      · rw [fillPatches_eq_segment w d m hm, hseg, h1]; rfl
      · simp only [QImage.valid, Bool.and_eq_false_imp, decide_eq_true_eq,
          decide_eq_false_iff_not]
        intro hc
        exact fun hr => h2 ⟨hc, hr⟩

/-- C17 (witness): `maskTwoRects` has a background last row and last column and its run
returns; `maskBottomEdge` has a pixel of another value in its last row and its run
ends in a read outside the image. -/
theorem fillPatches_border_witness :
    (swatchLoadedMask.mMask = some ⟨"mask64.png", some ⟨0⟩, maskTwoRects⟩ ∧
      (∀ x, x < maskTwoRects.width → maskTwoRects.data x (maskTwoRects.height - 1) = 0) ∧
      (∀ y, y < maskTwoRects.height → maskTwoRects.data (maskTwoRects.width - 1) y = 0) ∧
      ∃ st rects,
        segmentTraced (backgroundUsed demoWorld ⟨"mask64.png", some ⟨0⟩, maskTwoRects⟩)
            (⟨"mask64.png", some ⟨0⟩, maskTwoRects⟩ : ColorSwatchMask).image = .ok (st, rects) ∧
        (fillPatchesPixelsFromMask demoWorld swatchLoadedMask).2 = .ok (false, st) ∧
        (∀ R ∈ rects, (1 ≤ R.width ∧ 1 ≤ R.height) ∧
          R.row + R.height
              ≤ (⟨"mask64.png", some ⟨0⟩, maskTwoRects⟩ : ColorSwatchMask).image.height - 1 ∧
            R.col + R.width
              ≤ (⟨"mask64.png", some ⟨0⟩, maskTwoRects⟩ : ColorSwatchMask).image.width - 1) ∧
        List.Forall₂ (fun (p : QImage) (R : Rect) => p.width = R.width ∧ p.height = R.height)
          st.patches rects ∧
        (∀ p ∈ st.patches, 1 ≤ p.width ∧ 1 ≤ p.height)) ∧
    (swatchBottomEdge.mMask = some ⟨"edge.png", some ⟨0⟩, maskBottomEdge⟩ ∧
      maskBottomEdge.data 1 (maskBottomEdge.height - 1) ≠ 0 ∧
      ∃ c r,
        (fillPatchesPixelsFromMask demoWorld swatchBottomEdge).2
          = .error (Error.pixelOutOfRange c r) ∧
        (⟨"edge.png", some ⟨0⟩, maskBottomEdge⟩ : ColorSwatchMask).image.valid c r = false) :=
  ⟨⟨rfl, by decide, by decide,
      (fillPatches_border demoWorld swatchLoadedMask ⟨"mask64.png", some ⟨0⟩, maskTwoRects⟩
        rfl).1 (by decide) (by decide)⟩,
    ⟨rfl, by decide,
      (fillPatches_border demoWorld swatchBottomEdge ⟨"edge.png", some ⟨0⟩, maskBottomEdge⟩
        rfl).2 (by decide) (by decide) (Or.inl ⟨1, by decide, by decide⟩)⟩⟩

end ColorSwatchModel
